import Mathlib

/-!
# fest: ensembles of decision trees (`forest.c`)

A shallow embedding of the ensemble layer of `fest` (`src/forest.c`) and the
properties of it that the specification states.

Conventions of the embedding

* The arithmetic on C `float`/`double` values has two readings.  In the
  exact reading (`computeOOBAUC`, `classWeights`, `bootstrap`,
  `boostUpdate`, ...) the values are rationals (`ℚ`) and no operation
  rounds; the statements made "in exact arithmetic" are statements about
  this reading.  In the binary reading (`computeOOBAUC32`,
  `classWeights32`, `bootstrapWeights32`, and `f32q` in `readHeader`) every
  operation is rounded to binary32 or binary64, to nearest with ties to
  even, as on a machine that evaluates `float` expressions in `float`.
* In the exact reading a division whose divisor is zero (NaN or an infinity
  in C) is modelled in `classifyForest` (through `fdiv`), where the
  specification discusses it; elsewhere a quotient with a zero divisor
  reads 0 and the statements carry the hypotheses that keep every divisor
  non-zero.
* C `int` values are `Int`; counts of examples and loop counters that start
  at `0` are `Nat`.  No quantity of the program comes near the width of an
  `int`, so wrap-around is not modelled.
* A C array is a total function from its index type.  Labels in `{0,1}`
  and votes within range keep every index the code uses inside the allocated
  block; a statement that depends on them carries them as hypotheses.
* `tree.h`, `dataset.h`, `forest.h` and the tree module (`grow`,
  `classifyTrainingData`, `classifyOOBData`, `classifyBag`, `classifyBoost`,
  `writeTree`, `readTree`) are not part of the sources at hand: the record
  types are read off the field accesses of `forest.c`, and the tree module
  and the two `libm` functions (`exp`, `sqrt`) are parameters.
* A file is the list of its characters.  The conversions `%d`, `%g` and
  `%*s` of `fprintf` and `fscanf` are defined after the C standard, on
  decimal text; `fopen` is the parameter that says whether the file opens.
-/

namespace Fest

/-! ## Control flow -/

/-- The loop `for (i = 0; i < n; i++) s = body(i, s);`: the first `k`
iterations, then iteration `k`. -/
def forLoop {σ : Type} (n : Nat) (body : Nat → σ → σ) (s : σ) : σ :=
  match n with
  | 0 => s
  | k + 1 => body k (forLoop k body s)

/-- The loop `for (v = lo; v < hi; v++) s = body(v, s);` over C `int`s
(`v <= hi` is written `v < hi + 1`). -/
def forInt {σ : Type} (lo hi : Int) (body : Int → σ → σ) (s : σ) : σ :=
  forLoop (hi - lo).toNat (fun k acc => body (lo + (k : Int)) acc) s

/-! ## Data model -/

/-- Committee codes of `forest.h` (spec §4.3: 1=Bagging, 2=Boosting,
3=RandomForest; the help text of `learn.c` agrees). -/
def BAGGING : Int := 1

/-- Committee code of boosting. -/
def BOOSTING : Int := 2

/-- Committee code of random forests. -/
def RANDOMFOREST : Int := 3

/-- A tree root (`node_t*`): an opaque handle that only the tree module
interprets. -/
abbrev node_ptr : Type := Nat

/-- The fields of `dataset_t` that `forest.c` touches. -/
structure dataset_t where
  /-- number of features -/
  nfeat : Nat
  /-- number of examples -/
  nex : Nat
  /-- label of each example (0 or 1) -/
  target : Nat → Int
  /-- weight of each example -/
  weight : Nat → ℚ
  /-- cumulative out-of-bag vote of each example -/
  oobvotes : Nat → Int

/-- The fields of `tree_t` that `forest.c` touches. -/
structure tree_t where
  /-- inclusion flag of each example -/
  valid : Nat → Int
  /-- per-feature scratch flags -/
  used : Nat → Int
  /-- feature indices -/
  feats : Nat → Int
  /-- depth budget -/
  maxdepth : Int
  /-- committee code -/
  committee : Int
  /-- features per node -/
  fpn : Int
  /-- prediction of the tree for each example -/
  pred : Nat → ℚ
  /-- root of the grown tree -/
  root : node_ptr

/-- The fields of `forest_t`. -/
structure forest_t where
  /-- committee code -/
  committee : Int
  /-- depth budget of every tree -/
  maxdepth : Int
  /-- feature-subsample factor -/
  factor : ℚ
  /-- number of trees to grow -/
  ntrees : Int
  /-- number of trees grown -/
  ngrown : Int
  /-- number of features -/
  nfeat : Int
  /-- weight multiplier of the negative class -/
  wneg : ℚ
  /-- out-of-bag reporting flag -/
  oob : Int
  /-- out-of-bag vote stream: `none` is the null pointer, otherwise the
  chunks written so far -/
  oobfile : Option (List String)
  /-- roots of the grown trees -/
  tree : Nat → node_ptr

/-- The source of `rand()`: the values it is going to return and the number
of values handed out so far. -/
structure rand_state where
  /-- the values of the successive calls -/
  stream : Nat → Nat
  /-- number of calls made -/
  pos : Nat

/-- One call of `rand()`. -/
def rand (g : rand_state) : Nat × rand_state :=
  (g.stream g.pos, { g with pos := g.pos + 1 })

/-- The tree module that `forest.c` calls.  Its functions see the tree
request and the dataset and do not write to the dataset (spec §2: weights and
votes are mutated by the core only); `grow` may consume random numbers.
`grow` yields the root it stores in `tree->root`, the two classification
passes yield the predictions they store in `tree->pred`. -/
structure tree_module where
  /-- the call `grow(&tree, d)` -/
  grow : tree_t → dataset_t → rand_state → node_ptr × rand_state
  /-- the call `classifyTrainingData(&tree, tree.root, d)` -/
  classifyTrainingData : tree_t → node_ptr → dataset_t → Nat → ℚ
  /-- the call `classifyOOBData(tree, tree->root, d)` -/
  classifyOOBData : tree_t → node_ptr → dataset_t → Nat → ℚ
  /-- the call `classifyBoost(root, example)` -/
  classifyBoost : node_ptr → (Nat → ℚ) → ℚ
  /-- the call `classifyBag(root, example)` -/
  classifyBag : node_ptr → (Nat → ℚ) → ℚ

/-- The two functions of `math.h` that `growForest` calls. -/
structure libm where
  /-- the function `exp` -/
  exp : ℚ → ℚ
  /-- the function `sqrt` -/
  sqrt : ℚ → ℚ

/-- The value of a floating-point division: a number, an infinity or NaN. -/
inductive fval where
  | fin (q : ℚ)
  | inf (negative : Bool)
  | nan
  deriving DecidableEq

/-- Floating-point division in exact arithmetic, with the IEEE results of a
zero divisor. -/
def fdiv (a b : ℚ) : fval :=
  if b = 0 then
    if a = 0 then fval.nan else fval.inf (decide (a < 0))
  else fval.fin (a / b)

/-- One row of the out-of-bag report: the values `reportOOBError` prints. -/
structure oob_row where
  /-- tree number, `iter+1` -/
  tree : Int
  /-- the value `100*(1-acc)` -/
  err : ℚ
  /-- the value `100*(1-spec)` -/
  negerr : ℚ
  /-- the value `100*(1-sens)` -/
  poserr : ℚ
  /-- the value `100*auc` -/
  auc : ℚ

/-- What `forest.c` prints on the standard output. -/
inductive stdout_item where
  | header
  | row (r : oob_row)

/-- The function `initForest`. -/
def initForest (f : forest_t) (committee maxdepth : Int) (param : ℚ) (trees : Int) (wneg : ℚ)
    (oob : Int) (oobfile : Option (List String)) : forest_t :=
  { f with
    committee := committee
    maxdepth := maxdepth
    factor := param
    ntrees := trees
    ngrown := 0
    wneg := wneg
    oob := oob
    oobfile := oobfile }

/-! ## Out-of-bag votes (`forest.c` lines 32-56) -/

/-- Lines 36-43 of `tabulateOOBVotes`: the vote loop, given the predictions
that `classifyOOBData` left in `tree->pred`. -/
def tabulateLoop (pred : Nat → ℚ) (d : dataset_t) : dataset_t :=
  forLoop d.nex (fun i d =>
    if d.weight i = 0 then
      if pred i > 1 / 2 then
        { d with oobvotes := Function.update d.oobvotes i (d.oobvotes i + 1) }
      else
        { d with oobvotes := Function.update d.oobvotes i (d.oobvotes i - 1) }
    else d) d

/-- The function `tabulateOOBVotes`: classify the examples with the tree,
then run the vote loop. -/
def tabulateOOBVotes (tm : tree_module) (tree : tree_t) (d : dataset_t) : tree_t × dataset_t :=
  let tree := { tree with pred := tm.classifyOOBData tree tree.root d }
  (tree, tabulateLoop tree.pred d)

/-- The function `outputOOBVotes`: the chunks it `fprintf`s, appended to the
chunks already written to `oobfile`. -/
def outputOOBVotes (tree : tree_t) (d : dataset_t) (oobfile : List String) : List String :=
  forLoop d.nex (fun i out =>
    let out :=
      if d.weight i ≠ 0 then out ++ ["0"]
      else if tree.pred i > 1 / 2 then out ++ ["1"]
      else out ++ ["-1"]
    if (i : Int) < (d.nex : Int) - 1 then out ++ [" "] else out) oobfile ++ ["\n"]

/-! ## `computeOOBAUC` (`forest.c` lines 58-118) -/

/-- Lines 65-70: the zeroed `labelCounts` block after the counting loop. -/
def labelCounts (d : dataset_t) (treesSoFar : Int) : Int → Int :=
  let rowsize : Int := 1 + 2 * treesSoFar
  let ctr : Int := treesSoFar
  forLoop d.nex (fun i lc =>
    let offset : Int := d.target i * rowsize + (ctr + d.oobvotes i)
    Function.update lc offset (lc offset + 1)) (fun _ => 0)

/-- Lines 85-93: `(tp, fp, tn, fn)` of the rule "say yes at `>= votethresh`". -/
def threshCounts (lc : Int → Int) (treesSoFar votethresh : Int) : Int × Int × Int × Int :=
  let rowsize : Int := 1 + 2 * treesSoFar
  let ctr : Int := treesSoFar
  let tnfn : Int × Int :=
    forInt (-treesSoFar) votethresh (fun v p =>
      (p.1 + lc (0 * rowsize + ctr + v), p.2 + lc (1 * rowsize + ctr + v))) (0, 0)
  let tpfp : Int × Int :=
    forInt votethresh (treesSoFar + 1) (fun v p =>
      (p.1 + lc (1 * rowsize + ctr + v), p.2 + lc (0 * rowsize + ctr + v))) (0, 0)
  (tpfp.1, tpfp.2, tnfn.1, tnfn.2)

/-- Lines 76-98: the zeroed `sens` and `spec` blocks, the sentinel entry, and
the loop over the thresholds. -/
def sensSpec (lc : Int → Int) (treesSoFar : Int) : (Int → ℚ) × (Int → ℚ) :=
  let ctr : Int := treesSoFar
  let sens : Int → ℚ := Function.update (fun _ => 0) (ctr + treesSoFar + 1) 0
  let spec : Int → ℚ := Function.update (fun _ => 0) (ctr + treesSoFar + 1) 1
  forInt (-treesSoFar) (treesSoFar + 1) (fun votethresh ss =>
    let c := threshCounts lc treesSoFar votethresh
    let tp := c.1
    let fp := c.2.1
    let tn := c.2.2.1
    let fn := c.2.2.2
    (Function.update ss.1 (ctr + votethresh) ((tp : ℚ) * 1 / ((tp + fn : Int) : ℚ)),
     Function.update ss.2 (ctr + votethresh) ((tn : ℚ) * 1 / ((tn + fp : Int) : ℚ))))
    (sens, spec)

/-- The function `computeOOBAUC`: the area under the (specificity,
sensitivity) curve of the cumulative votes, by trapezoids. -/
def computeOOBAUC (d : dataset_t) (treesSoFar : Int) : ℚ :=
  let ctr : Int := treesSoFar
  let ss := sensSpec (labelCounts d treesSoFar) treesSoFar
  let sens := ss.1
  let spec := ss.2
  forInt (-treesSoFar) (treesSoFar + 1) (fun v auc =>
    let i := ctr + v
    let i1 := ctr + v + 1
    auc + (spec i1 - spec i) * (sens i + sens i1) / 2) 0

/-! ## `reportOOBError` (`forest.c` lines 120-141) -/

/-- Lines 122-129: the confusion matrix `confusion[label][margin]`. -/
def confusion (d : dataset_t) : Int × Int → Int :=
  forLoop d.nex (fun i c =>
    if d.oobvotes i = 0 then c
    else
      let margin : Int := if d.oobvotes i > 0 then 1 else 0
      Function.update c (d.target i, margin) (c (d.target i, margin) + 1)) (fun _ => 0)

/-- The function `reportOOBError`: the row it prints.  A quotient with a zero
divisor, which C prints as `nan`, reads 0 here. -/
def reportOOBError (d : dataset_t) (iter : Int) : oob_row :=
  let c := confusion d
  let tp : ℚ := c (1, 1)
  let fn : ℚ := c (1, 0)
  let fp : ℚ := c (0, 1)
  let tn : ℚ := c (0, 0)
  let acc := (tp + tn) / (tp + tn + fp + fn)
  let sens := tp / (tp + fn)
  let spec := tn / (tn + fp)
  let auc := computeOOBAUC d (iter + 1)
  { tree := iter + 1
    err := 100 * (1 - acc)
    negerr := 100 * (1 - spec)
    poserr := 100 * (1 - sens)
    auc := 100 * auc }

/-! ## `growForest` (`forest.c` lines 148-224) -/

/-- The variables of `growForest` that live across its rounds, with the
random source and the standard output. -/
structure grow_state where
  /-- the forest `*f` -/
  f : forest_t
  /-- the dataset `*d` -/
  d : dataset_t
  /-- the local `tree` -/
  tree : tree_t
  /-- the source of `rand()` -/
  rng : rand_state
  /-- the standard output -/
  out : List stdout_item

/-- Lines 164-169: the class counts `c` and the base class weights `w`. -/
def classWeights (wneg : ℚ) (d : dataset_t) : Int → ℚ :=
  let c : Int → ℚ :=
    forLoop d.nex (fun i c => Function.update c (d.target i) (c (d.target i) + 1)) (fun _ => 0)
  let w : Int → ℚ := fun _ => 0
  let w := Function.update w 0 (wneg / (wneg * c 0 + c 1))
  Function.update w 1 (1 / (wneg * c 0 + c 1))

/-- The cast `(int)x`: truncation towards zero. -/
def truncInt (x : ℚ) : Int := if 0 ≤ x then ⌊x⌋ else ⌈x⌉

/-- Lines 172-175: the initial flags and weights of boosting. -/
def boostInit (w : Int → ℚ) (s : grow_state) : grow_state :=
  forLoop s.d.nex (fun i s =>
    { s with
      tree := { s.tree with valid := Function.update s.tree.valid i 1 }
      d := { s.d with weight := Function.update s.d.weight i (w (s.d.target i)) } }) s

/-- Lines 153-182: the set-up before the round loop.  Memory from `malloc`
reads as zero until it is written. -/
def growInit (m : libm) (f : forest_t) (d : dataset_t) (rng : rand_state)
    (out : List stdout_item) : (Int → ℚ) × grow_state :=
  let f := { f with nfeat := (d.nfeat : Int), tree := fun _ => 0 }
  let feats : Nat → Int := forLoop d.nfeat (fun i a => Function.update a i (i : Int)) (fun _ => 0)
  let tree : tree_t :=
    { valid := fun _ => 0
      used := fun _ => 0
      feats := feats
      maxdepth := f.maxdepth
      committee := f.committee
      fpn := 0
      pred := fun _ => 0
      root := 0 }
  let w := classWeights f.wneg d
  let s : grow_state := { f := f, d := d, tree := tree, rng := rng, out := out }
  let s := if s.f.committee = BOOSTING then boostInit w s else s
  let s := if s.f.oob ≠ 0 then { s with out := s.out ++ [stdout_item.header] } else s
  let s :=
    if s.f.committee = RANDOMFOREST then
      { s with tree := { s.tree with fpn := truncInt (s.f.factor * m.sqrt (s.d.nfeat : ℚ)) } }
    else
      { s with tree := { s.tree with fpn := (s.d.nfeat : Int) } }
  (w, s)

/-- Lines 188-192: the exponential reweighting loop, with the running `sum`. -/
def boostUpdate (m : libm) (pred : Nat → ℚ) (d : dataset_t) : dataset_t × ℚ :=
  forLoop d.nex (fun i p =>
    let d := p.1
    let wi : ℚ := d.weight i * m.exp (((-(2 * d.target i - 1) : Int) : ℚ) * pred i)
    ({ d with weight := Function.update d.weight i wi }, p.2 + wi)) (d, 0)

/-- Lines 193-194: the division of every weight by `sum`. -/
def boostNormalize (sum : ℚ) (d : dataset_t) : dataset_t :=
  forLoop d.nex (fun i d =>
    { d with weight := Function.update d.weight i (d.weight i / sum) }) d

/-- Lines 186-195: a boosting round. -/
def boostRound (tm : tree_module) (m : libm) (s : grow_state) : grow_state :=
  let g := tm.grow s.tree s.d s.rng
  let s := { s with tree := { s.tree with root := g.1 }, rng := g.2 }
  let s := { s with tree := { s.tree with pred := tm.classifyTrainingData s.tree s.tree.root s.d } }
  let p := boostUpdate m s.tree.pred s.d
  { s with d := boostNormalize p.2 p.1 }

/-- Lines 198-206: bootstrap sampling. -/
def bootstrap (w : Int → ℚ) (s : grow_state) : grow_state :=
  let s := forLoop s.d.nex (fun i s =>
    { s with
      tree := { s.tree with valid := Function.update s.tree.valid i 0 }
      d := { s.d with weight := Function.update s.d.weight i 0 } }) s
  forLoop s.d.nex (fun _ s =>
    let x := rand s.rng
    let r : Nat := x.1 % s.d.nex
    { s with
      rng := x.2
      tree := { s.tree with valid := Function.update s.tree.valid r 1 }
      d := { s.d with weight := Function.update s.d.weight r (s.d.weight r + w (s.d.target r)) } }) s

/-- Lines 208-215: the out-of-bag step of a round. -/
def oobStep (tm : tree_module) (t : Nat) (s : grow_state) : grow_state :=
  if s.f.oob ≠ 0 then
    let s := forLoop s.d.nex (fun i s =>
      { s with tree := { s.tree with valid := Function.update s.tree.valid i 1 } }) s
    let td := tabulateOOBVotes tm s.tree s.d
    let s := { s with tree := td.1, d := td.2 }
    let s := { s with out := s.out ++ [stdout_item.row (reportOOBError s.d (t : Int))] }
    match s.f.oobfile with
    | some file => { s with f := { s.f with oobfile := some (outputOOBVotes s.tree s.d file) } }
    | none => s
  else s

/-- Lines 197-215: a bagging or random-forest round. -/
def bagRound (tm : tree_module) (w : Int → ℚ) (t : Nat) (s : grow_state) : grow_state :=
  let s := bootstrap w s
  let g := tm.grow s.tree s.d s.rng
  let s := { s with tree := { s.tree with root := g.1 }, rng := g.2 }
  oobStep tm t s

/-- Lines 184-218: round `t` of the loop of `growForest`. -/
def growRound (tm : tree_module) (m : libm) (w : Int → ℚ) (t : Nat) (s : grow_state) :
    grow_state :=
  let s := if s.f.committee = BOOSTING then boostRound tm m s else bagRound tm w t s
  { s with f := { s.f with tree := Function.update s.f.tree t s.tree.root, ngrown := s.f.ngrown + 1 } }

/-- The first `k` rounds of the loop of `growForest`. -/
def growRounds (tm : tree_module) (m : libm) (w : Int → ℚ) (k : Nat) (s : grow_state) :
    grow_state :=
  forLoop k (growRound tm m w) s

/-- The function `growForest`: the state when it returns. -/
def growForest (tm : tree_module) (m : libm) (f : forest_t) (d : dataset_t) (rng : rand_state)
    (out : List stdout_item) : grow_state :=
  let ws := growInit m f d rng out
  growRounds tm m ws.1 ws.2.f.ntrees.toNat ws.2

/-- The state of `growForest` after its first `k` rounds. -/
def roundState (tm : tree_module) (m : libm) (f : forest_t) (d : dataset_t) (rng : rand_state)
    (out : List stdout_item) (k : Nat) : grow_state :=
  growRounds tm m (growInit m f d rng out).1 k (growInit m f d rng out).2

/-- The predictions that a boosting round entered in state `s` leaves in
`tree.pred` (lines 186-187). -/
def boostPred (tm : tree_module) (s : grow_state) : Nat → ℚ :=
  tm.classifyTrainingData { s.tree with root := (tm.grow s.tree s.d s.rng).1 }
    (tm.grow s.tree s.d s.rng).1 s.d

/-- The variable `sum` of a boosting round entered in state `s`, after the
loop of lines 189-192. -/
def boostSum (tm : tree_module) (m : libm) (s : grow_state) : ℚ :=
  (boostUpdate m (boostPred tm s) s.d).2

/-- The root that `grow` returns in the round entered in state `s`. -/
def grownRoot (tm : tree_module) (w : Int → ℚ) (s : grow_state) : node_ptr :=
  if s.f.committee = BOOSTING then (tm.grow s.tree s.d s.rng).1
  else (tm.grow (bootstrap w s).tree (bootstrap w s).d (bootstrap w s).rng).1

/-- The first `j` indices drawn by the bootstrap sampling entered with
random source `g`, on `n` examples, in the order of the draws. -/
def drawsUpTo (g : rand_state) (n j : Nat) : List Nat :=
  (List.range j).map (fun k => g.stream (g.pos + k) % n)

/-- The `n` indices drawn by the bootstrap sampling entered with random
source `g`, on `n` examples, in the order of the draws. -/
def draws (g : rand_state) (n : Nat) : List Nat := drawsUpTo g n n

/-! ## `classifyForest` (`forest.c` lines 226-240) -/

/-- The function `classifyForest`. -/
def classifyForest (tm : tree_module) (f : forest_t) (ex : Nat → ℚ) : fval :=
  let sum : ℚ :=
    if f.committee = BOOSTING then
      forLoop f.ngrown.toNat (fun i sum => sum + tm.classifyBoost (f.tree i) ex) 0
    else
      forLoop f.ngrown.toNat (fun i sum => sum + tm.classifyBag (f.tree i) ex) 0
  fdiv sum (f.ngrown : ℚ)

/-! ## The ROC-AUC of the specification -/

/-- The number of examples with label `l` whose cumulative vote satisfies `p`. -/
def countVotes (d : dataset_t) (l : Int) (p : Int → Prop) [DecidablePred p] : Nat :=
  ((Finset.range d.nex).filter (fun i => d.target i = l ∧ p (d.oobvotes i))).card

/-- The number of positive examples (label 1). -/
def posCount (d : dataset_t) : Nat := countVotes d 1 (fun _ => True)

/-- The number of negative examples (label 0). -/
def negCount (d : dataset_t) : Nat := countVotes d 0 (fun _ => True)

/-- The number of (positive, negative) pairs of examples in which the
positive one has the strictly greater cumulative vote. -/
def pairsGreater (d : dataset_t) : Nat :=
  ((Finset.range d.nex ×ˢ Finset.range d.nex).filter (fun p =>
    d.target p.1 = 1 ∧ d.target p.2 = 0 ∧ d.oobvotes p.2 < d.oobvotes p.1)).card

/-- The number of (positive, negative) pairs of examples with equal
cumulative votes. -/
def pairsEqual (d : dataset_t) : Nat :=
  ((Finset.range d.nex ×ˢ Finset.range d.nex).filter (fun p =>
    d.target p.1 = 1 ∧ d.target p.2 = 0 ∧ d.oobvotes p.1 = d.oobvotes p.2)).card

/-- The standard ROC-AUC of the cumulative votes: the fraction of (positive,
negative) pairs that the votes rank correctly, a tie counting one half. -/
def rocAUC (d : dataset_t) : ℚ :=
  ((pairsGreater d : ℚ) + (pairsEqual d : ℚ) / 2) / ((posCount d : ℚ) * (negCount d : ℚ))

/-- Labels are 0 or 1 (spec §3). -/
def binaryLabels (d : dataset_t) : Prop := ∀ i, i < d.nex → d.target i = 0 ∨ d.target i = 1

/-- Every cumulative vote lies in `[-t, t]`. -/
def votesWithin (d : dataset_t) (t : Int) : Prop :=
  ∀ i, i < d.nex → -t ≤ d.oobvotes i ∧ d.oobvotes i ≤ t

/-- Whether the labels are 0 or 1 can be checked example by example. -/
instance decBinaryLabels (d : dataset_t) : Decidable (binaryLabels d) := by
  unfold binaryLabels; infer_instance

/-- Whether the votes are within `[-t, t]` can be checked example by example. -/
instance decVotesWithin (d : dataset_t) (t : Int) : Decidable (votesWithin d t) := by
  unfold votesWithin; infer_instance

/-! ## Concrete datasets -/

/-- The dataset whose examples have the listed labels, weights and
cumulative votes (entries past the end of a list read as 0). -/
def mkDataset (targets : List Int) (weights : List ℚ) (votes : List Int) : dataset_t :=
  { nfeat := 0
    nex := targets.length
    target := fun i => targets.getD i 0
    weight := fun i => weights.getD i 0
    oobvotes := fun i => votes.getD i 0 }

/-- A forest record with every field zero, as handed to `initForest`. -/
def zeroForest : forest_t :=
  { committee := 0
    maxdepth := 0
    factor := 0
    ntrees := 0
    ngrown := 0
    nfeat := 0
    wneg := 0
    oob := 0
    oobfile := none
    tree := fun _ => 0 }

/-- A tree module for concrete runs: `grow` returns the handle `root` and
draws no random number, both classification passes predict `p i` for example
`i`, and the two scoring functions return `score`. -/
def constTrees (root : node_ptr) (p : Nat → ℚ) (score : ℚ) : tree_module :=
  { grow := fun _ _ g => (root, g)
    classifyTrainingData := fun _ _ _ => p
    classifyOOBData := fun _ _ _ => p
    classifyBoost := fun _ _ => score
    classifyBag := fun _ _ => score }

/-- The random source that returns the listed values in turn (and 0 after
the end of the list). -/
def listRand (xs : List Nat) : rand_state :=
  { stream := fun k => xs.getD k 0, pos := 0 }

/-- A `libm` stand-in for concrete runs: `exp` and `sqrt` are replaced by
rational-valued functions. -/
def ratLibm : libm :=
  { exp := fun x => 1 + x + x ^ 2 / 2
    sqrt := fun x => x }

/-- A `libm` stand-in whose `exp` is strictly increasing and positive on the
arguments of the concrete runs. -/
def incLibm : libm :=
  { exp := fun x => x + 3
    sqrt := fun x => x }

/-! ## The text of the out-of-bag vote stream -/

/-- The token that `outputOOBVotes` writes for example `i`. -/
def oobToken (tree : tree_t) (d : dataset_t) (i : Nat) : String :=
  if d.weight i ≠ 0 then "0" else if tree.pred i > 1 / 2 then "1" else "-1"

/-- The number that a token of the vote stream denotes. -/
def tokenValue (s : String) : Int :=
  if s = "1" then 1 else if s = "-1" then -1 else 0

/-! ## The out-of-bag error of the specification -/

/-- Reading cell `i` of a block of `size` cells: `none` outside the block. -/
def readAt {α : Type} (size : Int) (a : Int → α) (i : Int) : Option α :=
  if 0 ≤ i ∧ i < size then some (a i) else none

/-- Writing cell `i` of a block of `size` cells: `none` outside the block. -/
def writeAt {α : Type} (size : Int) (a : Int → α) (i : Int) (v : α) : Option (Int → α) :=
  if 0 ≤ i ∧ i < size then some (Function.update a i v) else none

/-- The loop `for (i = 0; i < n; i++)` with a body that can fail. -/
def forLoopM {σ : Type} (n : Nat) (body : Nat → σ → Option σ) (s : σ) : Option σ :=
  match n with
  | 0 => some s
  | k + 1 => (forLoopM k body s).bind (body k)

/-- The loop `for (v = lo; v < hi; v++)` with a body that can fail. -/
def forIntM {σ : Type} (lo hi : Int) (body : Int → σ → Option σ) (s : σ) : Option σ :=
  forLoopM (hi - lo).toNat (fun k acc => body (lo + (k : Int)) acc) s

/-- Lines 65-70 with checked accesses to `labelCounts` (`2 * rowsize` cells). -/
def labelCountsChecked (d : dataset_t) (treesSoFar : Int) : Option (Int → Int) :=
  let rowsize : Int := 1 + 2 * treesSoFar
  let ctr : Int := treesSoFar
  forLoopM d.nex (fun i lc =>
    let offset : Int := d.target i * rowsize + (ctr + d.oobvotes i)
    (readAt (2 * rowsize) lc offset).bind (fun x =>
      writeAt (2 * rowsize) lc offset (x + 1))) (fun _ => 0)

/-- Lines 85-93 with checked accesses to `labelCounts`. -/
def threshCountsChecked (lc : Int → Int) (treesSoFar votethresh : Int) :
    Option (Int × Int × Int × Int) :=
  let rowsize : Int := 1 + 2 * treesSoFar
  let ctr : Int := treesSoFar
  (forIntM (-treesSoFar) votethresh (fun v p =>
      (readAt (2 * rowsize) lc (0 * rowsize + ctr + v)).bind (fun a =>
        (readAt (2 * rowsize) lc (1 * rowsize + ctr + v)).bind (fun b =>
          some (p.1 + a, p.2 + b)))) ((0 : Int), (0 : Int))).bind (fun tnfn =>
    (forIntM votethresh (treesSoFar + 1) (fun v p =>
        (readAt (2 * rowsize) lc (1 * rowsize + ctr + v)).bind (fun a =>
          (readAt (2 * rowsize) lc (0 * rowsize + ctr + v)).bind (fun b =>
            some (p.1 + a, p.2 + b)))) ((0 : Int), (0 : Int))).bind (fun tpfp =>
      some (tpfp.1, tpfp.2, tnfn.1, tnfn.2)))

/-- Lines 76-98 with checked accesses to `sens` and `spec` (`1 + rowsize`
cells each) and to `labelCounts`. -/
def sensSpecChecked (lc : Int → Int) (treesSoFar : Int) : Option ((Int → ℚ) × (Int → ℚ)) :=
  let rowsize : Int := 1 + 2 * treesSoFar
  let ctr : Int := treesSoFar
  (writeAt (1 + rowsize) (fun _ => (0 : ℚ)) (ctr + treesSoFar + 1) 0).bind (fun sens =>
    (writeAt (1 + rowsize) (fun _ => (0 : ℚ)) (ctr + treesSoFar + 1) 1).bind (fun spec =>
      forIntM (-treesSoFar) (treesSoFar + 1) (fun votethresh ss =>
        (threshCountsChecked lc treesSoFar votethresh).bind (fun c =>
          (writeAt (1 + rowsize) ss.1 (ctr + votethresh)
              ((c.1 : ℚ) * 1 / ((c.1 + c.2.2.2 : Int) : ℚ))).bind (fun sens =>
            (writeAt (1 + rowsize) ss.2 (ctr + votethresh)
                ((c.2.2.1 : ℚ) * 1 / ((c.2.2.1 + c.2.1 : Int) : ℚ))).bind (fun spec =>
              some (sens, spec))))) (sens, spec)))

/-- The function `computeOOBAUC` with every access to `labelCounts`, `sens`
and `spec` checked. -/
def computeOOBAUCChecked (d : dataset_t) (treesSoFar : Int) : Option ℚ :=
  let rowsize : Int := 1 + 2 * treesSoFar
  let ctr : Int := treesSoFar
  (labelCountsChecked d treesSoFar).bind (fun lc =>
    (sensSpecChecked lc treesSoFar).bind (fun ss =>
      forIntM (-treesSoFar) (treesSoFar + 1) (fun v auc =>
        (readAt (1 + rowsize) ss.2 (ctr + v + 1)).bind (fun s1 =>
          (readAt (1 + rowsize) ss.2 (ctr + v)).bind (fun s0 =>
            (readAt (1 + rowsize) ss.1 (ctr + v)).bind (fun e0 =>
              (readAt (1 + rowsize) ss.1 (ctr + v + 1)).bind (fun e1 =>
                some (auc + (s1 - s0) * (e0 + e1) / 2)))))) 0))

/-! ## The sampling loops, slot by slot -/

/-- Lines 198-201: the loop that clears the flags and the weights. -/
def clearSlots (s : grow_state) : grow_state :=
  forLoop s.d.nex (fun i s =>
    { s with
      tree := { s.tree with valid := Function.update s.tree.valid i 0 }
      d := { s.d with weight := Function.update s.d.weight i 0 } }) s

/-- Lines 202-206: the first `j` iterations of the drawing loop. -/
def sampleSlots (w : Int → ℚ) (j : Nat) (s : grow_state) : grow_state :=
  forLoop j (fun _ s =>
    let x := rand s.rng
    let r : Nat := x.1 % s.d.nex
    { s with
      rng := x.2
      tree := { s.tree with valid := Function.update s.tree.valid r 1 }
      d := { s.d with weight := Function.update s.d.weight r (s.d.weight r + w (s.d.target r)) } }) s

/-! ## Text streams (`stdio.h`, `ctype.h`)

The model file is text.  A stream is the list of the characters that are
still to be read; `fprintf` appends characters.  The conversions `%d`, `%g`
and `%*s` follow the C standard for decimal input; the forms `inf`, `nan`
and hexadecimal constants of `%g` are not modelled and read as a matching
failure. -/

/-- The value `EOF` of `stdio.h`. -/
def EOF : Int := -1

/-- The function `isspace` of `ctype.h` in the C locale: the blank and the
characters 9 to 13. -/
def isspace (c : Char) : Bool := c.toNat == 32 || (9 ≤ c.toNat && c.toNat ≤ 13)

/-- The function `isdigit` of `ctype.h`. -/
def isdigit (c : Char) : Bool := 48 ≤ c.toNat && c.toNat ≤ 57

/-- The character of the decimal digit `d`. -/
def digitChar (d : Nat) : Char := Char.ofNat (48 + d)

/-- The value of a decimal digit character. -/
def digitVal (c : Char) : Nat := c.toNat - 48

/-- The decimal digits of `n`, most significant first, found in at most
`fuel + 1` steps. -/
def decDigits : Nat → Nat → List Char
  | 0, n => [digitChar (n % 10)]
  | fuel + 1, n =>
    if n < 10 then [digitChar n] else decDigits fuel (n / 10) ++ [digitChar (n % 10)]

/-- The decimal text of a natural number. -/
def natText (n : Nat) : List Char := decDigits n n

/-- The conversion `%d` of `fprintf`. -/
def fmt_d (n : Int) : List Char :=
  if n < 0 then '-' :: natText n.natAbs else natText n.natAbs

/-- The last `k` decimal digits of `n`, leading zeros included. -/
def fixedDigits : Nat → Nat → List Char
  | 0, _ => []
  | k + 1, n => fixedDigits k (n / 10) ++ [digitChar (n % 10)]

/-- Removal of trailing zeros: of the `k` fraction digits of `n / 10 ^ k`
the zeros at the end are dropped; the result is the number of digits kept
and the number they spell with the integer part. -/
def stripZeros : Nat → Nat → Nat × Nat
  | 0, n => (0, n)
  | k + 1, n => if n % 10 = 0 then stripZeros k (n / 10) else (k + 1, n)

/-- The text of `m / 10 ^ p` with `p` fraction digits, trailing zeros and
a point without fraction removed (as `%g` does without the `#` flag). -/
def gText (p m : Nat) : List Char :=
  let kn := stripZeros p m
  natText (kn.2 / 10 ^ kn.1)
    ++ (if kn.1 = 0 then [] else '.' :: fixedDigits kn.1 (kn.2 % 10 ^ kn.1))

/-- The exponent of the style `e`: a sign and at least two digits. -/
def expText (X : Int) : List Char :=
  (if X < 0 then '-' else '+')
    :: (if X.natAbs < 10 then '0' :: natText X.natAbs else natText X.natAbs)

/-- The largest `X` with `10 ^ X * q <= p`, for `q <= p`, counting up from
`X`. -/
def log10Up : Nat → Nat → Nat → Nat → Nat
  | 0, _, _, X => X
  | fuel + 1, p, q, X => if 10 ^ (X + 1) * q ≤ p then log10Up fuel p q (X + 1) else X

/-- The smallest `Y` with `q <= p * 10 ^ Y`, for `0 < p < q`, counting up
from `Y`. -/
def log10Down : Nat → Nat → Nat → Nat → Nat
  | 0, _, _, Y => Y
  | fuel + 1, p, q, Y => if q ≤ p * 10 ^ Y then Y else log10Down fuel p q (Y + 1)

/-- The decimal exponent of `p / q > 0`: the `X` with
`10 ^ X <= p / q < 10 ^ (X + 1)`. -/
def decExponent (p q : Nat) : Int :=
  if q ≤ p then (log10Up p p q 0 : Int) else -(log10Down q p q 1 : Int)

/-- Rounding of `N / D` to an integer, ties to even. -/
def roundHalfEven (N D : Nat) : Nat :=
  let qt := N / D
  let r := N % D
  if 2 * r < D then qt else if D < 2 * r then qt + 1 else if qt % 2 = 0 then qt else qt + 1

/-- The six significant digits of `p / q` and their decimal exponent:
`p / q` rounds to `m * 10 ^ (X - 5)` (precision 6 is the default of `%g`). -/
def sig6 (p q : Nat) : Nat × Int :=
  if p = 0 then (0, 0)
  else
    let X := decExponent p q
    let m :=
      if X ≤ 5 then roundHalfEven (p * 10 ^ (5 - X).toNat) q
      else roundHalfEven p (q * 10 ^ (X - 5).toNat)
    if m = 10 ^ 6 then (10 ^ 5, X + 1) else (m, X)

/-- The conversion `%g` of `fprintf`: six significant digits, style `e`
when the exponent is below -4 or at least 6, style `f` otherwise. -/
def fmt_g (x : ℚ) : List Char :=
  let mX := sig6 x.num.natAbs x.den
  (if x < 0 then ['-'] else [])
    ++ (if mX.2 < -4 ∨ 6 ≤ mX.2 then gText 5 mX.1 ++ 'e' :: expText mX.2
        else gText (5 - mX.2).toNat mX.1)

/-- The number that the text of `%g` spells: the argument rounded to six
significant digits. -/
def g6 (x : ℚ) : ℚ :=
  (if x < 0 then -1 else 1) * ((sig6 x.num.natAbs x.den).1 : ℚ)
    * (10 : ℚ) ^ ((sig6 x.num.natAbs x.den).2 - 5)

/-- How a conversion of `fscanf` ends: the stream is at its end before any
character of the item (`input_failure`), the characters do not spell an
item (`matching_failure`, with the rest of the stream), or the item is read
(`ok`, with its value and the rest of the stream). -/
inductive conv_result (α : Type) where
  | input_failure : conv_result α
  | matching_failure : List Char → conv_result α
  | ok : α → List Char → conv_result α
  deriving DecidableEq

/-- White space is skipped before every conversion used here. -/
def skipSpace (inp : List Char) : List Char := inp.dropWhile isspace

/-- The conversion `%*s`: a maximal run of characters that are not white
space, read and discarded. -/
def conv_s (inp : List Char) : conv_result Unit :=
  match skipSpace inp with
  | [] => conv_result.input_failure
  | c :: cs => conv_result.ok () ((c :: cs).dropWhile (fun c => !isspace c))

/-- A run of decimal digits: the number they continue from `acc`, their
count added to `cnt`, and the rest of the stream. -/
def scanDigits : List Char → Nat → Nat → Nat × Nat × List Char
  | [], acc, cnt => (acc, cnt, [])
  | c :: cs, acc, cnt =>
    if isdigit c then scanDigits cs (acc * 10 + digitVal c) (cnt + 1) else (acc, cnt, c :: cs)

/-- An optional sign: whether it is a minus, and the rest of the stream. -/
def scanSign (inp : List Char) : Bool × List Char :=
  match inp with
  | [] => (false, [])
  | c :: cs => if c = '-' then (true, cs) else if c = '+' then (false, cs) else (false, c :: cs)

/-- The conversion `%d`: an optional sign and a run of digits. -/
def conv_d (inp : List Char) : conv_result Int :=
  match skipSpace inp with
  | [] => conv_result.input_failure
  | c :: cs =>
    let sg := scanSign (c :: cs)
    let r := scanDigits sg.2 0 0
    if r.2.1 = 0 then conv_result.matching_failure r.2.2
    else conv_result.ok (if sg.1 then -(r.1 : Int) else (r.1 : Int)) r.2.2

/-- A decimal constant as `%g` reads it: sign, the digits of the integer
and fraction parts read as one number, the number of fraction digits, and
the exponent. -/
structure dec_lit where
  /-- whether the sign is a minus -/
  neg : Bool
  /-- the digits before and after the point, as one number -/
  num : Nat
  /-- number of digits after the point -/
  scale : Nat
  /-- the exponent after `e`, 0 without exponent part -/
  exp : Int
  deriving DecidableEq

/-- The value of a decimal constant. -/
def dec_lit.value (l : dec_lit) : ℚ :=
  (if l.neg then -1 else 1) * (l.num : ℚ) / (10 : ℚ) ^ l.scale * (10 : ℚ) ^ l.exp

/-- The exponent part of a decimal constant, if there is one: `e` or `E`,
an optional sign and a run of digits.  `none` is a part that breaks off
before its first digit. -/
def scanExp (inp : List Char) : Option (Int × List Char) :=
  match inp with
  | [] => some (0, [])
  | c :: cs =>
    if c = 'e' ∨ c = 'E' then
      let sg := scanSign cs
      let r := scanDigits sg.2 0 0
      if r.2.1 = 0 then none
      else some (if sg.1 then -(r.1 : Int) else (r.1 : Int), r.2.2)
    else some (0, c :: cs)

/-- The digits of a decimal constant, with an optional point among them:
the number that the digits spell, the number of digits, the number of
digits after the point, and the rest of the stream. -/
def scanMantissa (inp : List Char) : Nat × Nat × Nat × List Char :=
  let ip := scanDigits inp 0 0
  match ip.2.2 with
  | [] => (ip.1, ip.2.1, 0, [])
  | c2 :: cs2 =>
    if c2 = '.' then
      let r := scanDigits cs2 ip.1 0
      (r.1, ip.2.1 + r.2.1, r.2.1, r.2.2)
    else (ip.1, ip.2.1, 0, c2 :: cs2)

/-- The conversion `%g`: an optional sign, digits with an optional point
among them, and an optional exponent part. -/
def conv_g (inp : List Char) : conv_result dec_lit :=
  match skipSpace inp with
  | [] => conv_result.input_failure
  | c :: cs =>
    let sg := scanSign (c :: cs)
    let fr := scanMantissa sg.2
    if fr.2.1 = 0 then conv_result.matching_failure fr.2.2.2
    else
      match scanExp fr.2.2.2 with
      | none => conv_result.matching_failure []
      | some er =>
        conv_result.ok { neg := sg.1, num := fr.1, scale := fr.2.2.1, exp := er.1 } er.2

/-- What a call of `fscanf` leaves: the value it returns, the value it
assigned if it assigned one, and the rest of the stream. -/
structure scan_return (α : Type) where
  /-- the value returned: the number of assignments, or `EOF` -/
  ret : Int
  /-- the value stored through the pointer argument, if any -/
  val : Option α
  /-- the stream after the call -/
  rest : List Char
  deriving DecidableEq

/-- A call `fscanf(fp, "%*s<conv>", &x)`: a discarded word, then one
conversion that assigns.  The call returns `EOF` when the stream ends
before anything is assigned, 0 when the item does not match, 1 when it
assigns. -/
def fscanf_s_conv {α : Type} (conv : List Char → conv_result α) (inp : List Char) :
    scan_return α :=
  match conv_s inp with
  | conv_result.ok _ r1 =>
    match conv r1 with
    | conv_result.ok v r2 => { ret := 1, val := some v, rest := r2 }
    | conv_result.matching_failure r2 => { ret := 0, val := none, rest := r2 }
    | conv_result.input_failure => { ret := EOF, val := none, rest := [] }
  | conv_result.matching_failure r1 => { ret := 0, val := none, rest := r1 }
  | conv_result.input_failure => { ret := EOF, val := none, rest := [] }

/-- The call `fscanf(fp, "%*s%d%*s", &x)`: after the assignment one more
word is discarded. -/
def fscanf_s_d_s (inp : List Char) : scan_return Int :=
  let r := fscanf_s_conv conv_d inp
  match r.val with
  | some v =>
    match conv_s r.rest with
    | conv_result.ok _ r3 => { ret := 1, val := some v, rest := r3 }
    | conv_result.matching_failure r3 => { ret := 1, val := some v, rest := r3 }
    | conv_result.input_failure => { ret := 1, val := some v, rest := [] }
  | none => r

/-- The call `fscanf(fp, "%*s")`: `EOF` at the end of the stream, 0
otherwise. -/
def fscanf_s (inp : List Char) : Int × List Char :=
  match conv_s inp with
  | conv_result.ok _ r => (0, r)
  | conv_result.matching_failure r => (0, r)
  | conv_result.input_failure => (EOF, [])

/-! ## Binary floating point (`float`, `double`)

The second reading of the arithmetic of `forest.c`: `float` is IEEE
binary32 and `double` is binary64, every operation is rounded on its own to
the nearest value of its format, ties to even.  A value is a fraction
`(n, d)`, the number `n / d`; `d = 0` marks a result that is not a finite
number (NaN and the infinities, which are not told apart). -/

/-- The largest `X` with `2 ^ X * q <= p`, for `q <= p`, counting up from
`X`. -/
def log2Up : Nat → Nat → Nat → Nat → Nat
  | 0, _, _, X => X
  | fuel + 1, p, q, X => if 2 ^ (X + 1) * q ≤ p then log2Up fuel p q (X + 1) else X

/-- The smallest `Y` with `q <= p * 2 ^ Y`, for `0 < p < q`, counting up
from `Y`. -/
def log2Down : Nat → Nat → Nat → Nat → Nat
  | 0, _, _, Y => Y
  | fuel + 1, p, q, Y => if q ≤ p * 2 ^ Y then Y else log2Down fuel p q (Y + 1)

/-- The binary exponent of `p / q > 0`: the `X` with
`2 ^ X <= p / q < 2 ^ (X + 1)`. -/
def binExponent (p q : Nat) : Int :=
  if q ≤ p then (log2Up p p q 0 : Int) else -(log2Down q p q 1 : Int)

/-- Rounding of the fraction `x` to the binary format with `prec` digits
and exponents from `emin` to `emax`: the nearest value, ties to even, with
the fixed spacing `2 ^ (emin - prec + 1)` below `2 ^ emin` (subnormal
values); a result of size `2 ^ (emax + 1)` or more is an infinity (the
rounded `m` has at most `prec + 1` digits, so this needs
`emax + 1 - s <= prec`). -/
def rndBin (prec : Nat) (emin emax : Int) (x : Int × Nat) : Int × Nat :=
  if x.2 = 0 then (0, 0)
  else if x.1 = 0 then (0, 1)
  else
    let e := max (binExponent x.1.natAbs x.2) emin
    let s := e - ((prec : Int) - 1)
    let m : Nat :=
      if s ≤ 0 then roundHalfEven (x.1.natAbs * 2 ^ (-s).toNat) x.2
      else roundHalfEven x.1.natAbs (x.2 * 2 ^ s.toNat)
    if emax + 1 - s ≤ (prec : Int) ∧ 2 ^ (emax + 1 - s).toNat ≤ m then (0, 0)
    else if s ≤ 0 then (if x.1 < 0 then -(m : Int) else (m : Int), 2 ^ (-s).toNat)
    else (if x.1 < 0 then -((m * 2 ^ s.toNat : Nat) : Int) else ((m * 2 ^ s.toNat : Nat) : Int), 1)

/-- Rounding to `float`. -/
def f32 (x : Int × Nat) : Int × Nat := rndBin 24 (-126) 127 x

/-- Rounding to `double`. -/
def f64 (x : Int × Nat) : Int × Nat := rndBin 53 (-1022) 1023 x

/-- The exact sum of two fractions. -/
def fadd (a b : Int × Nat) : Int × Nat := (a.1 * (b.2 : Int) + b.1 * (a.2 : Int), a.2 * b.2)

/-- The exact difference of two fractions. -/
def fsub (a b : Int × Nat) : Int × Nat := (a.1 * (b.2 : Int) - b.1 * (a.2 : Int), a.2 * b.2)

/-- The exact product of two fractions. -/
def fmul (a b : Int × Nat) : Int × Nat := (a.1 * b.1, a.2 * b.2)

/-- The exact quotient of two fractions; a zero divisor gives a result that
is not a finite number. -/
def fquot (a b : Int × Nat) : Int × Nat :=
  (if b.1 < 0 then -(a.1 * (b.2 : Int)) else a.1 * (b.2 : Int), a.2 * b.1.natAbs)

/-- The number that a fraction stands for. -/
def fracVal (x : Int × Nat) : ℚ := (x.1 : ℚ) / (x.2 : ℚ)

/-- Rounding of a rational number to `float`, as a rational number (a
number beyond the range of `float`, an infinity in C, reads 0). -/
def f32q (x : ℚ) : ℚ := fracVal (f32 (x.num, x.den))


/-! ## `writeForest` and `readForest` (`forest.c` lines 242-288) -/

/-- The two functions of the tree module that `writeForest` and
`readForest` call: `writeTree(fp, root)` appends the text of a tree,
`readTree(fp, &root)` reads a tree off the stream. -/
structure tree_file where
  /-- the text that `writeTree` appends -/
  writeTree : node_ptr → List Char
  /-- the root that `readTree` stores and the stream it leaves -/
  readTree : List Char → node_ptr × List Char

/-- Lines 250-252: the slots of `committeename` that are set. -/
def committeename (c : Int) : Option (List Char) :=
  if c = BAGGING then some "Bagging".toList
  else if c = BOOSTING then some "Boosting".toList
  else if c = RANDOMFOREST then some "RandomForest".toList
  else none

/-- How a call of `writeForest` ends: the file could not be opened (with
the line on `stderr`), the committee code has no name in `committeename`
(the `%s` argument is an unset pointer), or the text is written. -/
inductive write_outcome where
  | unopened : String → write_outcome
  | undefined : write_outcome
  | written : List Char → write_outcome

/-- The function `writeForest`; `opened` tells whether `fopen` succeeds. -/
def writeForest (tio : tree_file) (f : forest_t) (fname : String) (opened : Bool) :
    write_outcome :=
  if opened = false then
    write_outcome.unopened ("could not write to output file: " ++ fname ++ "\n")
  else
    match committeename f.committee with
    | none => write_outcome.undefined
    | some name =>
      let fp := "committee: ".toList ++ fmt_d f.committee ++ " (".toList ++ name ++ ")\n".toList
      let fp := fp ++ ("trees: ".toList ++ fmt_d f.ngrown ++ "\n".toList)
      let fp := fp ++ ("features: ".toList ++ fmt_d f.nfeat ++ "\n".toList)
      let fp := fp ++ ("maxdepth: ".toList ++ fmt_d f.maxdepth ++ "\n".toList)
      let fp := fp ++ ("fpnfactor: ".toList ++ fmt_g f.factor ++ "\n".toList)
      write_outcome.written
        (forLoop f.ngrown.toNat (fun i fp => fp ++ tio.writeTree (f.tree i)) fp)

/-- Lines 272-276 of `readForest`: the five calls of `fscanf` on the
header.  A field that is not assigned keeps what the caller left in it; the
factor is a `float`, so `%g` stores the `float` nearest to the decimal
constant it reads.  The result is the forest, the value returned by the
fifth call, and the stream. -/
def readHeader (f : forest_t) (inp : List Char) : forest_t × Int × List Char :=
  let r1 := fscanf_s_d_s inp
  let f := match r1.val with
    | some v => { f with committee := v }
    | none => f
  let r2 := fscanf_s_conv conv_d r1.rest
  let f := match r2.val with
    | some v => { f with ngrown := v }
    | none => f
  let r3 := fscanf_s_conv conv_d r2.rest
  let f := match r3.val with
    | some v => { f with nfeat := v }
    | none => f
  let r4 := fscanf_s_conv conv_d r3.rest
  let f := match r4.val with
    | some v => { f with maxdepth := v }
    | none => f
  let r5 := fscanf_s_conv conv_g r4.rest
  let f := match r5.val with
    | some v => { f with factor := f32q v.value }
    | none => f
  (f, r5.ret, r5.rest)

/-- The function `readForest`; `fp` is the text of the file, `none` when
`fopen` fails.  `Except.error` is `exit(1)` after the line on `stderr`; a
call that returns yields the forest and the lines written to `stderr`. -/
def readForest (tio : tree_file) (f : forest_t) (fname : String) (fp : Option (List Char)) :
    Except String (forest_t × List String) :=
  match fp with
  | none => Except.error ("could not read input file: " ++ fname ++ "\n")
  | some inp =>
    let h := readHeader f inp
    if h.2.1 = EOF then Except.error ("corrupt input file: " ++ fname ++ "\n")
    else
      let f := { h.1 with tree := fun _ => 0 }
      let s := forLoop f.ngrown.toNat (fun i (s : forest_t × List Char) =>
        let t := tio.readTree s.2
        ({ s.1 with tree := Function.update s.1.tree i t.1 }, t.2)) (f, h.2.2)
      if (fscanf_s s.2).1 ≠ EOF then
        Except.ok (s.1, ["garbage at the end of input file: " ++ fname ++ "\n"])
      else Except.ok (s.1, [])

/-- A tree module whose trees have no text. -/
def noTrees : tree_file :=
  { writeTree := fun _ => []
    readTree := fun inp => (0, inp) }

/-! ## Random sources that return the same values -/

/-- Two random sources that return the same values from now on. -/
def sameDraws (g g2 : rand_state) : Prop :=
  ∀ j, g.stream (g.pos + j) = g2.stream (g2.pos + j)

/-- A tree module that uses the random source by calling it only: on two
sources that return the same values, `grow` yields the same tree and makes
the same number of calls. -/
def drawsByCalls (tm : tree_module) : Prop :=
  ∀ tree dd g g2, sameDraws g g2 →
    (tm.grow tree dd g).1 = (tm.grow tree dd g2).1 ∧
    ∃ c : Nat, (tm.grow tree dd g).2 = { g with pos := g.pos + c } ∧
      (tm.grow tree dd g2).2 = { g2 with pos := g2.pos + c }

/-- A tree module for concrete runs that calls the random source: `grow`
makes one call and returns the parity of the value as handle; both
classification passes predict `p i` for example `i`. -/
def drawTrees (p : Nat → ℚ) : tree_module :=
  { grow := fun _ _ g => ((rand g).1 % 2, (rand g).2)
    classifyTrainingData := fun _ _ _ => p
    classifyOOBData := fun _ _ _ => p
    classifyBoost := fun _ _ => 0
    classifyBag := fun _ _ => 0 }

/-! ## `computeOOBAUC` in `float` arithmetic -/

/-- Lines 76-98 in `float` arithmetic: `tp*1.0 / (tp+fn)` is a `double`
quotient of two integers, stored in a `float`. -/
def sensSpec32 (lc : Int → Int) (treesSoFar : Int) :
    (Int → Int × Nat) × (Int → Int × Nat) :=
  let ctr : Int := treesSoFar
  let sens : Int → Int × Nat := Function.update (fun _ => (0, 1)) (ctr + treesSoFar + 1) (0, 1)
  let spec : Int → Int × Nat := Function.update (fun _ => (0, 1)) (ctr + treesSoFar + 1) (1, 1)
  forInt (-treesSoFar) (treesSoFar + 1) (fun votethresh ss =>
    let c := threshCounts lc treesSoFar votethresh
    let tp := c.1
    let fp := c.2.1
    let tn := c.2.2.1
    let fn := c.2.2.2
    (Function.update ss.1 (ctr + votethresh) (f32 (f64 (fquot (tp, 1) (tp + fn, 1)))),
     Function.update ss.2 (ctr + votethresh) (f32 (f64 (fquot (tn, 1) (tn + fp, 1))))))
    (sens, spec)

/-- The function `computeOOBAUC` in `float` arithmetic: every operation of
`auc += (spec[i1] - spec[i]) * (sens[i] + sens[i1]) / 2` is rounded to
`float`. -/
def computeOOBAUC32 (d : dataset_t) (treesSoFar : Int) : Int × Nat :=
  let ctr : Int := treesSoFar
  let ss := sensSpec32 (labelCounts d treesSoFar) treesSoFar
  let sens := ss.1
  let spec := ss.2
  forInt (-treesSoFar) (treesSoFar + 1) (fun v auc =>
    let i := ctr + v
    let i1 := ctr + v + 1
    f32 (fadd auc
      (f32 (fquot (f32 (fmul (f32 (fsub (spec i1) (spec i))) (f32 (fadd (sens i) (sens i1)))))
        (2, 1))))) (0, 1)

/-! ## The class weights and the bootstrap sampling in `float` arithmetic -/

/-- Lines 164-169 in `float` arithmetic: the counts `c` are `float`s,
`w[0]` is a `float` quotient, and `w[1] = 1.0/(...)` is a `double` quotient
stored in a `float`. -/
def classWeights32 (wneg : Int × Nat) (d : dataset_t) : Int → Int × Nat :=
  let c : Int → Int × Nat :=
    forLoop d.nex (fun i c =>
      Function.update c (d.target i) (f32 (fadd (c (d.target i)) (1, 1)))) (fun _ => (0, 1))
  let den : Int × Nat := f32 (fadd (f32 (fmul wneg (c 0))) (c 1))
  let w : Int → Int × Nat := fun _ => (0, 1)
  let w := Function.update w 0 (f32 (fquot wneg den))
  Function.update w 1 (f32 (f64 (fquot (1, 1) den)))

/-- Lines 198-206 in `float` arithmetic: the weights after the bootstrap
sampling of a round, every `weight[r] += w[target[r]]` rounded to
`float`. -/
def bootstrapWeights32 (w : Int → Int × Nat) (d : dataset_t) (rng : rand_state)
    (weight : Nat → Int × Nat) : Nat → Int × Nat :=
  let weight := forLoop d.nex (fun i weight => Function.update weight i (0, 1)) weight
  (forLoop d.nex (fun _ (s : rand_state × (Nat → Int × Nat)) =>
    let x := rand s.1
    let r : Nat := x.1 % d.nex
    (x.2, Function.update s.2 r (f32 (fadd (s.2 r) (w (d.target r)))))) (rng, weight)).2

/-! ## Loops -/

open Finset

theorem forLoop_succ {σ : Type} (n : Nat) (body : Nat → σ → σ) (s : σ) :
    forLoop (n + 1) body s = body n (forLoop n body s) := rfl

theorem forLoop_zero {σ : Type} (body : Nat → σ → σ) (s : σ) :
    forLoop 0 body s = s := rfl

/-- An accumulating loop is a sum over the iterations. -/
theorem forLoop_add {α : Type} [AddCommMonoid α] (n : Nat) (f : Nat → α) (a : α) :
    forLoop n (fun k acc => acc + f k) a = a + ∑ k in range n, f k := by
  induction n with
  | zero => simp [forLoop]
  | succ n ih => simp only [forLoop, ih, sum_range_succ, add_assoc]

/-- A loop on a pair whose components do not interact runs them side by side. -/
theorem forLoop_pair {α β : Type} (n : Nat) (f : Nat → α → α) (g : Nat → β → β) (a : α) (b : β) :
    forLoop n (fun k (p : α × β) => (f k p.1, g k p.2)) (a, b)
      = (forLoop n f a, forLoop n g b) := by
  induction n with
  | zero => rfl
  | succ n ih => simp only [forLoop, ih]

/-- A loop that stores `F k` in cell `c k`, for an injective `c`. -/
theorem forLoop_store {ι α : Type} [DecidableEq ι] (c : Nat → ι) (hc : Function.Injective c)
    (F : Nat → α) (n : Nat) (a : ι → α) :
    (∀ k, k < n → forLoop n (fun k arr => Function.update arr (c k) (F k)) a (c k) = F k) ∧
    (∀ x, (∀ k, k < n → x ≠ c k) →
      forLoop n (fun k arr => Function.update arr (c k) (F k)) a x = a x) := by
  induction n with
  | zero => exact ⟨fun k hk => absurd hk (Nat.not_lt_zero k), fun x _ => rfl⟩
  | succ n ih =>
    refine ⟨fun k hk => ?_, fun x hx => ?_⟩
    · simp only [forLoop]
      by_cases h : k = n
      · subst h; simp
      · have hne : c k ≠ c n := fun e => h (hc e)
        rw [Function.update_noteq hne]
        exact ih.1 k (by omega)
    · simp only [forLoop]
      rw [Function.update_noteq (hx n (Nat.lt_succ_self n))]
      exact ih.2 x (fun k hk => hx k (by omega))

/-- The counting loop leaves in each cell the number of iterations that hit it. -/
theorem forLoop_count {ι R : Type} [DecidableEq ι] [AddMonoidWithOne R] (off : Nat → ι)
    (n : Nat) (x : ι) :
    forLoop n (fun i (lc : ι → R) => Function.update lc (off i) (lc (off i) + 1)) (fun _ => 0) x
      = (((range n).filter (fun i => off i = x)).card : R) := by
  induction n with
  | zero => simp [forLoop]
  | succ n ih =>
    simp only [forLoop]
    rw [range_succ, filter_insert]
    by_cases h : off n = x
    · subst h
      rw [Function.update_same, ih, if_pos rfl, card_insert_of_not_mem (by simp), Nat.cast_succ]
    · rw [Function.update_noteq (Ne.symm h), ih, if_neg h]

/-! ## The histogram of `computeOOBAUC` -/

/-- Within the vote range a cell of the histogram counts the examples of its
label and vote, whatever the labels of the other examples. -/
theorem labelCounts_cell (d : dataset_t) (T : Int) (hv : votesWithin d T)
    (l v : Int) (hv1 : -T ≤ v) (hv2 : v ≤ T) :
    labelCounts d T (l * (1 + 2 * T) + T + v) = (countVotes d l (fun x => x = v) : Int) := by
  unfold labelCounts countVotes
  simp only []
  rw [forLoop_count]
  congr 2
  apply filter_congr
  intro i hi
  have hi := mem_range.mp hi
  have h2 := hv i hi
  constructor
  · intro h3
    have hlab : d.target i = l := by
      have e : (d.target i - l) * (1 + 2 * T) = v - d.oobvotes i := by linarith
      by_contra hne
      rcases lt_or_gt_of_ne hne with hlt | hgt
      · have h4 : d.target i - l ≤ -1 := by omega
        have h5 : (d.target i - l) * (1 + 2 * T) ≤ -1 * (1 + 2 * T) :=
          mul_le_mul_of_nonneg_right h4 (by omega)
        omega
      · have h4 : 1 ≤ d.target i - l := by omega
        have h5 : 1 * (1 + 2 * T) ≤ (d.target i - l) * (1 + 2 * T) :=
          mul_le_mul_of_nonneg_right h4 (by omega)
        omega
    refine ⟨hlab, ?_⟩
    rw [hlab] at h3
    linarith
  · rintro ⟨h4, h5⟩
    rw [h4, h5]
    ring

/-! ## The threshold counts and the `sens`/`spec` tables -/

theorem countVotes_congr (d : dataset_t) (l : Int) (p q : Int → Prop) [DecidablePred p]
    [DecidablePred q] (h : ∀ i, i < d.nex → (p (d.oobvotes i) ↔ q (d.oobvotes i))) :
    countVotes d l p = countVotes d l q := by
  unfold countVotes
  congr 1
  apply filter_congr
  intro i hi
  rw [h i (mem_range.mp hi)]

theorem countVotes_sum (d : dataset_t) (l : Int) (p : Int → Prop) [DecidablePred p] :
    countVotes d l p = ∑ i in range d.nex, if d.target i = l ∧ p (d.oobvotes i) then 1 else 0 := by
  unfold countVotes
  rw [card_filter]

/-- Splitting a count by a predicate on the vote. -/
theorem countVotes_split (d : dataset_t) (l : Int) (p q : Int → Prop) [DecidablePred p]
    [DecidablePred q] :
    countVotes d l (fun x => p x ∧ q x) + countVotes d l (fun x => p x ∧ ¬ q x)
      = countVotes d l p := by
  simp only [countVotes_sum, ← sum_add_distrib]
  apply sum_congr rfl
  intro i _
  by_cases h1 : d.target i = l <;> by_cases h2 : p (d.oobvotes i) <;>
    by_cases h3 : q (d.oobvotes i) <;> simp [h1, h2, h3]

/-- The level counts of an interval of votes add up to the count of the interval. -/
theorem countVotes_interval (d : dataset_t) (l lo : Int) (m : Nat) :
    ∑ k in range m, (countVotes d l (fun x => x = lo + (k : Int)) : Int)
      = (countVotes d l (fun x => lo ≤ x ∧ x < lo + (m : Int)) : Int) := by
  induction m with
  | zero =>
    simp only [range_zero, sum_empty, countVotes_sum]
    symm
    push_cast
    apply sum_eq_zero
    intro i _
    rw [if_neg]
    rintro ⟨_, h1, h2⟩
    simp at h2
    omega
  | succ m ih =>
    rw [sum_range_succ, ih]
    simp only [countVotes_sum]
    push_cast
    rw [← sum_add_distrib]
    apply sum_congr rfl
    intro i _
    by_cases h1 : d.target i = l
    · by_cases h2 : d.oobvotes i = lo + (m : Int)
      · rw [if_neg (by omega), if_pos ⟨h1, h2⟩, if_pos ⟨h1, by omega⟩]; rfl
      · by_cases h3 : lo ≤ d.oobvotes i ∧ d.oobvotes i < lo + (m : Int)
        · rw [if_pos ⟨h1, h3⟩, if_neg (by tauto), if_pos ⟨h1, by omega⟩]; rfl
        · rw [if_neg (by tauto), if_neg (by tauto), if_neg (by omega)]; rfl
    · simp [h1]

theorem forInt_add {α : Type} [AddCommMonoid α] (lo hi : Int) (f : Int → α) (a : α) :
    forInt lo hi (fun v acc => acc + f v) a
      = a + ∑ k in range (hi - lo).toNat, f (lo + (k : Int)) := by
  unfold forInt
  exact forLoop_add _ (fun k => f (lo + (k : Int))) a

theorem forInt_pair_add {α β : Type} [AddCommMonoid α] [AddCommMonoid β] (lo hi : Int)
    (f : Int → α) (g : Int → β) :
    forInt lo hi (fun v (p : α × β) => (p.1 + f v, p.2 + g v)) (0, 0)
      = (∑ k in range (hi - lo).toNat, f (lo + (k : Int)),
         ∑ k in range (hi - lo).toNat, g (lo + (k : Int))) := by
  unfold forInt
  rw [forLoop_pair (hi - lo).toNat (fun k a => a + f (lo + (k : Int)))
    (fun k b => b + g (lo + (k : Int)))]
  rw [forLoop_add, forLoop_add, zero_add, zero_add]

/-- The four counts of a threshold are the counts of the examples on either
side of it. -/
theorem threshCounts_eq (d : dataset_t) (T : Int) (hv : votesWithin d T)
    (vt : Int) (h1 : -T ≤ vt) (h2 : vt ≤ T + 1) :
    threshCounts (labelCounts d T) T vt
      = ((countVotes d 1 (fun x => vt ≤ x) : Int), (countVotes d 0 (fun x => vt ≤ x) : Int),
         (countVotes d 0 (fun x => x < vt) : Int), (countVotes d 1 (fun x => x < vt) : Int)) := by
  unfold threshCounts
  simp only []
  rw [forInt_pair_add, forInt_pair_add]
  have cell : ∀ (l : Int) (lo : Int), -T ≤ lo → ∀ (m : Nat), lo + (m : Int) ≤ T + 1 →
      ∑ k in range m, labelCounts d T (l * (1 + 2 * T) + T + (lo + (k : Int)))
        = (countVotes d l (fun x => lo ≤ x ∧ x < lo + (m : Int)) : Int) := by
    intro l lo hlo m hm
    rw [← countVotes_interval]
    apply sum_congr rfl
    intro k hk
    have hk := mem_range.mp hk
    exact labelCounts_cell d T hv l _ (by omega) (by omega)
  have e1 : vt + ((T + 1 - vt).toNat : Int) = T + 1 := by omega
  have e2 : -T + ((vt - -T).toNat : Int) = vt := by omega
  rw [cell 1 vt h1 _ (by omega), cell 0 vt h1 _ (by omega),
    cell 0 (-T) (le_refl _) _ (by omega), cell 1 (-T) (le_refl _) _ (by omega), e1, e2]
  have hv1 : ∀ i, i < d.nex → ((vt ≤ d.oobvotes i ∧ d.oobvotes i < T + 1) ↔ vt ≤ d.oobvotes i) := by
    intro i hi
    have := hv i hi
    constructor
    · exact fun h => h.1
    · exact fun h => ⟨h, by omega⟩
  have hv2 : ∀ i, i < d.nex → ((-T ≤ d.oobvotes i ∧ d.oobvotes i < vt) ↔ d.oobvotes i < vt) := by
    intro i hi
    have := hv i hi
    constructor
    · exact fun h => h.2
    · exact fun h => ⟨by omega, h⟩
  rw [countVotes_congr d 1 (fun x => vt ≤ x ∧ x < T + 1) (fun x => vt ≤ x) hv1,
    countVotes_congr d 0 (fun x => vt ≤ x ∧ x < T + 1) (fun x => vt ≤ x) hv1,
    countVotes_congr d 0 (fun x => -T ≤ x ∧ x < vt) (fun x => x < vt) hv2,
    countVotes_congr d 1 (fun x => -T ≤ x ∧ x < vt) (fun x => x < vt) hv2]

theorem countVotes_lt_add_ge (d : dataset_t) (l vt : Int) :
    countVotes d l (fun x => x < vt) + countVotes d l (fun x => vt ≤ x)
      = countVotes d l (fun _ => True) := by
  rw [← countVotes_split d l (fun _ => True) (fun x => x < vt)]
  congr 1
  · exact countVotes_congr d l _ _ (fun i _ => by simp)
  · exact countVotes_congr d l _ _ (fun i _ => by simp)

/-- The entries of the `sens` and `spec` tables, sentinel included. -/
theorem sensSpec_eq (d : dataset_t) (T : Int) (hv : votesWithin d T)
    (hN : negCount d ≠ 0) (vt : Int) (h1 : -T ≤ vt) (h2 : vt ≤ T + 1) :
    (sensSpec (labelCounts d T) T).1 (T + vt)
        = (countVotes d 1 (fun x => vt ≤ x) : ℚ) / (posCount d : ℚ) ∧
    (sensSpec (labelCounts d T) T).2 (T + vt)
        = (countVotes d 0 (fun x => x < vt) : ℚ) / (negCount d : ℚ) := by
  unfold sensSpec forInt
  simp only []
  rw [forLoop_pair (T + 1 - -T).toNat
    (fun k (a : Int → ℚ) => Function.update a (T + (-T + (k : Int)))
      (((threshCounts (labelCounts d T) T (-T + (k : Int))).1 : ℚ) * 1 /
        (((threshCounts (labelCounts d T) T (-T + (k : Int))).1 +
          (threshCounts (labelCounts d T) T (-T + (k : Int))).2.2.2 : Int) : ℚ)))
    (fun k (a : Int → ℚ) => Function.update a (T + (-T + (k : Int)))
      (((threshCounts (labelCounts d T) T (-T + (k : Int))).2.2.1 : ℚ) * 1 /
        (((threshCounts (labelCounts d T) T (-T + (k : Int))).2.2.1 +
          (threshCounts (labelCounts d T) T (-T + (k : Int))).2.1 : Int) : ℚ)))]
  dsimp only
  have hc : Function.Injective (fun k : Nat => T + (-T + (k : Int))) := by
    intro a b hab
    simp only [] at hab
    omega
  by_cases hlast : vt = T + 1
  · -- the sentinel cell is never overwritten
    subst hlast
    have hx : ∀ k, k < (T + 1 - -T).toNat → T + (T + 1) ≠ (fun k : Nat => T + (-T + (k : Int))) k := by
      intro k hk
      simp only []
      omega
    rw [(forLoop_store _ hc _ _ _).2 _ hx, (forLoop_store _ hc _ _ _).2 _ hx]
    have e : T + (T + 1) = T + T + 1 := by ring
    rw [e, Function.update_same, Function.update_same]
    have z : countVotes d 1 (fun x => T + 1 ≤ x) = 0 := by
      rw [countVotes_sum]
      apply sum_eq_zero
      intro i hi
      have := hv i (mem_range.mp hi)
      rw [if_neg]
      rintro ⟨_, h⟩
      omega
    have a : countVotes d 0 (fun x => x < T + 1) = negCount d := by
      unfold negCount
      apply countVotes_congr
      intro i hi
      have := hv i hi
      simp only [iff_true]
      omega
    rw [z, a]
    have : (negCount d : ℚ) ≠ 0 := by exact_mod_cast hN
    constructor
    · simp
    · rw [div_self this]
  · have hk : (vt + T).toNat < (T + 1 - -T).toNat := by omega
    have e : T + vt = (fun k : Nat => T + (-T + (k : Int))) (vt + T).toNat := by
      simp only []
      omega
    have e2 : -T + ((vt + T).toNat : Int) = vt := by omega
    rw [e, (forLoop_store _ hc _ _ _).1 _ hk, (forLoop_store _ hc _ _ _).1 _ hk, e2,
      threshCounts_eq d T hv vt h1 h2]
    simp only []
    have p := countVotes_lt_add_ge d 1 vt
    have n := countVotes_lt_add_ge d 0 vt
    unfold posCount negCount
    rw [← p, ← n]
    push_cast
    constructor
    · rw [mul_one, add_comm]
    · rw [mul_one]

/-! ## The trapezoid sum is the ROC-AUC -/

/-- Summing a function of the vote level against the level counts of one
class is summing it over the examples of that class. -/
theorem sum_levels (d : dataset_t) (T : Int) (hv : votesWithin d T) (l : Int) (h : Int → ℚ) :
    ∑ k in range (T + 1 - -T).toNat,
        (countVotes d l (fun x => x = -T + (k : Int)) : ℚ) * h (-T + (k : Int))
      = ∑ i in range d.nex, if d.target i = l then h (d.oobvotes i) else 0 := by
  simp only [countVotes_sum]
  push_cast
  simp only [sum_mul]
  rw [sum_comm]
  apply sum_congr rfl
  intro i hi
  have hvi := hv i (mem_range.mp hi)
  by_cases ht : d.target i = l
  · rw [if_pos ht]
    rw [sum_eq_single (d.oobvotes i + T).toNat]
    · have e : -T + ((d.oobvotes i + T).toNat : Int) = d.oobvotes i := by omega
      rw [e, if_pos ⟨ht, rfl⟩, one_mul]
    · intro k _ hk
      rw [if_neg, zero_mul]
      rintro ⟨_, h2⟩
      apply hk
      omega
    · intro hn
      exfalso
      apply hn
      rw [mem_range]
      omega
  · rw [if_neg ht]
    apply sum_eq_zero
    intro k _
    rw [if_neg (fun hh => ht hh.1), zero_mul]

theorem pairsGreater_sum (d : dataset_t) :
    (pairsGreater d : ℚ) = ∑ b in range d.nex, ∑ a in range d.nex,
      if d.target a = 1 ∧ d.target b = 0 ∧ d.oobvotes b < d.oobvotes a then (1 : ℚ) else 0 := by
  unfold pairsGreater
  rw [card_filter]
  push_cast
  rw [sum_product, sum_comm]

theorem pairsEqual_sum (d : dataset_t) :
    (pairsEqual d : ℚ) = ∑ b in range d.nex, ∑ a in range d.nex,
      if d.target a = 1 ∧ d.target b = 0 ∧ d.oobvotes a = d.oobvotes b then (1 : ℚ) else 0 := by
  unfold pairsEqual
  rw [card_filter]
  push_cast
  rw [sum_product, sum_comm]

/-- The trapezoid sum of `computeOOBAUC`, term by term. -/
theorem computeOOBAUC_sum (d : dataset_t) (T : Int) (hv : votesWithin d T)
    (hN : negCount d ≠ 0) :
    computeOOBAUC d T = ∑ k in range (T + 1 - -T).toNat,
      (countVotes d 0 (fun x => x = -T + (k : Int)) : ℚ) *
        (((countVotes d 1 (fun x => -T + (k : Int) ≤ x) : ℚ)
          + (countVotes d 1 (fun x => -T + (k : Int) < x) : ℚ))
          / (2 * (posCount d : ℚ) * (negCount d : ℚ))) := by
  unfold computeOOBAUC
  simp only []
  rw [forInt_add, zero_add]
  apply sum_congr rfl
  intro k hk
  have hk := mem_range.mp hk
  have a := sensSpec_eq d T hv hN (-T + (k : Int)) (by omega) (by omega)
  have b := sensSpec_eq d T hv hN (-T + (k : Int) + 1) (by omega) (by omega)
  have e : T + (-T + (k : Int)) + 1 = T + (-T + (k : Int) + 1) := by ring
  rw [e, a.1, a.2, b.1, b.2]
  have s1 : (countVotes d 0 (fun x => x < -T + (k : Int) + 1) : ℚ)
      = (countVotes d 0 (fun x => x < -T + (k : Int)) : ℚ)
        + (countVotes d 0 (fun x => x = -T + (k : Int)) : ℚ) := by
    rw [← countVotes_split d 0 (fun x => x < -T + (k : Int) + 1) (fun x => x < -T + (k : Int))]
    push_cast
    congr 2
    · exact countVotes_congr d 0 _ _ (fun i _ => by constructor <;> intro h <;> omega)
    · exact countVotes_congr d 0 _ _ (fun i _ => by constructor <;> intro h <;> omega)
  have s2 : countVotes d 1 (fun x => -T + (k : Int) + 1 ≤ x)
      = countVotes d 1 (fun x => -T + (k : Int) < x) :=
    countVotes_congr d 1 _ _ (fun i _ => by constructor <;> intro h <;> omega)
  rw [s1, s2]
  generalize (countVotes d 0 (fun x => x = -T + (k : Int)) : ℚ) = c0
  generalize (countVotes d 0 (fun x => x < -T + (k : Int)) : ℚ) = t0
  generalize (countVotes d 1 (fun x => -T + (k : Int) ≤ x) : ℚ) = p1
  generalize (countVotes d 1 (fun x => -T + (k : Int) < x) : ℚ) = p2
  ring

/-- The trapezoid sum of `computeOOBAUC` is the pair-counting ROC-AUC. -/
theorem computeOOBAUC_eq_rocAUC (d : dataset_t) (T : Int) (hv : votesWithin d T)
    (hN : negCount d ≠ 0) :
    computeOOBAUC d T = rocAUC d := by
  rw [computeOOBAUC_sum d T hv hN]
  rw [sum_levels d T hv 0 (fun v => ((countVotes d 1 (fun x => v ≤ x) : ℚ)
          + (countVotes d 1 (fun x => v < x) : ℚ))
          / (2 * (posCount d : ℚ) * (negCount d : ℚ)))]
  unfold rocAUC
  have key : ∑ i in range d.nex, (if d.target i = 0 then
        ((countVotes d 1 (fun x => d.oobvotes i ≤ x) : ℚ)
          + (countVotes d 1 (fun x => d.oobvotes i < x) : ℚ)) else 0)
      = 2 * (pairsGreater d : ℚ) + (pairsEqual d : ℚ) := by
    rw [pairsGreater_sum, pairsEqual_sum, mul_sum, ← sum_add_distrib]
    apply sum_congr rfl
    intro b _
    rw [mul_sum, ← sum_add_distrib]
    by_cases hb : d.target b = 0
    · rw [if_pos hb]
      simp only [countVotes_sum]
      push_cast
      rw [← sum_add_distrib]
      apply sum_congr rfl
      intro a _
      by_cases ha : d.target a = 1
      · rcases lt_trichotomy (d.oobvotes b) (d.oobvotes a) with h | h | h
        · rw [if_pos ⟨ha, le_of_lt h⟩, if_pos ⟨ha, h⟩, if_pos ⟨ha, hb, h⟩,
            if_neg (by rintro ⟨_, _, h3⟩; omega)]
          norm_num
        · rw [if_pos ⟨ha, le_of_eq h⟩, if_neg (by rintro ⟨_, h3⟩; omega),
            if_neg (by rintro ⟨_, _, h3⟩; omega), if_pos ⟨ha, hb, h.symm⟩]
          norm_num
        · rw [if_neg (by rintro ⟨_, h3⟩; omega), if_neg (by rintro ⟨_, h3⟩; omega),
            if_neg (by rintro ⟨_, _, h3⟩; omega), if_neg (by rintro ⟨_, _, h3⟩; omega)]
          norm_num
      · rw [if_neg (fun h => ha h.1), if_neg (fun h => ha h.1), if_neg (fun h => ha h.1),
          if_neg (fun h => ha h.1)]
        norm_num
    · rw [if_neg hb]
      symm
      apply sum_eq_zero
      intro a _
      rw [if_neg (fun h => hb h.2.1), if_neg (fun h => hb h.2.1)]
      norm_num
  have pull : ∑ i in range d.nex, (if d.target i = 0 then
        ((countVotes d 1 (fun x => d.oobvotes i ≤ x) : ℚ)
          + (countVotes d 1 (fun x => d.oobvotes i < x) : ℚ))
          / (2 * (posCount d : ℚ) * (negCount d : ℚ)) else 0)
      = (∑ i in range d.nex, (if d.target i = 0 then
        ((countVotes d 1 (fun x => d.oobvotes i ≤ x) : ℚ)
          + (countVotes d 1 (fun x => d.oobvotes i < x) : ℚ)) else 0))
          / (2 * (posCount d : ℚ) * (negCount d : ℚ)) := by
    rw [sum_div]
    apply sum_congr rfl
    intro i _
    by_cases h : d.target i = 0
    · rw [if_pos h, if_pos h]
    · rw [if_neg h, if_neg h, zero_div]
  rw [pull, key]
  ring

/-! ## Claims on `computeOOBAUC` -/

/-- C2: for a dataset with at least one positive and one negative example,
labels in {0,1} and every cumulative vote in `[-treesSoFar, treesSoFar]`, the
trapezoid sum returned by `computeOOBAUC` is the standard ROC-AUC: the number
of (positive, negative) pairs whose positive vote is strictly greater, plus
half the number of such pairs with equal votes, divided by `P * N`. -/
theorem computeOOBAUC_standard_auc (d : dataset_t) (treesSoFar : Int)
    (hP : 1 ≤ posCount d) (hN : 1 ≤ negCount d) (hl : binaryLabels d)
    (hv : votesWithin d treesSoFar) :
    computeOOBAUC d treesSoFar
      = ((pairsGreater d : ℚ) + (pairsEqual d : ℚ) / 2)
          / ((posCount d : ℚ) * (negCount d : ℚ)) := by
  have h := computeOOBAUC_eq_rocAUC d treesSoFar hv (by omega)
  rw [h, rocAUC]

/-- C2 at the dataset with labels 1,0,0,1 and votes 0,1,-1,1 after three trees. -/
theorem computeOOBAUC_standard_auc_witness :
    computeOOBAUC (mkDataset [1, 0, 0, 1] [] [0, 1, -1, 1]) 3
      = ((pairsGreater (mkDataset [1, 0, 0, 1] [] [0, 1, -1, 1]) : ℚ)
          + (pairsEqual (mkDataset [1, 0, 0, 1] [] [0, 1, -1, 1]) : ℚ) / 2)
          / ((posCount (mkDataset [1, 0, 0, 1] [] [0, 1, -1, 1]) : ℚ)
              * (negCount (mkDataset [1, 0, 0, 1] [] [0, 1, -1, 1]) : ℚ)) :=
  computeOOBAUC_standard_auc (mkDataset [1, 0, 0, 1] [] [0, 1, -1, 1]) 3
    (by decide) (by decide) (by decide) (by decide)

/-- On perfectly separated votes every (positive, negative) pair is ranked
correctly and none is tied. -/
theorem rocAUC_separated (d : dataset_t) (hP : posCount d ≠ 0) (hN : negCount d ≠ 0)
    (hpos : ∀ i, i < d.nex → d.target i = 1 → 0 < d.oobvotes i)
    (hneg : ∀ i, i < d.nex → d.target i = 0 → d.oobvotes i < 0) :
    rocAUC d = 1 := by
  have hG : pairsGreater d = posCount d * negCount d := by
    unfold pairsGreater posCount negCount countVotes
    rw [← card_product]
    congr 1
    ext ⟨a, b⟩
    simp only [mem_filter, mem_product, mem_range, and_true]
    constructor
    · rintro ⟨⟨ha, hb⟩, h1, h2, _⟩
      exact ⟨⟨ha, h1⟩, hb, h2⟩
    · rintro ⟨⟨ha, h1⟩, hb, h2⟩
      have := hpos a ha h1
      have := hneg b hb h2
      exact ⟨⟨ha, hb⟩, h1, h2, by omega⟩
  have hE : pairsEqual d = 0 := by
    unfold pairsEqual
    rw [card_eq_zero, filter_eq_empty_iff]
    rintro ⟨a, b⟩ hab ⟨h1, h2, h3⟩
    simp only [mem_product, mem_range] at hab
    have := hpos a hab.1 h1
    have := hneg b hab.2 h2
    simp only [] at h3
    omega
  unfold rocAUC
  rw [hG, hE]
  have p : (posCount d : ℚ) ≠ 0 := by exact_mod_cast hP
  have n : (negCount d : ℚ) ≠ 0 := by exact_mod_cast hN
  push_cast
  field_simp

/-- C3 as stated fails in `float` arithmetic: three trees, one positive
example with vote 1 and seven negative examples with votes -3, -3, -2, -2,
-2, -2, -1.  Every hypothesis of the claim holds, the specificities are the
`float`s nearest to 2/7, 6/7 and 1, and the trapezoid sum in `float`
arithmetic is 16777215/16777216 (0.99999994), not 1. -/
theorem computeOOBAUC_separated_counterexample :
    1 ≤ posCount (mkDataset [1, 0, 0, 0, 0, 0, 0, 0] [] [1, -3, -3, -2, -2, -2, -2, -1]) ∧
    1 ≤ negCount (mkDataset [1, 0, 0, 0, 0, 0, 0, 0] [] [1, -3, -3, -2, -2, -2, -2, -1]) ∧
    votesWithin (mkDataset [1, 0, 0, 0, 0, 0, 0, 0] [] [1, -3, -3, -2, -2, -2, -2, -1]) 3 ∧
    (∀ i, i < (mkDataset [1, 0, 0, 0, 0, 0, 0, 0] [] [1, -3, -3, -2, -2, -2, -2, -1]).nex →
      (mkDataset [1, 0, 0, 0, 0, 0, 0, 0] [] [1, -3, -3, -2, -2, -2, -2, -1]).target i = 1 →
      0 < (mkDataset [1, 0, 0, 0, 0, 0, 0, 0] [] [1, -3, -3, -2, -2, -2, -2, -1]).oobvotes i) ∧
    (∀ i, i < (mkDataset [1, 0, 0, 0, 0, 0, 0, 0] [] [1, -3, -3, -2, -2, -2, -2, -1]).nex →
      (mkDataset [1, 0, 0, 0, 0, 0, 0, 0] [] [1, -3, -3, -2, -2, -2, -2, -1]).target i = 0 →
      (mkDataset [1, 0, 0, 0, 0, 0, 0, 0] [] [1, -3, -3, -2, -2, -2, -2, -1]).oobvotes i < 0) ∧
    computeOOBAUC32 (mkDataset [1, 0, 0, 0, 0, 0, 0, 0] [] [1, -3, -3, -2, -2, -2, -2, -1]) 3
      = (16777215, 16777216) ∧
    fracVal
        (computeOOBAUC32 (mkDataset [1, 0, 0, 0, 0, 0, 0, 0] [] [1, -3, -3, -2, -2, -2, -2, -1]) 3)
      < 1 := by
  have h : computeOOBAUC32
      (mkDataset [1, 0, 0, 0, 0, 0, 0, 0] [] [1, -3, -3, -2, -2, -2, -2, -1]) 3
      = (16777215, 16777216) := by decide
  refine ⟨by decide, by decide, by decide, by decide, by decide, h, ?_⟩
  rw [h]
  norm_num [fracVal]

/-- C3, amended: in exact arithmetic, with at least one tree, at least one
positive and one negative example, every positive example voted strictly
above 0 and every negative one strictly below 0 (votes within
`[-treesSoFar, treesSoFar]`), `computeOOBAUC` returns exactly 1. -/
theorem computeOOBAUC_separated (d : dataset_t) (treesSoFar : Int) (hT : 1 ≤ treesSoFar)
    (hP : 1 ≤ posCount d) (hN : 1 ≤ negCount d) (hv : votesWithin d treesSoFar)
    (hpos : ∀ i, i < d.nex → d.target i = 1 → 0 < d.oobvotes i)
    (hneg : ∀ i, i < d.nex → d.target i = 0 → d.oobvotes i < 0) :
    computeOOBAUC d treesSoFar = 1 := by
  rw [computeOOBAUC_eq_rocAUC d treesSoFar hv (by omega)]
  exact rocAUC_separated d (by omega) (by omega) hpos hneg

/-- C3, amended, at the dataset with labels 1,1,0,0 and votes 1,2,-1,-2
after two trees. -/
theorem computeOOBAUC_separated_witness :
    computeOOBAUC (mkDataset [1, 1, 0, 0] [] [1, 2, -1, -2]) 2 = 1 :=
  computeOOBAUC_separated (mkDataset [1, 1, 0, 0] [] [1, 2, -1, -2]) 2
    (by decide) (by decide) (by decide) (by decide) (by decide) (by decide)

/-- With equal class counts at every vote level the trapezoid sum telescopes
to one half. -/
theorem computeOOBAUC_balanced_aux (d : dataset_t) (T : Int) (hne : 0 < d.nex)
    (hl : binaryLabels d) (hv : votesWithin d T)
    (hbal : ∀ v : Int, -T ≤ v → v ≤ T →
      countVotes d 1 (fun x => x = v) = countVotes d 0 (fun x => x = v)) :
    computeOOBAUC d T = 1 / 2 := by
  -- both classes have the same size
  have tot : ∀ l : Int, ∑ k in range (T + 1 - -T).toNat,
      (countVotes d l (fun x => x = -T + (k : Int)) : Int)
        = (countVotes d l (fun _ => True) : Int) := by
    intro l
    rw [countVotes_interval]
    congr 1
    apply countVotes_congr
    intro i hi
    have := hv i hi
    simp only [iff_true]
    omega
  have hPN : posCount d = negCount d := by
    have h1 := tot 1
    have h0 := tot 0
    unfold posCount negCount
    have : (countVotes d 1 (fun _ => True) : Int) = (countVotes d 0 (fun _ => True) : Int) := by
      rw [← h1, ← h0]
      apply sum_congr rfl
      intro k hk
      have hk := mem_range.mp hk
      rw [hbal (-T + (k : Int)) (by omega) (by omega)]
    exact_mod_cast this
  -- every example is in one of the classes
  have hsum : posCount d + negCount d = d.nex := by
    unfold posCount negCount
    simp only [countVotes_sum, ← sum_add_distrib]
    have h1 : ∀ i ∈ range d.nex,
        ((if d.target i = 1 ∧ True then 1 else 0) + (if d.target i = 0 ∧ True then 1 else 0)) = 1 := by
      intro i hi
      rcases hl i (mem_range.mp hi) with h | h <;> simp [h]
    rw [sum_congr rfl h1]
    simp
  have hN : negCount d ≠ 0 := by omega
  have hPq : (posCount d : ℚ) ≠ 0 := by
    have : posCount d ≠ 0 := by omega
    exact_mod_cast this
  rw [computeOOBAUC_sum d T hv hN, ← hPN]
  -- the cumulative count of positives below a threshold
  obtain ⟨g, hg⟩ : ∃ g : Nat → ℚ, g = fun j : Nat =>
      (2 * (posCount d : ℚ) * (countVotes d 1 (fun x => x < -T + (j : Int)) : ℚ)
        - (countVotes d 1 (fun x => x < -T + (j : Int)) : ℚ) ^ 2)
        / (2 * (posCount d : ℚ) * (posCount d : ℚ)) := ⟨_, rfl⟩
  have step : ∀ k, k ∈ range (T + 1 - -T).toNat →
      (countVotes d 0 (fun x => x = -T + (k : Int)) : ℚ) *
        (((countVotes d 1 (fun x => -T + (k : Int) ≤ x) : ℚ)
          + (countVotes d 1 (fun x => -T + (k : Int) < x) : ℚ))
          / (2 * (posCount d : ℚ) * (posCount d : ℚ)))
      = g (k + 1) - g k := by
    intro k hk
    have hk := mem_range.mp hk
    rw [hg]
    simp only []
    rw [← hbal (-T + (k : Int)) (by omega) (by omega)]
    have a1 : (countVotes d 1 (fun x => -T + (k : Int) ≤ x) : ℚ)
        = (posCount d : ℚ) - (countVotes d 1 (fun x => x < -T + (k : Int)) : ℚ) := by
      have := countVotes_lt_add_ge d 1 (-T + (k : Int))
      unfold posCount
      rw [← this]
      push_cast
      ring
    have a2 : (countVotes d 1 (fun x => -T + (k : Int) < x) : ℚ)
        = (posCount d : ℚ) - (countVotes d 1 (fun x => x < -T + ((k + 1 : Nat) : Int)) : ℚ) := by
      have := countVotes_lt_add_ge d 1 (-T + ((k + 1 : Nat) : Int))
      unfold posCount
      rw [← this, countVotes_congr d 1 (fun x => -T + (k : Int) < x)
        (fun x => -T + ((k + 1 : Nat) : Int) ≤ x)
        (fun i _ => by constructor <;> intro h <;> omega)]
      push_cast
      ring
    have a3 : (countVotes d 1 (fun x => x = -T + (k : Int)) : ℚ)
        = (countVotes d 1 (fun x => x < -T + ((k + 1 : Nat) : Int)) : ℚ)
          - (countVotes d 1 (fun x => x < -T + (k : Int)) : ℚ) := by
      rw [← countVotes_split d 1 (fun x => x < -T + ((k + 1 : Nat) : Int))
        (fun x => x < -T + (k : Int))]
      rw [countVotes_congr d 1 (fun x => x < -T + ((k + 1 : Nat) : Int) ∧ x < -T + (k : Int))
        (fun x => x < -T + (k : Int)) (fun i _ => by constructor <;> intro h <;> omega),
        countVotes_congr d 1 (fun x => x < -T + ((k + 1 : Nat) : Int) ∧ ¬ x < -T + (k : Int))
        (fun x => x = -T + (k : Int)) (fun i _ => by constructor <;> intro h <;> omega)]
      push_cast
      ring
    rw [a1, a2, a3]
    generalize (countVotes d 1 (fun x => x < -T + ((k + 1 : Nat) : Int)) : ℚ) = F1
    generalize (countVotes d 1 (fun x => x < -T + (k : Int)) : ℚ) = F0
    ring
  rw [sum_congr rfl step, sum_range_sub g]
  have f0 : countVotes d 1 (fun x => x < -T + ((0 : Nat) : Int)) = 0 := by
    rw [countVotes_sum]
    apply sum_eq_zero
    intro i hi
    have := hv i (mem_range.mp hi)
    rw [if_neg]
    rintro ⟨_, h⟩
    omega
  have fM : countVotes d 1 (fun x => x < -T + (((T + 1 - -T).toNat : Nat) : Int)) = posCount d := by
    unfold posCount
    apply countVotes_congr
    intro i hi
    have := hv i hi
    simp only [iff_true]
    omega
  rw [hg]
  simp only []
  rw [f0, fM]
  field_simp
  ring

/-- The vote range matters for the balance: one positive and one negative
example with vote 0 and a further negative example with vote 2, which no
run reaches after one tree.  The counts agree at the levels -1, 0 and 1,
every cell the code touches is inside its block, and the result is 1/4. -/
theorem computeOOBAUC_balanced_out_of_range :
    binaryLabels (mkDataset [1, 0, 0] [] [0, 0, 2]) ∧
    0 < (mkDataset [1, 0, 0] [] [0, 0, 2]).nex ∧
    (∀ v : Int, -1 ≤ v → v ≤ 1 →
      countVotes (mkDataset [1, 0, 0] [] [0, 0, 2]) 1 (fun x => x = v)
        = countVotes (mkDataset [1, 0, 0] [] [0, 0, 2]) 0 (fun x => x = v)) ∧
    computeOOBAUC (mkDataset [1, 0, 0] [] [0, 0, 2]) 1 = 1 / 4 ∧
    computeOOBAUC (mkDataset [1, 0, 0] [] [0, 0, 2]) 1 ≠ 1 / 2 := by
  have e : computeOOBAUC (mkDataset [1, 0, 0] [] [0, 0, 2]) 1 = 1 / 4 := by
    simp [computeOOBAUC, sensSpec, threshCounts, labelCounts, forInt, forLoop, mkDataset,
      Function.update_apply]
    norm_num
  refine ⟨by decide, by decide, ?_, e, ?_⟩
  · intro v h1 h2
    interval_cases v <;> decide
  · rw [e]
    norm_num

/-- C4: for a non-empty dataset (labels in {0,1}, every cumulative vote in
`[-treesSoFar, treesSoFar]`, as in every call of the code) in which at every
vote level the positive and the negative examples are equally many,
`computeOOBAUC` returns exactly 1/2 in exact arithmetic. -/
theorem computeOOBAUC_balanced (d : dataset_t) (treesSoFar : Int) (hne : 0 < d.nex)
    (hl : binaryLabels d) (hv : votesWithin d treesSoFar)
    (hbal : ∀ v : Int, -treesSoFar ≤ v → v ≤ treesSoFar →
      countVotes d 1 (fun x => x = v) = countVotes d 0 (fun x => x = v)) :
    computeOOBAUC d treesSoFar = 1 / 2 :=
  computeOOBAUC_balanced_aux d treesSoFar hne hl hv hbal

/-- C4 at the dataset with labels 1,0,1,0 and votes 1,1,0,0 after one
tree. -/
theorem computeOOBAUC_balanced_witness :
    computeOOBAUC (mkDataset [1, 0, 1, 0] [] [1, 1, 0, 0]) 1 = 1 / 2 :=
  computeOOBAUC_balanced (mkDataset [1, 0, 1, 0] [] [1, 1, 0, 0]) 1 (by decide) (by decide)
    (by decide) (by intro v h1 h2; interval_cases v <;> decide)

/-! ## Claims on `tabulateOOBVotes` -/

/-- The vote loop after its first `n` iterations. -/
theorem tabulate_forLoop (pred : Nat → ℚ) (d : dataset_t) (n : Nat) :
    forLoop n (fun i (d : dataset_t) =>
      if d.weight i = 0 then
        if pred i > 1 / 2 then
          { d with oobvotes := Function.update d.oobvotes i (d.oobvotes i + 1) }
        else
          { d with oobvotes := Function.update d.oobvotes i (d.oobvotes i - 1) }
      else d) d
    = { d with
        oobvotes := fun i =>
          if i < n ∧ d.weight i = 0 then
            (if pred i > 1 / 2 then d.oobvotes i + 1 else d.oobvotes i - 1)
          else d.oobvotes i } := by
  induction n with
  | zero => simp [forLoop]
  | succ n ih =>
    rw [forLoop_succ, ih]
    have key : ∀ i, i ≠ n → ((i < n + 1 ∧ d.weight i = 0) ↔ (i < n ∧ d.weight i = 0)) := by
      intro i hi
      constructor
      · rintro ⟨a, b⟩; exact ⟨by omega, b⟩
      · rintro ⟨a, b⟩; exact ⟨by omega, b⟩
    have old : ¬ (n < n ∧ d.weight n = 0) := fun h => absurd h.1 (lt_irrefl n)
    by_cases hw : d.weight n = 0
    · by_cases hp : pred n > 1 / 2
      · show (if d.weight n = 0 then (if pred n > 1 / 2 then _ else _) else _) = _
        rw [if_pos hw, if_pos hp]
        congr 1
        funext i
        dsimp only
        by_cases hi : i = n
        · rw [hi, Function.update_same, if_neg old, if_pos ⟨Nat.lt_succ_self n, hw⟩, if_pos hp]
        · rw [Function.update_noteq hi, if_congr (key i hi) rfl rfl]
      · show (if d.weight n = 0 then (if pred n > 1 / 2 then _ else _) else _) = _
        rw [if_pos hw, if_neg hp]
        congr 1
        funext i
        dsimp only
        by_cases hi : i = n
        · rw [hi, Function.update_same, if_neg old, if_pos ⟨Nat.lt_succ_self n, hw⟩, if_neg hp]
        · rw [Function.update_noteq hi, if_congr (key i hi) rfl rfl]
    · show (if d.weight n = 0 then _ else _) = _
      rw [if_neg hw]
      congr 1
      funext i
      dsimp only
      by_cases hi : i = n
      · rw [hi, if_neg old, if_neg (fun h => hw h.2)]
      · rw [if_congr (key i hi) rfl rfl]

theorem tabulateLoop_eq (pred : Nat → ℚ) (d : dataset_t) :
    tabulateLoop pred d
      = { d with
          oobvotes := fun i =>
            if i < d.nex ∧ d.weight i = 0 then
              (if pred i > 1 / 2 then d.oobvotes i + 1 else d.oobvotes i - 1)
            else d.oobvotes i } := by
  unfold tabulateLoop
  exact tabulate_forLoop pred d d.nex

/-- C10: `tabulateOOBVotes` leaves in `tree->pred` the predictions of
`classifyOOBData` and changes the dataset in its votes only: an example with
weight 0 gets +1 when the prediction for it is strictly greater than 1/2 and
-1 otherwise (so also at exactly 1/2), an example with non-zero weight keeps
its vote; labels, weights and the example count are as before. -/
theorem tabulateOOBVotes_spec (tm : tree_module) (tree : tree_t) (d : dataset_t) :
    tabulateOOBVotes tm tree d =
      ({ tree with pred := tm.classifyOOBData tree tree.root d },
       { nfeat := d.nfeat
         nex := d.nex
         target := d.target
         weight := d.weight
         oobvotes := fun i =>
          if i < d.nex ∧ d.weight i = 0 then
            (if tm.classifyOOBData tree tree.root d i > 1 / 2 then d.oobvotes i + 1
             else d.oobvotes i - 1)
          else d.oobvotes i }) := by
  unfold tabulateOOBVotes
  simp only []
  rw [tabulateLoop_eq]

/-! ## Claims on `classifyForest` -/

/-- C5 as stated fails: on a bagging forest fresh from `initForest` (no tree
grown) `classifyForest` returns NaN, the quotient 0/0, and reports nothing. -/
theorem classifyForest_empty_counterexample :
    (initForest zeroForest BAGGING 1000 1 100 1 0 none).ngrown = 0 ∧
    classifyForest (constTrees 7 (fun _ => 1) 1)
      (initForest zeroForest BAGGING 1000 1 100 1 0 none) (fun _ => 0) = fval.nan := by
  constructor
  · rfl
  · simp [classifyForest, initForest, zeroForest, forLoop, fdiv]

/-- C5, amended: on a forest with zero grown trees `classifyForest` performs
the division 0/0 and returns its value, NaN, for every committee type and
every example; it has no error exit. -/
theorem classifyForest_empty (tm : tree_module) (f : forest_t) (ex : Nat → ℚ)
    (h : f.ngrown = 0) : classifyForest tm f ex = fval.nan := by
  unfold classifyForest
  simp only [h, Int.toNat_zero, forLoop, ite_self, Int.cast_zero]
  simp [fdiv]

/-- C5, amended, at a boosting forest fresh from `initForest`. -/
theorem classifyForest_empty_witness :
    classifyForest (constTrees 7 (fun _ => 1) 1)
      (initForest zeroForest BOOSTING 1000 1 100 1 0 none) (fun _ => 0) = fval.nan :=
  classifyForest_empty _ _ _ rfl

/-! ## Bootstrap sampling -/

theorem drawsUpTo_succ (g : rand_state) (n j : Nat) :
    drawsUpTo g n (j + 1) = drawsUpTo g n j ++ [g.stream (g.pos + j) % n] := by
  unfold drawsUpTo
  rw [List.range_succ, List.map_append]
  rfl

theorem drawsUpTo_lt (g : rand_state) (n j : Nat) (hn : 0 < n) :
    ∀ r ∈ drawsUpTo g n j, r < n := by
  intro r hr
  unfold drawsUpTo at hr
  rw [List.mem_map] at hr
  obtain ⟨k, _, rfl⟩ := hr
  exact Nat.mod_lt _ hn

theorem draws_lt (g : rand_state) (n : Nat) : ∀ r ∈ draws g n, r < n := by
  intro r hr
  rcases Nat.eq_zero_or_pos n with h | h
  · subst h
    simp [draws, drawsUpTo] at hr
  · exact drawsUpTo_lt g n n h r hr

/-- Lines 198-201: the loop that clears the flags and the weights. -/
theorem reset_forLoop (s : grow_state) (n : Nat) :
    forLoop n (fun i (s : grow_state) =>
      { s with
        tree := { s.tree with valid := Function.update s.tree.valid i 0 }
        d := { s.d with weight := Function.update s.d.weight i 0 } }) s
    = { s with
        tree := { s.tree with valid := fun i => if i < n then 0 else s.tree.valid i }
        d := { s.d with weight := fun i => if i < n then 0 else s.d.weight i } } := by
  induction n with
  | zero => simp [forLoop]
  | succ n ih =>
    rw [forLoop_succ, ih]
    dsimp only
    congr 2
    · funext i
      by_cases hi : i = n
      · rw [hi, Function.update_same, if_pos (Nat.lt_succ_self n)]
      · rw [Function.update_noteq hi]
        by_cases h : i < n
        · rw [if_pos h, if_pos (by omega)]
        · rw [if_neg h, if_neg (by omega)]
    · funext i
      by_cases hi : i = n
      · rw [hi, Function.update_same, if_pos (Nat.lt_succ_self n)]
      · rw [Function.update_noteq hi]
        by_cases h : i < n
        · rw [if_pos h, if_pos (by omega)]
        · rw [if_neg h, if_neg (by omega)]

/-- Lines 202-206: the drawing loop after its first `j` iterations. -/
theorem draw_forLoop (w : Int → ℚ) (s : grow_state) (j : Nat) :
    forLoop j (fun _ (s : grow_state) =>
      { s with
        rng := (rand s.rng).2
        tree := { s.tree with
                  valid := Function.update s.tree.valid ((rand s.rng).1 % s.d.nex) 1 }
        d := { s.d with
               weight := Function.update s.d.weight ((rand s.rng).1 % s.d.nex)
                (s.d.weight ((rand s.rng).1 % s.d.nex)
                  + w (s.d.target ((rand s.rng).1 % s.d.nex))) } }) s
    = { s with
        rng := { s.rng with pos := s.rng.pos + j }
        tree := { s.tree with
                  valid := fun i => if i ∈ drawsUpTo s.rng s.d.nex j then 1 else s.tree.valid i }
        d := { s.d with
               weight := fun i =>
                s.d.weight i + ((drawsUpTo s.rng s.d.nex j).count i : ℚ) * w (s.d.target i) } } := by
  induction j with
  | zero =>
    simp [forLoop, drawsUpTo]
  | succ j ih =>
    rw [forLoop_succ, ih]
    dsimp only [rand]
    congr 2
    · funext i
      rw [drawsUpTo_succ, List.count_append]
      by_cases hi : i = s.rng.stream (s.rng.pos + j) % s.d.nex
      · rw [← hi, Function.update_same]
        simp only [List.count_singleton_self]
        push_cast
        ring
      · rw [Function.update_noteq hi]
        have : List.count i [s.rng.stream (s.rng.pos + j) % s.d.nex] = 0 := by
          rw [List.count_eq_zero]
          simpa using hi
        rw [this]
        simp
    · funext i
      rw [drawsUpTo_succ]
      by_cases hi : i = s.rng.stream (s.rng.pos + j) % s.d.nex
      · rw [← hi, Function.update_same, if_pos (by simp)]
      · rw [Function.update_noteq hi]
        simp only [List.mem_append, List.mem_singleton, hi, or_false]

/-- The state after the bootstrap sampling of a round: the random source has
moved by `nex` draws, an example is flagged exactly when it was drawn, and
its weight is its class weight times the number of times it was drawn. -/
theorem bootstrap_eq (w : Int → ℚ) (s : grow_state) :
    bootstrap w s
      = { s with
          rng := { s.rng with pos := s.rng.pos + s.d.nex }
          tree := { s.tree with
                    valid := fun i =>
                      if i ∈ draws s.rng s.d.nex then 1
                      else if i < s.d.nex then 0 else s.tree.valid i }
          d := { s.d with
                 weight := fun i =>
                  (if i < s.d.nex then 0 else s.d.weight i)
                    + ((draws s.rng s.d.nex).count i : ℚ) * w (s.d.target i) } } := by
  unfold bootstrap
  dsimp only
  rw [reset_forLoop]
  dsimp only
  rw [draw_forLoop]
  rfl

/-- Weighting every index by the number of times a list names it sums to the
sum over the list. -/
theorem sum_count_mul (n : Nat) (f : Nat → ℚ) (L : List Nat) (hL : ∀ r ∈ L, r < n) :
    ∑ i in range n, (L.count i : ℚ) * f i = (L.map f).sum := by
  induction L with
  | nil => simp
  | cons r L ih =>
    have hr : r < n := hL r (List.mem_cons_self r L)
    have hL2 : ∀ x ∈ L, x < n := fun x hx => hL x (List.mem_cons_of_mem r hx)
    rw [List.map_cons, List.sum_cons, ← ih hL2]
    have : ∀ i ∈ range n, ((r :: L).count i : ℚ) * f i
        = (if i = r then f i else 0) + (L.count i : ℚ) * f i := by
      intro i _
      rw [List.count_cons]
      by_cases h : r = i
      · subst h
        simp
        ring
      · have h2 : ¬ i = r := fun e => h e.symm
        simp [h, h2]
    rw [sum_congr rfl this, sum_add_distrib, sum_ite_eq' (range n) r f, if_pos (mem_range.mpr hr)]

/-- The weight of an example after the bootstrap sampling of a round. -/
theorem bootstrap_weight (w : Int → ℚ) (s : grow_state) (i : Nat) (hi : i < s.d.nex) :
    (bootstrap w s).d.weight i = ((draws s.rng s.d.nex).count i : ℚ) * w (s.d.target i) := by
  rw [bootstrap_eq]
  dsimp only
  rw [if_pos hi, zero_add]

/-- The inclusion flag of an example after the bootstrap sampling of a round. -/
theorem bootstrap_valid (w : Int → ℚ) (s : grow_state) (i : Nat) (hi : i < s.d.nex) :
    (bootstrap w s).tree.valid i = if i ∈ draws s.rng s.d.nex then 1 else 0 := by
  rw [bootstrap_eq]
  dsimp only
  rw [if_pos hi]

/-! ## The rounds of `growForest` -/

/-- Lines 209-211: the loop that flags every example. -/
theorem validOne_forLoop (s : grow_state) (n : Nat) :
    forLoop n (fun i (s : grow_state) =>
      { s with tree := { s.tree with valid := Function.update s.tree.valid i 1 } }) s
    = { s with
        tree := { s.tree with valid := fun i => if i < n then 1 else s.tree.valid i } } := by
  induction n with
  | zero => simp [forLoop]
  | succ n ih =>
    rw [forLoop_succ, ih]
    dsimp only
    congr 2
    funext i
    by_cases hi : i = n
    · rw [hi, Function.update_same, if_pos (Nat.lt_succ_self n)]
    · rw [Function.update_noteq hi]
      by_cases h : i < n
      · rw [if_pos h, if_pos (by omega)]
      · rw [if_neg h, if_neg (by omega)]

/-- The out-of-bag step changes the dataset by the vote loop only. -/
theorem oobStep_d (tm : tree_module) (t : Nat) (s : grow_state) :
    (oobStep tm t s).d
      = if s.f.oob ≠ 0 then
          tabulateLoop (tm.classifyOOBData
            { s.tree with valid := fun i => if i < s.d.nex then 1 else s.tree.valid i }
            s.tree.root s.d) s.d
        else s.d := by
  unfold oobStep
  by_cases h : s.f.oob ≠ 0
  · rw [if_pos h, if_pos h]
    dsimp only
    rw [validOne_forLoop]
    unfold tabulateOOBVotes
    dsimp only
    cases s.f.oobfile <;> rfl
  · rw [if_neg h, if_neg h]

/-- The out-of-bag step changes the forest in its vote stream only, and
leaves the root of the tree and the random source alone. -/
theorem oobStep_frame (tm : tree_module) (t : Nat) (s : grow_state) :
    (oobStep tm t s).f = { s.f with oobfile := (oobStep tm t s).f.oobfile } ∧
    (oobStep tm t s).tree.root = s.tree.root ∧
    (oobStep tm t s).rng = s.rng := by
  unfold oobStep
  by_cases h : s.f.oob ≠ 0
  · rw [if_pos h]
    dsimp only
    rw [validOne_forLoop]
    unfold tabulateOOBVotes
    dsimp only
    cases s.f.oobfile <;> exact ⟨rfl, rfl, rfl⟩
  · rw [if_neg h]
    exact ⟨rfl, rfl, rfl⟩

/-- What a bagging or random-forest round leaves in the dataset. -/
theorem bagRound_d (tm : tree_module) (w : Int → ℚ) (t : Nat) (s : grow_state) :
    ∃ pred : Nat → ℚ,
      (bagRound tm w t s).d
        = if s.f.oob ≠ 0 then tabulateLoop pred (bootstrap w s).d else (bootstrap w s).d := by
  unfold bagRound
  dsimp only
  rw [oobStep_d]
  dsimp only
  have hf : (bootstrap w s).f = s.f := by rw [bootstrap_eq]
  rw [hf]
  exact ⟨_, rfl⟩

/-- What a bagging or random-forest round leaves in the forest and the tree. -/
theorem bagRound_frame (tm : tree_module) (w : Int → ℚ) (t : Nat) (s : grow_state) :
    (bagRound tm w t s).f = { s.f with oobfile := (bagRound tm w t s).f.oobfile } ∧
    (bagRound tm w t s).tree.root
      = (tm.grow (bootstrap w s).tree (bootstrap w s).d (bootstrap w s).rng).1 := by
  unfold bagRound
  dsimp only
  have h := oobStep_frame tm t
    { f := (bootstrap w s).f
      d := (bootstrap w s).d
      tree := { (bootstrap w s).tree with
                root := (tm.grow (bootstrap w s).tree (bootstrap w s).d (bootstrap w s).rng).1 }
      rng := (tm.grow (bootstrap w s).tree (bootstrap w s).d (bootstrap w s).rng).2
      out := (bootstrap w s).out }
  have hf : (bootstrap w s).f = s.f := by rw [bootstrap_eq]
  refine ⟨?_, h.2.1⟩
  rw [h.1]
  dsimp only
  rw [hf]

/-- A property that every iteration keeps holds after the loop. -/
theorem forLoop_inv {σ : Type} (P : σ → Prop) (body : Nat → σ → σ) (n : Nat) (s : σ)
    (h0 : P s) (hstep : ∀ i s, P s → P (body i s)) : P (forLoop n body s) := by
  induction n with
  | zero => exact h0
  | succ n ih => exact hstep n _ ih

/-- Lines 189-192: the reweighting loop after its first `n` iterations. -/
theorem boostUpdate_forLoop (m : libm) (pred : Nat → ℚ) (d : dataset_t) (n : Nat) :
    forLoop n (fun i (p : dataset_t × ℚ) =>
      ({ p.1 with
         weight := Function.update p.1.weight i
          (p.1.weight i * m.exp (((-(2 * p.1.target i - 1) : Int) : ℚ) * pred i)) },
       p.2 + p.1.weight i * m.exp (((-(2 * p.1.target i - 1) : Int) : ℚ) * pred i))) (d, 0)
    = ({ d with
         weight := fun i =>
          if i < n then d.weight i * m.exp (((-(2 * d.target i - 1) : Int) : ℚ) * pred i)
          else d.weight i },
       ∑ i in range n, d.weight i * m.exp (((-(2 * d.target i - 1) : Int) : ℚ) * pred i)) := by
  induction n with
  | zero => simp [forLoop]
  | succ n ih =>
    rw [forLoop_succ, ih]
    dsimp only
    rw [if_neg (lt_irrefl n), sum_range_succ]
    congr 2
    funext i
    by_cases hi : i = n
    · rw [hi, Function.update_same, if_pos (Nat.lt_succ_self n)]
    · rw [Function.update_noteq hi]
      by_cases h : i < n
      · rw [if_pos h, if_pos (by omega)]
      · rw [if_neg h, if_neg (by omega)]

theorem boostUpdate_eq (m : libm) (pred : Nat → ℚ) (d : dataset_t) :
    boostUpdate m pred d
      = ({ d with
           weight := fun i =>
            if i < d.nex then d.weight i * m.exp (((-(2 * d.target i - 1) : Int) : ℚ) * pred i)
            else d.weight i },
         ∑ i in range d.nex,
           d.weight i * m.exp (((-(2 * d.target i - 1) : Int) : ℚ) * pred i)) := by
  unfold boostUpdate
  exact boostUpdate_forLoop m pred d d.nex

/-- Lines 193-194: the normalising loop after its first `n` iterations. -/
theorem boostNormalize_forLoop (sum : ℚ) (d : dataset_t) (n : Nat) :
    forLoop n (fun i (d : dataset_t) =>
      { d with weight := Function.update d.weight i (d.weight i / sum) }) d
    = { d with weight := fun i => if i < n then d.weight i / sum else d.weight i } := by
  induction n with
  | zero => simp [forLoop]
  | succ n ih =>
    rw [forLoop_succ, ih]
    dsimp only
    rw [if_neg (lt_irrefl n)]
    congr 1
    funext i
    by_cases hi : i = n
    · rw [hi, Function.update_same, if_pos (Nat.lt_succ_self n)]
    · rw [Function.update_noteq hi]
      by_cases h : i < n
      · rw [if_pos h, if_pos (by omega)]
      · rw [if_neg h, if_neg (by omega)]

theorem boostNormalize_eq (sum : ℚ) (d : dataset_t) :
    boostNormalize sum d
      = { d with weight := fun i => if i < d.nex then d.weight i / sum else d.weight i } := by
  unfold boostNormalize
  exact boostNormalize_forLoop sum d d.nex

/-- A boosting round: the forest is untouched, the root is the one `grow`
returned, and every weight is its reweighted value over `sum`. -/
theorem boostRound_eq (tm : tree_module) (m : libm) (s : grow_state) :
    (boostRound tm m s).f = s.f ∧
    (boostRound tm m s).tree.root = (tm.grow s.tree s.d s.rng).1 ∧
    (boostRound tm m s).d
      = { s.d with
          weight := fun i =>
            if i < s.d.nex then
              s.d.weight i * m.exp (((-(2 * s.d.target i - 1) : Int) : ℚ) * boostPred tm s i)
                / boostSum tm m s
            else s.d.weight i } := by
  refine ⟨rfl, rfl, ?_⟩
  have e : (boostRound tm m s).d
      = boostNormalize (boostSum tm m s) (boostUpdate m (boostPred tm s) s.d).1 := rfl
  rw [e, boostNormalize_eq, boostUpdate_eq]
  dsimp only
  congr 1
  funext i
  by_cases h : i < s.d.nex
  · rw [if_pos h, if_pos h, if_pos h]
  · rw [if_neg h, if_neg h, if_neg h]

theorem boostSum_eq (tm : tree_module) (m : libm) (s : grow_state) :
    boostSum tm m s = ∑ i in range s.d.nex,
      s.d.weight i * m.exp (((-(2 * s.d.target i - 1) : Int) : ℚ) * boostPred tm s i) := by
  unfold boostSum
  rw [boostUpdate_eq]

/-- What a round leaves in the forest: the vote stream apart, only the slot
of the round and the grown count change. -/
theorem growRound_f (tm : tree_module) (m : libm) (w : Int → ℚ) (t : Nat) (s : grow_state) :
    (growRound tm m w t s).f
      = { s.f with
          oobfile := (growRound tm m w t s).f.oobfile
          tree := Function.update s.f.tree t (grownRoot tm w s)
          ngrown := s.f.ngrown + 1 } := by
  unfold growRound grownRoot
  by_cases h : s.f.committee = BOOSTING
  · rw [if_pos h, if_pos h]
    rfl
  · rw [if_neg h, if_neg h]
    dsimp only
    have hb := bagRound_frame tm w t s
    rw [hb.2]
    rw [hb.1]

/-- What a round leaves in the dataset: the example count and the labels
stay, and in a bagging or random-forest round the weights are those of the
bootstrap sampling. -/
theorem growRound_d (tm : tree_module) (m : libm) (w : Int → ℚ) (t : Nat) (s : grow_state) :
    (growRound tm m w t s).d.nex = s.d.nex ∧
    (growRound tm m w t s).d.target = s.d.target ∧
    (growRound tm m w t s).d.nfeat = s.d.nfeat ∧
    (s.f.committee ≠ BOOSTING →
      (growRound tm m w t s).d.weight = (bootstrap w s).d.weight) := by
  have e : (growRound tm m w t s).d
      = if s.f.committee = BOOSTING then (boostRound tm m s).d else (bagRound tm w t s).d := by
    unfold growRound
    by_cases h : s.f.committee = BOOSTING
    · rw [if_pos h, if_pos h]
    · rw [if_neg h, if_neg h]
  rw [e]
  by_cases h : s.f.committee = BOOSTING
  · rw [if_pos h, (boostRound_eq tm m s).2.2]
    exact ⟨rfl, rfl, rfl, fun hn => absurd h hn⟩
  · rw [if_neg h]
    obtain ⟨pred, hp⟩ := bagRound_d tm w t s
    rw [hp]
    have hb : (bootstrap w s).d.nex = s.d.nex ∧ (bootstrap w s).d.target = s.d.target
        ∧ (bootstrap w s).d.nfeat = s.d.nfeat := by
      rw [bootstrap_eq]
      exact ⟨rfl, rfl, rfl⟩
    by_cases ho : s.f.oob ≠ 0
    · rw [if_pos ho, tabulateLoop_eq]
      exact ⟨hb.1, hb.2.1, hb.2.2, fun _ => rfl⟩
    · rw [if_neg ho]
      exact ⟨hb.1, hb.2.1, hb.2.2, fun _ => rfl⟩

/-! ## Claims on the bootstrap sampling -/

/-- C7 as stated fails in `float` arithmetic: three positive examples,
`wneg = 1`, and the three draws 0, 0, 0.  The class weight `w[1]` is the
`float` nearest to 1/3; the third `weight[0] += w[1]` rounds
`1 + 2 ^ -25` to 1, so the weights sum to 1 while the class weights of the
three draws sum to `1 + 2 ^ -25`. -/
theorem bootstrap_mass_counterexample :
    draws (listRand [0, 0, 0]) (mkDataset [1, 1, 1] [] []).nex = [0, 0, 0] ∧
    classWeights32 (1, 1) (mkDataset [1, 1, 1] [] []) 1 = (11184811, 33554432) ∧
    (∀ i, i < 3 →
      bootstrapWeights32 (classWeights32 (1, 1) (mkDataset [1, 1, 1] [] []))
          (mkDataset [1, 1, 1] [] []) (listRand [0, 0, 0]) (fun _ => (0, 1)) i
        = if i = 0 then (8388608, 8388608) else (0, 1)) ∧
    ∑ i in range (mkDataset [1, 1, 1] [] []).nex,
        fracVal (bootstrapWeights32 (classWeights32 (1, 1) (mkDataset [1, 1, 1] [] []))
          (mkDataset [1, 1, 1] [] []) (listRand [0, 0, 0]) (fun _ => (0, 1)) i) = 1 ∧
    ((draws (listRand [0, 0, 0]) (mkDataset [1, 1, 1] [] []).nex).map
        (fun r => fracVal (classWeights32 (1, 1) (mkDataset [1, 1, 1] [] [])
          ((mkDataset [1, 1, 1] [] []).target r)))).sum = 33554433 / 33554432 := by
  have hw : classWeights32 (1, 1) (mkDataset [1, 1, 1] [] []) 1 = (11184811, 33554432) := by
    decide
  have hb : ∀ i, i < 3 →
      bootstrapWeights32 (classWeights32 (1, 1) (mkDataset [1, 1, 1] [] []))
          (mkDataset [1, 1, 1] [] []) (listRand [0, 0, 0]) (fun _ => (0, 1)) i
        = if i = 0 then (8388608, 8388608) else (0, 1) := by
    decide
  have hd : draws (listRand [0, 0, 0]) (mkDataset [1, 1, 1] [] []).nex = [0, 0, 0] := by
    decide
  refine ⟨hd, hw, hb, ?_, ?_⟩
  · show ∑ i in range 3, _ = (1 : ℚ)
    rw [Finset.sum_range_succ, Finset.sum_range_succ, Finset.sum_range_one,
      hb 0 (by decide), hb 1 (by decide), hb 2 (by decide)]
    norm_num [fracVal]
  · rw [hd]
    have ht : ∀ r : Nat, r = 0 → (mkDataset [1, 1, 1] [] []).target r = 1 := by
      intro r hr
      subst hr
      decide
    simp only [List.map_cons, List.map_nil, List.sum_cons, List.sum_nil, ht 0 rfl, hw]
    norm_num [fracVal]

/-- C7, amended: after the resampling of a bagging or random-forest round
on `n` examples, with `r_1..r_n` the indices drawn, the example weights sum
in exact arithmetic to the sum over the draws of `w[label(r_k)]`, and the
number of examples flagged `valid = 1` is the number of distinct indices
among the draws; there are `n` draws, and the weights stay as they are to
the end of the round. -/
theorem bootstrap_mass_and_included (tm : tree_module) (m : libm) (w : Int → ℚ) (t : Nat)
    (s : grow_state) :
    (draws s.rng s.d.nex).length = s.d.nex ∧
    ∑ i in range s.d.nex, (bootstrap w s).d.weight i
      = ((draws s.rng s.d.nex).map (fun r => w (s.d.target r))).sum ∧
    ((range s.d.nex).filter (fun i => (bootstrap w s).tree.valid i = 1)).card
      = (draws s.rng s.d.nex).toFinset.card ∧
    (s.f.committee ≠ BOOSTING →
      (growRound tm m w t s).d.weight = (bootstrap w s).d.weight) := by
  refine ⟨by simp [draws, drawsUpTo], ?_, ?_, ?_⟩
  · rw [← sum_count_mul s.d.nex (fun r => w (s.d.target r)) (draws s.rng s.d.nex)
      (draws_lt s.rng s.d.nex)]
    apply sum_congr rfl
    intro i hi
    exact bootstrap_weight w s i (mem_range.mp hi)
  · congr 1
    ext i
    simp only [mem_filter, mem_range, List.mem_toFinset]
    constructor
    · rintro ⟨hi, hv⟩
      rw [bootstrap_valid w s i hi] at hv
      by_contra hn
      rw [if_neg hn] at hv
      exact absurd hv (by decide)
    · intro hi
      have hlt := draws_lt s.rng s.d.nex i hi
      refine ⟨hlt, ?_⟩
      rw [bootstrap_valid w s i hlt, if_pos hi]
  · exact (growRound_d tm m w t s).2.2.2

/-- C7, amended, on the first round of a bagging run on two examples with
the draws 0, 0: the weights sum to the class weights of the two draws, and
one example is flagged. -/
theorem bootstrap_mass_and_included_witness :
    ∑ i in range (roundState (constTrees 7 (fun _ => 1) 1) ratLibm
          (initForest zeroForest BAGGING 1000 1 1 1 1 none)
          (mkDataset [0, 1] [] []) (listRand [0, 0]) [] 0).d.nex,
        (bootstrap (classWeights 1 (mkDataset [0, 1] [] []))
          (roundState (constTrees 7 (fun _ => 1) 1) ratLibm
            (initForest zeroForest BAGGING 1000 1 1 1 1 none)
            (mkDataset [0, 1] [] []) (listRand [0, 0]) [] 0)).d.weight i
      = ((draws (roundState (constTrees 7 (fun _ => 1) 1) ratLibm
            (initForest zeroForest BAGGING 1000 1 1 1 1 none)
            (mkDataset [0, 1] [] []) (listRand [0, 0]) [] 0).rng
          (roundState (constTrees 7 (fun _ => 1) 1) ratLibm
            (initForest zeroForest BAGGING 1000 1 1 1 1 none)
            (mkDataset [0, 1] [] []) (listRand [0, 0]) [] 0).d.nex).map
          (fun r => classWeights 1 (mkDataset [0, 1] [] [])
            ((roundState (constTrees 7 (fun _ => 1) 1) ratLibm
              (initForest zeroForest BAGGING 1000 1 1 1 1 none)
              (mkDataset [0, 1] [] []) (listRand [0, 0]) [] 0).d.target r))).sum ∧
    ((range (roundState (constTrees 7 (fun _ => 1) 1) ratLibm
          (initForest zeroForest BAGGING 1000 1 1 1 1 none)
          (mkDataset [0, 1] [] []) (listRand [0, 0]) [] 0).d.nex).filter
        (fun i => (bootstrap (classWeights 1 (mkDataset [0, 1] [] []))
          (roundState (constTrees 7 (fun _ => 1) 1) ratLibm
            (initForest zeroForest BAGGING 1000 1 1 1 1 none)
            (mkDataset [0, 1] [] []) (listRand [0, 0]) [] 0)).tree.valid i = 1)).card
      = (draws (roundState (constTrees 7 (fun _ => 1) 1) ratLibm
            (initForest zeroForest BAGGING 1000 1 1 1 1 none)
            (mkDataset [0, 1] [] []) (listRand [0, 0]) [] 0).rng
          (roundState (constTrees 7 (fun _ => 1) 1) ratLibm
            (initForest zeroForest BAGGING 1000 1 1 1 1 none)
            (mkDataset [0, 1] [] []) (listRand [0, 0]) [] 0).d.nex).toFinset.card :=
  ⟨(bootstrap_mass_and_included (constTrees 7 (fun _ => 1) 1) ratLibm
      (classWeights 1 (mkDataset [0, 1] [] [])) 0
      (roundState (constTrees 7 (fun _ => 1) 1) ratLibm
        (initForest zeroForest BAGGING 1000 1 1 1 1 none)
        (mkDataset [0, 1] [] []) (listRand [0, 0]) [] 0)).2.1,
   (bootstrap_mass_and_included (constTrees 7 (fun _ => 1) 1) ratLibm
      (classWeights 1 (mkDataset [0, 1] [] [])) 0
      (roundState (constTrees 7 (fun _ => 1) 1) ratLibm
        (initForest zeroForest BAGGING 1000 1 1 1 1 none)
        (mkDataset [0, 1] [] []) (listRand [0, 0]) [] 0)).2.2.1⟩

/-- The base class weights that `growForest` computes. -/
theorem classWeights_eq (wneg : ℚ) (d : dataset_t) :
    classWeights wneg d 0
      = wneg / (wneg * (negCount d : ℚ) + (posCount d : ℚ)) ∧
    classWeights wneg d 1
      = 1 / (wneg * (negCount d : ℚ) + (posCount d : ℚ)) := by
  have c : ∀ l : Int, forLoop d.nex (fun i (c : Int → ℚ) =>
      Function.update c (d.target i) (c (d.target i) + 1)) (fun _ => 0) l
        = (countVotes d l (fun _ => True) : ℚ) := by
    intro l
    rw [forLoop_count]
    unfold countVotes
    simp only [and_true]
  unfold classWeights posCount negCount
  rw [c 0, c 1]
  constructor
  · rw [Function.update_noteq (by decide), Function.update_same]
  · rw [Function.update_same]

/-- C8 as stated fails: with `wneg = 0` the class weight of the negative
examples is 0.  On the two examples with labels 0 and 1 and the draws 0, 1,
example 0 is drawn and still has weight 0 after the resampling. -/
theorem bootstrap_zero_weight_counterexample :
    0 ∈ draws (listRand [0, 1]) (mkDataset [0, 1] [] []).nex ∧
    (bootstrap
      (growInit ratLibm (initForest zeroForest BAGGING 1000 1 1 0 1 none)
        (mkDataset [0, 1] [] []) (listRand [0, 1]) []).1
      (growInit ratLibm (initForest zeroForest BAGGING 1000 1 1 0 1 none)
        (mkDataset [0, 1] [] []) (listRand [0, 1]) []).2).d.weight 0 = 0 := by
  constructor
  · decide
  · rw [bootstrap_weight _ _ 0 (by decide)]
    have : classWeights 0 (mkDataset [0, 1] [] []) 0 = 0 := by
      rw [(classWeights_eq 0 (mkDataset [0, 1] [] [])).1, zero_div]
    show (_ : ℚ) * classWeights 0 (mkDataset [0, 1] [] []) 0 = 0
    rw [this, mul_zero]

/-- With `wneg = 1` both class weights of the two examples with labels 0 and
1 are 1/2. -/
theorem classWeights_example :
    ∀ j, j < 2 → classWeights 1 (mkDataset [0, 1] [] []) ((mkDataset [0, 1] [] []).target j) ≠ 0 := by
  have hn : negCount (mkDataset [0, 1] [] []) = 1 := by decide
  have hp : posCount (mkDataset [0, 1] [] []) = 1 := by decide
  have h0 : classWeights 1 (mkDataset [0, 1] [] []) 0 = 1 / 2 := by
    rw [(classWeights_eq 1 (mkDataset [0, 1] [] [])).1, hn, hp]
    norm_num
  have h1 : classWeights 1 (mkDataset [0, 1] [] []) 1 = 1 / 2 := by
    rw [(classWeights_eq 1 (mkDataset [0, 1] [] [])).2, hn, hp]
    norm_num
  intro j hj
  interval_cases j
  · show classWeights 1 (mkDataset [0, 1] [] []) 0 ≠ 0
    rw [h0]
    norm_num
  · show classWeights 1 (mkDataset [0, 1] [] []) 1 ≠ 0
    rw [h1]
    norm_num

/-- With non-zero class weights, weight 0 after the resampling means not
drawn. -/
theorem bootstrap_weight_eq_zero_iff (w : Int → ℚ) (s : grow_state)
    (hw : ∀ i, i < s.d.nex → w (s.d.target i) ≠ 0) (i : Nat) (hi : i < s.d.nex) :
    (bootstrap w s).d.weight i = 0 ↔ i ∉ draws s.rng s.d.nex := by
  rw [bootstrap_weight w s i hi, mul_eq_zero]
  constructor
  · intro h
    rcases h with h | h
    · have : (draws s.rng s.d.nex).count i = 0 := by exact_mod_cast h
      exact List.count_eq_zero.mp this
    · exact absurd h (hw i hi)
  · intro h
    left
    have := List.count_eq_zero.mpr h
    exact_mod_cast this

/-- C8, amended: when the class weight of every example is non-zero (in the
code: `wneg` and the denominator `wneg*c0 + c1` are both non-zero), the
examples whose weight is 0 after the resampling of a
bagging or random-forest round are exactly the examples that were not drawn
in that round, so the weight-0 test of `tabulateOOBVotes` and
`outputOOBVotes` selects exactly the round's out-of-bag examples. -/
theorem bootstrap_zero_weight_iff_not_drawn (w : Int → ℚ) (s : grow_state)
    (hw : ∀ i, i < s.d.nex → w (s.d.target i) ≠ 0) (i : Nat) (hi : i < s.d.nex) :
    (bootstrap w s).d.weight i = 0 ↔ i ∉ draws s.rng s.d.nex :=
  bootstrap_weight_eq_zero_iff w s hw i hi

/-- C8, amended, at the two examples with labels 0 and 1, `wneg = 1` and the
draws 0, 0: example 1 is not drawn and has weight 0. -/
theorem bootstrap_zero_weight_iff_not_drawn_witness :
    (bootstrap
      (growInit ratLibm (initForest zeroForest BAGGING 1000 1 1 1 1 none)
        (mkDataset [0, 1] [] []) (listRand [0, 0]) []).1
      (growInit ratLibm (initForest zeroForest BAGGING 1000 1 1 1 1 none)
        (mkDataset [0, 1] [] []) (listRand [0, 0]) []).2).d.weight 1 = 0
    ↔ 1 ∉ draws
      (growInit ratLibm (initForest zeroForest BAGGING 1000 1 1 1 1 none)
        (mkDataset [0, 1] [] []) (listRand [0, 0]) []).2.rng
      (growInit ratLibm (initForest zeroForest BAGGING 1000 1 1 1 1 none)
        (mkDataset [0, 1] [] []) (listRand [0, 0]) []).2.d.nex :=
  bootstrap_zero_weight_iff_not_drawn _ _ classWeights_example 1 (by decide)

/-! ## Claims on the boosting round -/

/-- C9: in a boosting round every weight is divided by the sum of all
updated weights, so whenever that sum is non-zero the weights of the
examples sum to 1 after the round, for every dataset, every prediction
vector of the tree and every round (in exact arithmetic). -/
theorem boosting_weights_sum_one (tm : tree_module) (m : libm) (w : Int → ℚ) (t : Nat)
    (s : grow_state) (hc : s.f.committee = BOOSTING) (hs : boostSum tm m s ≠ 0) :
    ∑ i in range s.d.nex, (growRound tm m w t s).d.weight i = 1 := by
  have e : (growRound tm m w t s).d = (boostRound tm m s).d := by
    unfold growRound
    rw [if_pos hc]
  rw [e, (boostRound_eq tm m s).2.2]
  dsimp only
  have : ∀ i ∈ range s.d.nex,
      (if i < s.d.nex then
        s.d.weight i * m.exp (((-(2 * s.d.target i - 1) : Int) : ℚ) * boostPred tm s i)
          / boostSum tm m s
       else s.d.weight i)
      = s.d.weight i * m.exp (((-(2 * s.d.target i - 1) : Int) : ℚ) * boostPred tm s i)
          / boostSum tm m s := by
    intro i hi
    rw [if_pos (mem_range.mp hi)]
  rw [sum_congr rfl this, ← sum_div, ← boostSum_eq, div_self hs]

/-- C9 after the first boosting round of `growForest` on the two examples
with labels 0 and 1, with predictions 1 and 0 and the stand-in for `exp`. -/
theorem boosting_weights_sum_one_witness :
    ∑ i in range 2,
      (roundState (constTrees 7 (fun i => if i = 0 then 1 else 0) 1) ratLibm
        (initForest zeroForest BOOSTING 1000 1 2 1 0 none)
        (mkDataset [0, 1] [] []) (listRand []) [] 1).d.weight i = 1 :=
  boosting_weights_sum_one (constTrees 7 (fun i => if i = 0 then 1 else 0) 1) ratLibm
    (growInit ratLibm (initForest zeroForest BOOSTING 1000 1 2 1 0 none)
      (mkDataset [0, 1] [] []) (listRand []) []).1 0
    (roundState (constTrees 7 (fun i => if i = 0 then 1 else 0) 1) ratLibm
      (initForest zeroForest BOOSTING 1000 1 2 1 0 none)
      (mkDataset [0, 1] [] []) (listRand []) [] 0) rfl
    (by
      rw [boostSum_eq]
      simp [sum_range_succ, roundState, growRounds, growInit, boostInit, initForest, zeroForest, forLoop,
        mkDataset, BOOSTING, RANDOMFOREST, classWeights, Function.update_apply, boostPred,
        constTrees, ratLibm]
      norm_num)

/-! ## The run of `growForest` -/

/-- Lines 172-175 after the first `n` iterations: every example below `n`
is flagged and carries its class weight. -/
theorem boostInit_forLoop (w : Int → ℚ) (s : grow_state) (n : Nat) :
    forLoop n (fun i (s : grow_state) =>
      { s with
        tree := { s.tree with valid := Function.update s.tree.valid i 1 }
        d := { s.d with weight := Function.update s.d.weight i (w (s.d.target i)) } }) s
    = { s with
        tree := { s.tree with valid := fun i => if i < n then 1 else s.tree.valid i }
        d := { s.d with
               weight := fun i => if i < n then w (s.d.target i) else s.d.weight i } } := by
  induction n with
  | zero => simp [forLoop]
  | succ n ih =>
    rw [forLoop_succ, ih]
    dsimp only
    congr 2
    · funext i
      by_cases hi : i = n
      · rw [hi, Function.update_same, if_pos (Nat.lt_succ_self n)]
      · rw [Function.update_noteq hi]
        by_cases h : i < n
        · rw [if_pos h, if_pos (by omega)]
        · rw [if_neg h, if_neg (by omega)]
    · funext i
      by_cases hi : i = n
      · rw [hi, Function.update_same, if_pos (Nat.lt_succ_self n)]
      · rw [Function.update_noteq hi]
        by_cases h : i < n
        · rw [if_pos h, if_pos (by omega)]
        · rw [if_neg h, if_neg (by omega)]

theorem boostInit_eq (w : Int → ℚ) (s : grow_state) :
    boostInit w s
      = { s with
          tree := { s.tree with valid := fun i => if i < s.d.nex then 1 else s.tree.valid i }
          d := { s.d with
                 weight := fun i => if i < s.d.nex then w (s.d.target i) else s.d.weight i } } := by
  unfold boostInit
  exact boostInit_forLoop w s s.d.nex

/-- What the set-up of `growForest` leaves: the class weights, the forest
with its feature count and a fresh block of roots, and the examples, labels
and votes of the dataset. -/
theorem growInit_eq (m : libm) (f : forest_t) (d : dataset_t) (rng : rand_state)
    (out : List stdout_item) :
    (growInit m f d rng out).1 = classWeights f.wneg d ∧
    (growInit m f d rng out).2.f = { f with nfeat := (d.nfeat : Int), tree := fun _ => 0 } ∧
    (growInit m f d rng out).2.d.nex = d.nex ∧
    (growInit m f d rng out).2.d.target = d.target ∧
    (growInit m f d rng out).2.d.oobvotes = d.oobvotes ∧
    (growInit m f d rng out).2.rng = rng := by
  refine ⟨rfl, ?_⟩
  unfold growInit
  dsimp only
  rw [boostInit_eq]
  split_ifs <;> exact ⟨rfl, rfl, rfl, rfl, rfl⟩

theorem growRounds_succ (tm : tree_module) (m : libm) (w : Int → ℚ) (k : Nat) (s : grow_state) :
    growRounds tm m w (k + 1) s = growRound tm m w k (growRounds tm m w k s) := rfl

/-- Across the rounds the grown count goes up by one a round, and the
configuration of the forest, the example count and the labels stay. -/
theorem growRounds_inv (tm : tree_module) (m : libm) (w : Int → ℚ) (k : Nat) (s : grow_state) :
    (growRounds tm m w k s).f.ngrown = s.f.ngrown + (k : Int) ∧
    (growRounds tm m w k s).f.ntrees = s.f.ntrees ∧
    (growRounds tm m w k s).f.committee = s.f.committee ∧
    (growRounds tm m w k s).f.oob = s.f.oob ∧
    (growRounds tm m w k s).d.nex = s.d.nex ∧
    (growRounds tm m w k s).d.target = s.d.target := by
  induction k with
  | zero => exact ⟨by simp [growRounds, forLoop], rfl, rfl, rfl, rfl, rfl⟩
  | succ k ih =>
    rw [growRounds_succ]
    have hf := growRound_f tm m w k (growRounds tm m w k s)
    have hd := growRound_d tm m w k (growRounds tm m w k s)
    rw [hf, hd.1, hd.2.1]
    dsimp only
    refine ⟨?_, ih.2.1, ih.2.2.1, ih.2.2.2.1, ih.2.2.2.2.1, ih.2.2.2.2.2⟩
    rw [ih.1]
    push_cast
    ring

/-- After `k` rounds the slots below `k` hold the roots grown in their
rounds, the other slots are untouched. -/
theorem growRounds_tree (tm : tree_module) (m : libm) (w : Int → ℚ) (k : Nat) (s : grow_state)
    (t : Nat) :
    (growRounds tm m w k s).f.tree t
      = if t < k then grownRoot tm w (growRounds tm m w t s) else s.f.tree t := by
  induction k with
  | zero => simp [growRounds, forLoop]
  | succ k ih =>
    rw [growRounds_succ, growRound_f]
    dsimp only
    by_cases h : t = k
    · rw [h, Function.update_same, if_pos (Nat.lt_succ_self k)]
    · rw [Function.update_noteq h, ih]
      by_cases h2 : t < k
      · rw [if_pos h2, if_pos (by omega)]
      · rw [if_neg h2, if_neg (by omega)]

/-- C1: for every committee code, every dataset and every forest set up by
`initForest` with a tree count `trees >= 0`, `growForest` runs exactly
`trees` rounds: the grown count is 0 after `initForest`, it is `k` after `k`
completed rounds and then at most the tree count, every round raises it by
exactly one, it equals `trees` when `growForest` returns, and slot `t` of the
returned forest holds the root grown in round `t`. -/
theorem growForest_runs_ntrees_rounds (tm : tree_module) (m : libm) (f0 : forest_t)
    (committee maxdepth : Int) (param : ℚ) (trees : Int) (wneg : ℚ) (oob : Int)
    (oobfile : Option (List String)) (d : dataset_t) (rng : rand_state)
    (out : List stdout_item) (h : 0 ≤ trees) :
    (initForest f0 committee maxdepth param trees wneg oob oobfile).ngrown = 0 ∧
    (∀ k : Nat, (k : Int) ≤ trees →
      (roundState tm m (initForest f0 committee maxdepth param trees wneg oob oobfile)
        d rng out k).f.ngrown = (k : Int) ∧
      (roundState tm m (initForest f0 committee maxdepth param trees wneg oob oobfile)
        d rng out k).f.ngrown
        ≤ (roundState tm m (initForest f0 committee maxdepth param trees wneg oob oobfile)
            d rng out k).f.ntrees) ∧
    (∀ k : Nat,
      (roundState tm m (initForest f0 committee maxdepth param trees wneg oob oobfile)
        d rng out (k + 1)).f.ngrown
        = (roundState tm m (initForest f0 committee maxdepth param trees wneg oob oobfile)
            d rng out k).f.ngrown + 1) ∧
    growForest tm m (initForest f0 committee maxdepth param trees wneg oob oobfile) d rng out
      = roundState tm m (initForest f0 committee maxdepth param trees wneg oob oobfile)
          d rng out trees.toNat ∧
    (growForest tm m (initForest f0 committee maxdepth param trees wneg oob oobfile)
      d rng out).f.ngrown = trees ∧
    (∀ t : Nat, (t : Int) < trees →
      (growForest tm m (initForest f0 committee maxdepth param trees wneg oob oobfile)
        d rng out).f.tree t
        = grownRoot tm
            (growInit m (initForest f0 committee maxdepth param trees wneg oob oobfile)
              d rng out).1
            (roundState tm m (initForest f0 committee maxdepth param trees wneg oob oobfile)
              d rng out t)) := by
  have hi := growInit_eq m (initForest f0 committee maxdepth param trees wneg oob oobfile)
    d rng out
  have hn : (growInit m (initForest f0 committee maxdepth param trees wneg oob oobfile)
      d rng out).2.f.ngrown = 0 := by rw [hi.2.1]; rfl
  have ht : (growInit m (initForest f0 committee maxdepth param trees wneg oob oobfile)
      d rng out).2.f.ntrees = trees := by rw [hi.2.1]; rfl
  have hg : growForest tm m (initForest f0 committee maxdepth param trees wneg oob oobfile)
      d rng out
      = roundState tm m (initForest f0 committee maxdepth param trees wneg oob oobfile)
          d rng out trees.toNat := by
    unfold growForest roundState
    dsimp only
    rw [ht]
  have hk : ∀ k : Nat,
      (roundState tm m (initForest f0 committee maxdepth param trees wneg oob oobfile)
        d rng out k).f.ngrown = (k : Int) := by
    intro k
    unfold roundState
    rw [(growRounds_inv tm m _ k _).1, hn, zero_add]
  refine ⟨rfl, ?_, ?_, hg, ?_, ?_⟩
  · intro k hkt
    refine ⟨hk k, ?_⟩
    rw [hk k]
    unfold roundState
    rw [(growRounds_inv tm m _ k _).2.1, ht]
    exact hkt
  · intro k
    rw [hk (k + 1), hk k]
    push_cast
    rfl
  · rw [hg, hk]
    exact Int.toNat_of_nonneg h
  · intro t htt
    rw [hg]
    unfold roundState
    rw [growRounds_tree, if_pos (by omega)]

/-- The votes after a bagging or random-forest round with out-of-bag
reporting: an example whose weight is 0 after the resampling moves by one, up
when the prediction for it exceeds 1/2 and down otherwise, every other vote
stays. -/
theorem bagRound_votes (tm : tree_module) (m : libm) (w : Int → ℚ) (t : Nat) (s : grow_state)
    (hc : s.f.committee ≠ BOOSTING) (ho : s.f.oob ≠ 0) :
    ∃ (tr : tree_t) (r : node_ptr) (dd : dataset_t), ∀ i,
      (growRound tm m w t s).d.oobvotes i
        = if i < s.d.nex ∧ (bootstrap w s).d.weight i = 0 then
            (if tm.classifyOOBData tr r dd i > 1 / 2 then s.d.oobvotes i + 1
             else s.d.oobvotes i - 1)
          else s.d.oobvotes i := by
  have e : (growRound tm m w t s).d = (bagRound tm w t s).d := by
    unfold growRound
    rw [if_neg hc]
  have hb : ∃ (tr : tree_t) (r : node_ptr) (dd : dataset_t), (bagRound tm w t s).d
      = tabulateLoop (tm.classifyOOBData tr r dd) (bootstrap w s).d := by
    unfold bagRound
    dsimp only
    rw [oobStep_d]
    dsimp only
    have hf : (bootstrap w s).f = s.f := by rw [bootstrap_eq]
    rw [hf, if_pos ho]
    exact ⟨_, _, _, rfl⟩
  obtain ⟨tr, r, dd, hb⟩ := hb
  refine ⟨tr, r, dd, fun i => ?_⟩
  rw [e, hb, tabulateLoop_eq]
  have h1 : (bootstrap w s).d.nex = s.d.nex := by rw [bootstrap_eq]
  have h2 : (bootstrap w s).d.oobvotes = s.d.oobvotes := by rw [bootstrap_eq]
  dsimp only
  rw [h1, h2]

/-- A round moves no vote by more than one. -/
theorem growRound_votes_step (tm : tree_module) (m : libm) (w : Int → ℚ) (t : Nat)
    (s : grow_state) (i : Nat) :
    (growRound tm m w t s).d.oobvotes i = s.d.oobvotes i ∨
    (growRound tm m w t s).d.oobvotes i = s.d.oobvotes i + 1 ∨
    (growRound tm m w t s).d.oobvotes i = s.d.oobvotes i - 1 := by
  by_cases hc : s.f.committee = BOOSTING
  · left
    have e : (growRound tm m w t s).d = (boostRound tm m s).d := by
      unfold growRound
      rw [if_pos hc]
    rw [e, (boostRound_eq tm m s).2.2]
  · by_cases ho : s.f.oob ≠ 0
    · obtain ⟨tr, r, dd, h⟩ := bagRound_votes tm m w t s hc ho
      rw [h i]
      split_ifs
      · right; left; rfl
      · right; right; rfl
      · left; rfl
    · left
      have e : (growRound tm m w t s).d = (bagRound tm w t s).d := by
        unfold growRound
        rw [if_neg hc]
      obtain ⟨pred, hp⟩ := bagRound_d tm w t s
      rw [e, hp, if_neg ho, bootstrap_eq]

/-- After `k` rounds every vote is within `k` of where it started. -/
theorem growRounds_votes_bound (tm : tree_module) (m : libm) (w : Int → ℚ) (k : Nat)
    (s : grow_state) (i : Nat) :
    s.d.oobvotes i - (k : Int) ≤ (growRounds tm m w k s).d.oobvotes i ∧
    (growRounds tm m w k s).d.oobvotes i ≤ s.d.oobvotes i + (k : Int) := by
  induction k with
  | zero => simp [growRounds, forLoop]
  | succ k ih =>
    rw [growRounds_succ]
    have h := growRound_votes_step tm m w k (growRounds tm m w k s) i
    push_cast
    rcases h with h | h | h <;> rw [h] <;> constructor <;> omega

/-! ## Claims on the out-of-bag votes of a run -/

/-- C6 as stated fails in its second half: with `wneg = 0` the negative
examples have class weight 0.  In the one-round bagging run on the two
examples with labels 0 and 1, votes 0 and the draws 0, 1, example 0 is drawn
in the round and its vote still moves from 0 to 1. -/
theorem oob_votes_counterexample :
    0 ∈ draws
      (roundState (constTrees 7 (fun _ => 1) 1) ratLibm
        (initForest zeroForest BAGGING 1000 1 1 0 1 none)
        (mkDataset [0, 1] [] []) (listRand [0, 1]) [] 0).rng 2 ∧
    (roundState (constTrees 7 (fun _ => 1) 1) ratLibm
      (initForest zeroForest BAGGING 1000 1 1 0 1 none)
      (mkDataset [0, 1] [] []) (listRand [0, 1]) [] 0).d.oobvotes 0 = 0 ∧
    (roundState (constTrees 7 (fun _ => 1) 1) ratLibm
      (initForest zeroForest BAGGING 1000 1 1 0 1 none)
      (mkDataset [0, 1] [] []) (listRand [0, 1]) [] 1).d.oobvotes 0 = 1 := by
  refine ⟨by decide, by decide, ?_⟩
  obtain ⟨tr, r, dd, h⟩ := bagRound_votes (constTrees 7 (fun _ => 1) 1) ratLibm
    (growInit ratLibm (initForest zeroForest BAGGING 1000 1 1 0 1 none)
      (mkDataset [0, 1] [] []) (listRand [0, 1]) []).1 0
    (roundState (constTrees 7 (fun _ => 1) 1) ratLibm
      (initForest zeroForest BAGGING 1000 1 1 0 1 none)
      (mkDataset [0, 1] [] []) (listRand [0, 1]) [] 0) (by decide) (by decide)
  have hw : (bootstrap
      (growInit ratLibm (initForest zeroForest BAGGING 1000 1 1 0 1 none)
        (mkDataset [0, 1] [] []) (listRand [0, 1]) []).1
      (roundState (constTrees 7 (fun _ => 1) 1) ratLibm
        (initForest zeroForest BAGGING 1000 1 1 0 1 none)
        (mkDataset [0, 1] [] []) (listRand [0, 1]) [] 0)).d.weight 0 = 0 := by
    rw [bootstrap_weight _ _ 0 (by decide)]
    have : classWeights 0 (mkDataset [0, 1] [] []) 0 = 0 := by
      rw [(classWeights_eq 0 (mkDataset [0, 1] [] [])).1, zero_div]
    show (_ : ℚ) * classWeights 0 (mkDataset [0, 1] [] []) 0 = 0
    rw [this, mul_zero]
  have h0 := h 0
  rw [if_pos ⟨by decide, hw⟩] at h0
  have hp : (constTrees 7 (fun _ => 1) 1).classifyOOBData tr r dd 0 > 1 / 2 := by
    show (1 : ℚ) > 1 / 2
    norm_num
  rw [if_pos hp] at h0
  exact h0

/-- C6, amended: in a bagging or random-forest run of `growForest` with
out-of-bag reporting on a dataset whose votes all start at 0, for every
example and every `T <= ntrees` the vote after `T` completed rounds lies in
`[-T, T]`; and when the class weight of every example is non-zero, the vote
is unchanged in a round in which the example was drawn and moves by exactly
+1 or -1 in a round in which it was not drawn. -/
theorem oob_votes_bounded_change_when_excluded (tm : tree_module) (m : libm) (f : forest_t)
    (d : dataset_t) (rng : rand_state) (out : List stdout_item)
    (hc : f.committee = BAGGING ∨ f.committee = RANDOMFOREST) (hoob : f.oob ≠ 0)
    (h0 : ∀ i, i < d.nex → d.oobvotes i = 0) (T : Nat) (hT : (T : Int) ≤ f.ntrees)
    (i : Nat) (hi : i < d.nex) :
    (-(T : Int) ≤ (roundState tm m f d rng out T).d.oobvotes i ∧
      (roundState tm m f d rng out T).d.oobvotes i ≤ (T : Int)) ∧
    ((∀ j, j < d.nex → classWeights f.wneg d (d.target j) ≠ 0) → (T : Int) < f.ntrees →
      (i ∈ draws (roundState tm m f d rng out T).rng d.nex →
        (roundState tm m f d rng out (T + 1)).d.oobvotes i
          = (roundState tm m f d rng out T).d.oobvotes i) ∧
      (i ∉ draws (roundState tm m f d rng out T).rng d.nex →
        (roundState tm m f d rng out (T + 1)).d.oobvotes i
            = (roundState tm m f d rng out T).d.oobvotes i + 1 ∨
        (roundState tm m f d rng out (T + 1)).d.oobvotes i
            = (roundState tm m f d rng out T).d.oobvotes i - 1)) := by
  have hi0 := growInit_eq m f d rng out
  have hinv := growRounds_inv tm m (growInit m f d rng out).1 T (growInit m f d rng out).2
  constructor
  · have hb := growRounds_votes_bound tm m (growInit m f d rng out).1 T
      (growInit m f d rng out).2 i
    rw [hi0.2.2.2.2.1, h0 i hi] at hb
    unfold roundState
    constructor <;> omega
  · intro hw _
    have hcomm : (roundState tm m f d rng out T).f.committee ≠ BOOSTING := by
      unfold roundState
      rw [hinv.2.2.1, hi0.2.1]
      show f.committee ≠ BOOSTING
      rcases hc with h | h <;> rw [h] <;> decide
    have hoob2 : (roundState tm m f d rng out T).f.oob ≠ 0 := by
      unfold roundState
      rw [hinv.2.2.2.1, hi0.2.1]
      exact hoob
    have hnex : (roundState tm m f d rng out T).d.nex = d.nex := by
      unfold roundState
      rw [hinv.2.2.2.2.1, hi0.2.2.1]
    have htar : (roundState tm m f d rng out T).d.target = d.target := by
      unfold roundState
      rw [hinv.2.2.2.2.2, hi0.2.2.2.1]
    obtain ⟨tr, r, dd, h⟩ := bagRound_votes tm m (growInit m f d rng out).1 T
      (roundState tm m f d rng out T) hcomm hoob2
    have hstep : (roundState tm m f d rng out (T + 1)).d.oobvotes i
        = (growRound tm m (growInit m f d rng out).1 T
            (roundState tm m f d rng out T)).d.oobvotes i := rfl
    have hzero : (bootstrap (growInit m f d rng out).1 (roundState tm m f d rng out T)).d.weight i
        = 0 ↔ i ∉ draws (roundState tm m f d rng out T).rng d.nex := by
      have := bootstrap_weight_eq_zero_iff (growInit m f d rng out).1
        (roundState tm m f d rng out T)
        (by
          intro j hj
          rw [hnex] at hj
          rw [htar, hi0.1]
          exact hw j hj) i (by rw [hnex]; exact hi)
      rw [hnex] at this
      exact this
    rw [hstep, h i, hnex]
    constructor
    · intro hd
      rw [if_neg]
      rintro ⟨_, hz⟩
      exact (hzero.mp hz) hd
    · intro hd
      rw [if_pos ⟨hi, hzero.mpr hd⟩]
      split_ifs
      · left; rfl
      · right; rfl

/-- C6, amended, in the first round of the two-round bagging run on the two
examples with labels 0 and 1, `wneg = 1` and the draws 0, 0, 1, 1, for
example 1. -/
theorem oob_votes_bounded_change_when_excluded_witness :
    (-((0 : Nat) : Int) ≤ (roundState (constTrees 7 (fun _ => 1) 1) ratLibm
        (initForest zeroForest BAGGING 1000 1 2 1 1 none)
        (mkDataset [0, 1] [] []) (listRand [0, 0, 1, 1]) [] 0).d.oobvotes 1 ∧
      (roundState (constTrees 7 (fun _ => 1) 1) ratLibm
        (initForest zeroForest BAGGING 1000 1 2 1 1 none)
        (mkDataset [0, 1] [] []) (listRand [0, 0, 1, 1]) [] 0).d.oobvotes 1 ≤ ((0 : Nat) : Int)) ∧
    (1 ∈ draws (roundState (constTrees 7 (fun _ => 1) 1) ratLibm
        (initForest zeroForest BAGGING 1000 1 2 1 1 none)
        (mkDataset [0, 1] [] []) (listRand [0, 0, 1, 1]) [] 0).rng 2 →
      (roundState (constTrees 7 (fun _ => 1) 1) ratLibm
        (initForest zeroForest BAGGING 1000 1 2 1 1 none)
        (mkDataset [0, 1] [] []) (listRand [0, 0, 1, 1]) [] (0 + 1)).d.oobvotes 1
        = (roundState (constTrees 7 (fun _ => 1) 1) ratLibm
            (initForest zeroForest BAGGING 1000 1 2 1 1 none)
            (mkDataset [0, 1] [] []) (listRand [0, 0, 1, 1]) [] 0).d.oobvotes 1) ∧
    (1 ∉ draws (roundState (constTrees 7 (fun _ => 1) 1) ratLibm
        (initForest zeroForest BAGGING 1000 1 2 1 1 none)
        (mkDataset [0, 1] [] []) (listRand [0, 0, 1, 1]) [] 0).rng 2 →
      (roundState (constTrees 7 (fun _ => 1) 1) ratLibm
        (initForest zeroForest BAGGING 1000 1 2 1 1 none)
        (mkDataset [0, 1] [] []) (listRand [0, 0, 1, 1]) [] (0 + 1)).d.oobvotes 1
          = (roundState (constTrees 7 (fun _ => 1) 1) ratLibm
              (initForest zeroForest BAGGING 1000 1 2 1 1 none)
              (mkDataset [0, 1] [] []) (listRand [0, 0, 1, 1]) [] 0).d.oobvotes 1 + 1 ∨
      (roundState (constTrees 7 (fun _ => 1) 1) ratLibm
        (initForest zeroForest BAGGING 1000 1 2 1 1 none)
        (mkDataset [0, 1] [] []) (listRand [0, 0, 1, 1]) [] (0 + 1)).d.oobvotes 1
          = (roundState (constTrees 7 (fun _ => 1) 1) ratLibm
              (initForest zeroForest BAGGING 1000 1 2 1 1 none)
              (mkDataset [0, 1] [] []) (listRand [0, 0, 1, 1]) [] 0).d.oobvotes 1 - 1) :=
  ⟨(oob_votes_bounded_change_when_excluded (constTrees 7 (fun _ => 1) 1) ratLibm
      (initForest zeroForest BAGGING 1000 1 2 1 1 none)
      (mkDataset [0, 1] [] []) (listRand [0, 0, 1, 1]) [] (Or.inl rfl) (by decide) (by decide)
      0 (by decide) 1 (by decide)).1,
   (oob_votes_bounded_change_when_excluded (constTrees 7 (fun _ => 1) 1) ratLibm
      (initForest zeroForest BAGGING 1000 1 2 1 1 none)
      (mkDataset [0, 1] [] []) (listRand [0, 0, 1, 1]) [] (Or.inl rfl) (by decide) (by decide)
      0 (by decide) 1 (by decide)).2 classWeights_example (by decide)⟩

/-- C1 on the scenario of the specification: four examples with labels
0, 0, 1, 1, a random forest of five trees with out-of-bag reporting. -/
theorem growForest_runs_ntrees_rounds_witness :
    (growForest (constTrees 7 (fun _ => 1) 1) ratLibm
      (initForest zeroForest RANDOMFOREST 2 1 5 1 1 none)
      (mkDataset [0, 0, 1, 1] [] []) (listRand [0, 1, 1, 3, 2, 2, 0, 1]) []).f.ngrown = 5 :=
  (growForest_runs_ntrees_rounds (constTrees 7 (fun _ => 1) 1) ratLibm zeroForest
    RANDOMFOREST 2 1 5 1 1 none (mkDataset [0, 0, 1, 1] [] [])
    (listRand [0, 1, 1, 3, 2, 2, 0, 1]) [] (by decide)).2.2.2.2.1

/-! ## Claims on `classifyForest`, second part -/

/-- The weights that boosting installs before its first round sum to the
class counts times the class weights. -/
theorem sum_classWeights (w : Int → ℚ) (d : dataset_t) (hw : ∀ l : Int, l ≠ 0 → l ≠ 1 → w l = 0) :
    ∑ i in range d.nex, w (d.target i)
      = (negCount d : ℚ) * w 0 + (posCount d : ℚ) * w 1 := by
  unfold negCount posCount
  simp only [countVotes_sum]
  push_cast
  rw [sum_mul, sum_mul, ← sum_add_distrib]
  apply sum_congr rfl
  intro i _
  by_cases h0 : d.target i = 0
  · have h1 : ¬ d.target i = 1 := by omega
    simp [h0]
  · by_cases h1 : d.target i = 1
    · simp [h1]
    · simp [h0, h1, hw (d.target i) h0 h1]

theorem classWeights_other (wneg : ℚ) (d : dataset_t) (l : Int) (h0 : l ≠ 0) (h1 : l ≠ 1) :
    classWeights wneg d l = 0 := by
  unfold classWeights
  rw [Function.update_noteq h1, Function.update_noteq h0]

/-- The weight that boosting installs for an example before its first round. -/
theorem boosting_initial_weights_aux (m : libm) (f : forest_t) (d : dataset_t)
    (rng : rand_state) (out : List stdout_item) (hc : f.committee = BOOSTING) :
    ∀ i, i < d.nex →
      (growInit m f d rng out).2.d.weight i = classWeights f.wneg d (d.target i) := by
  intro i hi
  unfold growInit
  dsimp only
  rw [boostInit_eq]
  rw [if_pos hc]
  split_ifs <;> dsimp only <;> rw [if_pos hi]

/-- C18 as stated fails in `float` arithmetic: two negative examples and
one positive example with `wneg = 2`.  The divisor is 5, `w[0]` is the
`float` nearest to 2/5 and `w[1]` the `float` nearest to 1/5, and the three
weights `w[label[i]]` sum to `1 + 2 ^ -26`, not to 1. -/
theorem boosting_initial_weights_counterexample :
    classWeights32 (2, 1) (mkDataset [0, 0, 1] [] []) 0 = (13421773, 33554432) ∧
    classWeights32 (2, 1) (mkDataset [0, 0, 1] [] []) 1 = (13421773, 67108864) ∧
    ∑ i in range (mkDataset [0, 0, 1] [] []).nex,
        fracVal (classWeights32 (2, 1) (mkDataset [0, 0, 1] [] [])
          ((mkDataset [0, 0, 1] [] []).target i)) = 67108865 / 67108864 ∧
    (67108865 : ℚ) / 67108864 ≠ 1 := by
  have h0 : classWeights32 (2, 1) (mkDataset [0, 0, 1] [] []) 0 = (13421773, 33554432) := by
    decide
  have h1 : classWeights32 (2, 1) (mkDataset [0, 0, 1] [] []) 1 = (13421773, 67108864) := by
    decide
  refine ⟨h0, h1, ?_, by norm_num⟩
  show ∑ i in range 3, _ = _
  have t0 : (mkDataset [0, 0, 1] [] []).target 0 = 0 := by decide
  have t1 : (mkDataset [0, 0, 1] [] []).target 1 = 0 := by decide
  have t2 : (mkDataset [0, 0, 1] [] []).target 2 = 1 := by decide
  rw [Finset.sum_range_succ, Finset.sum_range_succ, Finset.sum_range_one, t0, t1, t2, h0, h1]
  norm_num [fracVal]

/-- C18, amended: the base class weights are `w0 = wneg/(wneg*c0 + c1)` and
`w1 = 1/(wneg*c0 + c1)` with `c0`, `c1` the numbers of examples with label 0
and 1; hence, when `wneg*c0 + c1` is non-zero, the weights that Boosting
installs before round 1 (`weight[i] = w[label[i]]`) sum in exact arithmetic
to exactly 1. -/
theorem boosting_initial_weights_sum_one (m : libm) (f : forest_t) (d : dataset_t)
    (rng : rand_state) (out : List stdout_item) (hc : f.committee = BOOSTING)
    (hden : f.wneg * (negCount d : ℚ) + (posCount d : ℚ) ≠ 0) :
    (growInit m f d rng out).1 0 = f.wneg / (f.wneg * (negCount d : ℚ) + (posCount d : ℚ)) ∧
    (growInit m f d rng out).1 1 = 1 / (f.wneg * (negCount d : ℚ) + (posCount d : ℚ)) ∧
    (∀ i, i < d.nex →
      (growInit m f d rng out).2.d.weight i = (growInit m f d rng out).1 (d.target i)) ∧
    ∑ i in range d.nex, (growInit m f d rng out).2.d.weight i = 1 := by
  have hw : (growInit m f d rng out).1 = classWeights f.wneg d := rfl
  have hwt : ∀ i, i < d.nex →
      (growInit m f d rng out).2.d.weight i = classWeights f.wneg d (d.target i) :=
    boosting_initial_weights_aux m f d rng out hc
  refine ⟨by rw [hw]; exact (classWeights_eq f.wneg d).1,
    by rw [hw]; exact (classWeights_eq f.wneg d).2, fun i hi => by rw [hw]; exact hwt i hi, ?_⟩
  rw [sum_congr rfl (fun i hi => hwt i (mem_range.mp hi)),
    sum_classWeights _ d (classWeights_other f.wneg d),
    (classWeights_eq f.wneg d).1, (classWeights_eq f.wneg d).2]
  field_simp
  ring

/-- C18 on the three examples with labels 0, 0, 1 and `wneg = 2`. -/
theorem boosting_initial_weights_sum_one_witness :
    ∑ i in range 3,
      (growInit ratLibm (initForest zeroForest BOOSTING 1000 1 2 2 0 none)
        (mkDataset [0, 0, 1] [] []) (listRand []) []).2.d.weight i = 1 :=
  (boosting_initial_weights_sum_one ratLibm (initForest zeroForest BOOSTING 1000 1 2 2 0 none)
    (mkDataset [0, 0, 1] [] []) (listRand []) [] rfl
    (by
      have hn : negCount (mkDataset [0, 0, 1] [] []) = 2 := by decide
      have hp : posCount (mkDataset [0, 0, 1] [] []) = 1 := by decide
      rw [hn, hp]
      show (2 : ℚ) * ((2 : Nat) : ℚ) + ((1 : Nat) : ℚ) ≠ 0
      norm_num)).2.2.2

/-! ## Claims on the boosting update -/

/-- The weight of an example after a boosting round. -/
theorem boostRound_weight (tm : tree_module) (m : libm) (w : Int → ℚ) (t : Nat)
    (s : grow_state) (hc : s.f.committee = BOOSTING) (i : Nat) (hi : i < s.d.nex) :
    (growRound tm m w t s).d.weight i
      = s.d.weight i * m.exp (((-(2 * s.d.target i - 1) : Int) : ℚ) * boostPred tm s i)
          / boostSum tm m s := by
  have e : (growRound tm m w t s).d = (boostRound tm m s).d := by
    unfold growRound
    rw [if_pos hc]
  rw [e, (boostRound_eq tm m s).2.2]
  dsimp only
  rw [if_pos hi]

/-- C16 as stated fails in its last part: in the boosting run with `wneg = 0`
on the examples with labels 0, 0, 1 and predictions -1, 1, 1, the two
negative examples have the same old weight (0); the prediction of example 0
agrees in sign with its label -1 and that of example 1 disagrees, and both
end the round with weight 0. -/
theorem boosting_update_counterexample :
    (roundState (constTrees 7 (fun i => if i = 0 then -1 else 1) 1) incLibm
      (initForest zeroForest BOOSTING 1000 1 1 0 0 none)
      (mkDataset [0, 0, 1] [] []) (listRand []) [] 0).d.weight 0
      = (roundState (constTrees 7 (fun i => if i = 0 then -1 else 1) 1) incLibm
          (initForest zeroForest BOOSTING 1000 1 1 0 0 none)
          (mkDataset [0, 0, 1] [] []) (listRand []) [] 0).d.weight 1 ∧
    (0 : ℚ) < ((2 * (mkDataset [0, 0, 1] [] []).target 0 - 1 : Int) : ℚ) * (-1) ∧
    ((2 * (mkDataset [0, 0, 1] [] []).target 1 - 1 : Int) : ℚ) * 1 < (0 : ℚ) ∧
    (roundState (constTrees 7 (fun i => if i = 0 then -1 else 1) 1) incLibm
      (initForest zeroForest BOOSTING 1000 1 1 0 0 none)
      (mkDataset [0, 0, 1] [] []) (listRand []) [] 1).d.weight 0
      = (roundState (constTrees 7 (fun i => if i = 0 then -1 else 1) 1) incLibm
          (initForest zeroForest BOOSTING 1000 1 1 0 0 none)
          (mkDataset [0, 0, 1] [] []) (listRand []) [] 1).d.weight 1 := by
  have hw : ∀ i, i < 2 →
      (roundState (constTrees 7 (fun i => if i = 0 then -1 else 1) 1) incLibm
        (initForest zeroForest BOOSTING 1000 1 1 0 0 none)
        (mkDataset [0, 0, 1] [] []) (listRand []) [] 0).d.weight i = 0 := by
    intro i hi
    have h := (boosting_initial_weights_aux incLibm
      (initForest zeroForest BOOSTING 1000 1 1 0 0 none)
      (mkDataset [0, 0, 1] [] []) (listRand []) [] rfl) i (by show i < 3; omega)
    show (growInit incLibm (initForest zeroForest BOOSTING 1000 1 1 0 0 none)
      (mkDataset [0, 0, 1] [] []) (listRand []) []).2.d.weight i = 0
    rw [h]
    have ht : (mkDataset [0, 0, 1] [] []).target i = 0 := by
      interval_cases i <;> rfl
    rw [ht, (classWeights_eq _ _).1]
    show (0 : ℚ) / _ = 0
    rw [zero_div]
  have hstep : ∀ i, i < 2 →
      (roundState (constTrees 7 (fun i => if i = 0 then -1 else 1) 1) incLibm
        (initForest zeroForest BOOSTING 1000 1 1 0 0 none)
        (mkDataset [0, 0, 1] [] []) (listRand []) [] 1).d.weight i = 0 := by
    intro i hi
    have h := boostRound_weight (constTrees 7 (fun i => if i = 0 then -1 else 1) 1) incLibm
      (growInit incLibm (initForest zeroForest BOOSTING 1000 1 1 0 0 none)
        (mkDataset [0, 0, 1] [] []) (listRand []) []).1 0
      (roundState (constTrees 7 (fun i => if i = 0 then -1 else 1) 1) incLibm
        (initForest zeroForest BOOSTING 1000 1 1 0 0 none)
        (mkDataset [0, 0, 1] [] []) (listRand []) [] 0) rfl i (by show i < 3; omega)
    rw [hw i hi, zero_mul, zero_div] at h
    exact h
  refine ⟨by rw [hw 0 (by omega), hw 1 (by omega)], ?_, ?_,
    by rw [hstep 0 (by omega), hstep 1 (by omega)]⟩
  · show (0 : ℚ) < ((2 * (0 : Int) - 1 : Int) : ℚ) * (-1)
    norm_num
  · show ((2 * (0 : Int) - 1 : Int) : ℚ) * 1 < (0 : ℚ)
    norm_num

/-- C16, amended: in exact arithmetic, in a boosting round the new weight
of every example is `old_weight * exp(-(2*label-1) * prediction)` over the
sum of that quantity over all examples, so an example with label 1 is
multiplied by `exp(-prediction)` and one with label 0 by `exp(+prediction)`
before the renormalisation; and, `exp` being strictly increasing, among
examples of equal and strictly positive old weight in a round whose
normalising sum is positive, one whose prediction agrees in sign with its
{-1,+1} label ends with strictly smaller weight than one whose prediction
disagrees. -/
theorem boosting_update_rule (tm : tree_module) (m : libm) (w : Int → ℚ) (t : Nat)
    (s : grow_state) (hc : s.f.committee = BOOSTING) :
    (∀ i, i < s.d.nex →
      (growRound tm m w t s).d.weight i
        = s.d.weight i * m.exp (((-(2 * s.d.target i - 1) : Int) : ℚ) * boostPred tm s i)
            / ∑ j in range s.d.nex,
                s.d.weight j
                  * m.exp (((-(2 * s.d.target j - 1) : Int) : ℚ) * boostPred tm s j)) ∧
    (∀ i, s.d.target i = 1 →
      ((-(2 * s.d.target i - 1) : Int) : ℚ) * boostPred tm s i = -boostPred tm s i) ∧
    (∀ i, s.d.target i = 0 →
      ((-(2 * s.d.target i - 1) : Int) : ℚ) * boostPred tm s i = boostPred tm s i) ∧
    (StrictMono m.exp → 0 < boostSum tm m s →
      ∀ a b, a < s.d.nex → b < s.d.nex → s.d.weight a = s.d.weight b → 0 < s.d.weight a →
        0 < ((2 * s.d.target a - 1 : Int) : ℚ) * boostPred tm s a →
        ((2 * s.d.target b - 1 : Int) : ℚ) * boostPred tm s b < 0 →
        (growRound tm m w t s).d.weight a < (growRound tm m w t s).d.weight b) := by
  refine ⟨fun i hi => ?_, fun i h => ?_, fun i h => ?_, ?_⟩
  · rw [boostRound_weight tm m w t s hc i hi, boostSum_eq]
  · rw [h]
    norm_num
  · rw [h]
    norm_num
  · intro hmono hS a b ha hb hab hpos hya hyb
    rw [boostRound_weight tm m w t s hc a ha, boostRound_weight tm m w t s hc b hb, ← hab]
    apply div_lt_div_of_pos_right _ hS
    apply mul_lt_mul_of_pos_left _ hpos
    apply hmono
    push_cast at hya hyb ⊢
    linarith

/-- With `wneg = 1` the two negative examples of the run below start with the
same positive weight and the normalising sum of the first round is positive. -/
theorem boosting_update_example :
    (roundState (constTrees 7 (fun i => if i = 0 then -1 else 1) 1) incLibm
      (initForest zeroForest BOOSTING 1000 1 1 1 0 none)
      (mkDataset [0, 0, 1] [] []) (listRand []) [] 0).d.weight 0 = 1 / 3 ∧
    (roundState (constTrees 7 (fun i => if i = 0 then -1 else 1) 1) incLibm
      (initForest zeroForest BOOSTING 1000 1 1 1 0 none)
      (mkDataset [0, 0, 1] [] []) (listRand []) [] 0).d.weight 1 = 1 / 3 ∧
    0 < boostSum (constTrees 7 (fun i => if i = 0 then -1 else 1) 1) incLibm
      (roundState (constTrees 7 (fun i => if i = 0 then -1 else 1) 1) incLibm
        (initForest zeroForest BOOSTING 1000 1 1 1 0 none)
        (mkDataset [0, 0, 1] [] []) (listRand []) [] 0) := by
  have hn : negCount (mkDataset [0, 0, 1] [] []) = 2 := by decide
  have hp : posCount (mkDataset [0, 0, 1] [] []) = 1 := by decide
  have h0 : classWeights 1 (mkDataset [0, 0, 1] [] []) 0 = 1 / 3 := by
    rw [(classWeights_eq _ _).1, hn, hp]
    norm_num
  have h1 : classWeights 1 (mkDataset [0, 0, 1] [] []) 1 = 1 / 3 := by
    rw [(classWeights_eq _ _).2, hn, hp]
    norm_num
  have hw : ∀ i, i < 3 →
      (roundState (constTrees 7 (fun i => if i = 0 then -1 else 1) 1) incLibm
        (initForest zeroForest BOOSTING 1000 1 1 1 0 none)
        (mkDataset [0, 0, 1] [] []) (listRand []) [] 0).d.weight i = 1 / 3 := by
    intro i hi
    have h := (boosting_initial_weights_aux incLibm
      (initForest zeroForest BOOSTING 1000 1 1 1 0 none)
      (mkDataset [0, 0, 1] [] []) (listRand []) [] rfl) i hi
    show (growInit incLibm (initForest zeroForest BOOSTING 1000 1 1 1 0 none)
      (mkDataset [0, 0, 1] [] []) (listRand []) []).2.d.weight i = 1 / 3
    rw [h]
    interval_cases i
    · exact h0
    · exact h0
    · exact h1
  refine ⟨hw 0 (by omega), hw 1 (by omega), ?_⟩
  rw [boostSum_eq]
  show 0 < ∑ i in range 3, _
  rw [sum_range_succ, sum_range_succ, sum_range_succ, sum_range_zero, hw 0 (by omega),
    hw 1 (by omega), hw 2 (by omega)]
  simp [boostPred, constTrees, incLibm, roundState, growRounds, forLoop, growInit, boostInit,
    initForest, zeroForest, mkDataset, BOOSTING, RANDOMFOREST]
  norm_num

/-- C16, amended, in the first round of the boosting run with `wneg = 1` on
the examples with labels 0, 0, 1 and predictions -1, 1, 1: example 0, whose
prediction agrees with its label, ends below example 1, whose prediction
disagrees. -/
theorem boosting_update_rule_witness :
    (roundState (constTrees 7 (fun i => if i = 0 then -1 else 1) 1) incLibm
      (initForest zeroForest BOOSTING 1000 1 1 1 0 none)
      (mkDataset [0, 0, 1] [] []) (listRand []) [] 1).d.weight 0
    < (roundState (constTrees 7 (fun i => if i = 0 then -1 else 1) 1) incLibm
        (initForest zeroForest BOOSTING 1000 1 1 1 0 none)
        (mkDataset [0, 0, 1] [] []) (listRand []) [] 1).d.weight 1 :=
  (boosting_update_rule (constTrees 7 (fun i => if i = 0 then -1 else 1) 1) incLibm
    (growInit incLibm (initForest zeroForest BOOSTING 1000 1 1 1 0 none)
      (mkDataset [0, 0, 1] [] []) (listRand []) []).1 0
    (roundState (constTrees 7 (fun i => if i = 0 then -1 else 1) 1) incLibm
      (initForest zeroForest BOOSTING 1000 1 1 1 0 none)
      (mkDataset [0, 0, 1] [] []) (listRand []) [] 0) rfl).2.2.2
    (fun a b h => by show a + 3 < b + 3; linarith)
    boosting_update_example.2.2 0 1 (by decide) (by decide)
    (by rw [boosting_update_example.1, boosting_update_example.2.1])
    (by rw [boosting_update_example.1]; norm_num)
    (by
      show (0 : ℚ) < ((2 * (0 : Int) - 1 : Int) : ℚ) * (-1)
      norm_num)
    (by
      show ((2 * (0 : Int) - 1 : Int) : ℚ) * 1 < (0 : ℚ)
      norm_num)

/-! ## Claims on `outputOOBVotes` -/

theorem intersperse_append_singleton {α : Type} (sep x : α) (L : List α) :
    List.intersperse sep (L ++ [x])
      = List.intersperse sep L ++ (if L.isEmpty then [x] else [sep, x]) := by
  induction L with
  | nil => simp
  | cons a L ih =>
    cases L with
    | nil => simp
    | cons b L =>
      rw [List.cons_append, List.cons_append, List.intersperse_cons_cons, ← List.cons_append, ih]
      simp

/-- The writing loop of `outputOOBVotes` after its first `k` iterations. -/
theorem outputOOBVotes_forLoop (tree : tree_t) (d : dataset_t) (file : List String) (k : Nat)
    (hk : k ≤ d.nex) :
    forLoop k (fun i (out : List String) =>
      if (i : Int) < (d.nex : Int) - 1 then
        (if d.weight i ≠ 0 then out ++ ["0"]
         else if tree.pred i > 1 / 2 then out ++ ["1"]
         else out ++ ["-1"]) ++ [" "]
      else
        (if d.weight i ≠ 0 then out ++ ["0"]
         else if tree.pred i > 1 / 2 then out ++ ["1"]
         else out ++ ["-1"])) file
    = file ++ List.intersperse " " ((List.range k).map (oobToken tree d))
        ++ (if 0 < k ∧ k < d.nex then [" "] else []) := by
  induction k with
  | zero => simp [forLoop]
  | succ k ih =>
    rw [forLoop_succ, ih (by omega)]
    have htok : ∀ out : List String,
        (if d.weight k ≠ 0 then out ++ ["0"]
         else if tree.pred k > 1 / 2 then out ++ ["1"]
         else out ++ ["-1"]) = out ++ [oobToken tree d k] := by
      intro out
      unfold oobToken
      split_ifs <;> rfl
    rw [htok, List.range_succ, List.map_append, List.map_singleton, intersperse_append_singleton]
    by_cases h0 : k = 0
    · subst h0
      by_cases h1 : ((0 : Nat) : Int) < (d.nex : Int) - 1
      · rw [if_pos h1]
        have : (0 < 0 + 1 ∧ 0 + 1 < d.nex) := ⟨by omega, by omega⟩
        simp [this]
      · rw [if_neg h1]
        have : ¬ (0 < 0 + 1 ∧ 0 + 1 < d.nex) := by
          rintro ⟨_, h⟩
          omega
        simp [this]
        omega
    · have hne : ¬ (List.map (oobToken tree d) (List.range k)).isEmpty = true := by
        rw [List.isEmpty_iff]
        intro h
        have := congrArg List.length h
        simp at this
        exact h0 this
      have hk1 : (0 < k ∧ k < d.nex) := ⟨by omega, by omega⟩
      rw [if_pos hk1, if_neg hne]
      by_cases h1 : (k : Int) < (d.nex : Int) - 1
      · rw [if_pos h1, if_pos ⟨by omega, by omega⟩]
        simp
      · rw [if_neg h1, if_neg (by rintro ⟨_, h⟩; omega)]
        simp

/-- The chunks that `outputOOBVotes` appends: the tokens of the examples in
order, single spaces between them, and a newline. -/
theorem outputOOBVotes_eq (tree : tree_t) (d : dataset_t) (file : List String) :
    outputOOBVotes tree d file
      = file ++ List.intersperse " " ((List.range d.nex).map (oobToken tree d)) ++ ["\n"] := by
  unfold outputOOBVotes
  have hbody : (fun (i : Nat) (out : List String) =>
      let out :=
        if d.weight i ≠ 0 then out ++ ["0"]
        else if tree.pred i > 1 / 2 then out ++ ["1"]
        else out ++ ["-1"]
      if (i : Int) < (d.nex : Int) - 1 then out ++ [" "] else out)
      = (fun (i : Nat) (out : List String) =>
      if (i : Int) < (d.nex : Int) - 1 then
        (if d.weight i ≠ 0 then out ++ ["0"]
         else if tree.pred i > 1 / 2 then out ++ ["1"]
         else out ++ ["-1"]) ++ [" "]
      else
        (if d.weight i ≠ 0 then out ++ ["0"]
         else if tree.pred i > 1 / 2 then out ++ ["1"]
         else out ++ ["-1"])) := rfl
  rw [hbody, outputOOBVotes_forLoop tree d file d.nex (le_refl _),
    if_neg (fun h => absurd h.2 (lt_irrefl _)), List.append_nil]

theorem oobToken_cases (tree : tree_t) (d : dataset_t) (i : Nat) :
    (d.weight i ≠ 0 ∧ oobToken tree d i = "0") ∨
    (d.weight i = 0 ∧ tree.pred i > 1 / 2 ∧ oobToken tree d i = "1") ∨
    (d.weight i = 0 ∧ ¬ tree.pred i > 1 / 2 ∧ oobToken tree d i = "-1") := by
  unfold oobToken
  by_cases hw : d.weight i ≠ 0
  · left
    exact ⟨hw, if_pos hw⟩
  · right
    rw [if_neg hw]
    by_cases hp : tree.pred i > 1 / 2
    · left
      exact ⟨not_not.mp hw, hp, if_pos hp⟩
    · right
      exact ⟨not_not.mp hw, hp, if_neg hp⟩

/-- The token of an example is the change that the vote loop applies to its
vote. -/
theorem tokenValue_oobToken (tree : tree_t) (d : dataset_t) (i : Nat) (hi : i < d.nex) :
    tokenValue (oobToken tree d i) = (tabulateLoop tree.pred d).oobvotes i - d.oobvotes i := by
  rw [tabulateLoop_eq]
  dsimp only
  have v0 : tokenValue "0" = 0 := by decide
  have v1 : tokenValue "1" = 1 := by decide
  have v2 : tokenValue "-1" = -1 := by decide
  rcases oobToken_cases tree d i with ⟨hw, ht⟩ | ⟨hw, hp, ht⟩ | ⟨hw, hp, ht⟩
  · rw [ht, v0, if_neg (fun h => hw h.2)]
    ring
  · rw [ht, v1, if_pos ⟨hi, hw⟩, if_pos hp]
    ring
  · rw [ht, v2, if_pos ⟨hi, hw⟩, if_neg hp]
    ring

/-- C15: `outputOOBVotes` appends to the stream one line made of one token
per example, in order, with single spaces between the tokens and a newline
at the end; each token is "0", "1" or "-1"; token `i` is "0" exactly when
example `i` has non-zero weight, otherwise "1" when the prediction of the
tree exceeds 1/2 and "-1" when it does not; and the token of example `i` is
the change that `tabulateOOBVotes` applies to the vote of example `i` for the
same tree and weights, not the cumulative vote. -/
theorem outputOOBVotes_line (tm : tree_module) (tree : tree_t) (d : dataset_t)
    (file : List String) :
    outputOOBVotes tree d file
      = file ++ List.intersperse " " ((List.range d.nex).map (oobToken tree d)) ++ ["\n"] ∧
    ((List.range d.nex).map (oobToken tree d)).length = d.nex ∧
    (∀ i, oobToken tree d i = "0" ∨ oobToken tree d i = "1" ∨ oobToken tree d i = "-1") ∧
    (∀ i, oobToken tree d i = "0" ↔ d.weight i ≠ 0) ∧
    (∀ i, d.weight i = 0 → (oobToken tree d i = "1" ↔ tree.pred i > 1 / 2)) ∧
    (∀ i, d.weight i = 0 → (oobToken tree d i = "-1" ↔ ¬ tree.pred i > 1 / 2)) ∧
    (∀ i, i < d.nex →
      tokenValue (oobToken (tabulateOOBVotes tm tree d).1 (tabulateOOBVotes tm tree d).2 i)
        = (tabulateOOBVotes tm tree d).2.oobvotes i - d.oobvotes i) := by
  refine ⟨outputOOBVotes_eq tree d file, by simp, fun i => ?_, fun i => ?_, fun i hw => ?_,
    fun i hw => ?_, fun i hi => ?_⟩
  · rcases oobToken_cases tree d i with ⟨_, ht⟩ | ⟨_, _, ht⟩ | ⟨_, _, ht⟩
    · left; exact ht
    · right; left; exact ht
    · right; right; exact ht
  · rcases oobToken_cases tree d i with ⟨hw, ht⟩ | ⟨hw, _, ht⟩ | ⟨hw, _, ht⟩
    · exact ⟨fun _ => hw, fun _ => ht⟩
    · rw [ht]
      exact ⟨fun h => absurd h (by decide), fun h => absurd hw h⟩
    · rw [ht]
      exact ⟨fun h => absurd h (by decide), fun h => absurd hw h⟩
  · rcases oobToken_cases tree d i with ⟨hw2, ht⟩ | ⟨_, hp, ht⟩ | ⟨_, hp, ht⟩
    · exact absurd hw hw2
    · exact ⟨fun _ => hp, fun _ => ht⟩
    · rw [ht]
      exact ⟨fun h => absurd h (by decide), fun h => absurd h hp⟩
  · rcases oobToken_cases tree d i with ⟨hw2, ht⟩ | ⟨_, hp, ht⟩ | ⟨_, hp, ht⟩
    · exact absurd hw hw2
    · rw [ht]
      exact ⟨fun h => absurd h (by decide), fun h => absurd hp h⟩
    · exact ⟨fun _ => hp, fun _ => ht⟩
  · have e : (tabulateOOBVotes tm tree d).2
        = tabulateLoop (tabulateOOBVotes tm tree d).1.pred d := rfl
    have hd : (tabulateOOBVotes tm tree d).2.weight = d.weight := by
      rw [e, tabulateLoop_eq]
    have hn : (tabulateOOBVotes tm tree d).2.nex = d.nex := by
      rw [e, tabulateLoop_eq]
    have ht : oobToken (tabulateOOBVotes tm tree d).1 (tabulateOOBVotes tm tree d).2 i
        = oobToken (tabulateOOBVotes tm tree d).1 d i := by
      unfold oobToken
      rw [hd]
    rw [ht, tokenValue_oobToken _ d i hi, ← e]

/-! ## Claims on `reportOOBError` -/

theorem countVotes_mono (d : dataset_t) (l : Int) (p q : Int → Prop) [DecidablePred p]
    [DecidablePred q] (h : ∀ i, i < d.nex → p (d.oobvotes i) → q (d.oobvotes i)) :
    countVotes d l p ≤ countVotes d l q := by
  unfold countVotes
  apply card_le_card
  intro i hi
  rw [mem_filter] at hi ⊢
  exact ⟨hi.1, hi.2.1, h i (mem_range.mp hi.1) hi.2.2⟩

/-- The level counts of one class over the whole vote range add up to the
size of the class. -/
theorem countVotes_total (d : dataset_t) (T : Int) (hv : votesWithin d T) (l : Int) :
    ∑ k in range (T + 1 - -T).toNat, (countVotes d l (fun x => x = -T + (k : Int)) : Int)
      = (countVotes d l (fun _ => True) : Int) := by
  rw [countVotes_interval]
  congr 1
  apply countVotes_congr
  intro i hi
  have := hv i hi
  simp only [iff_true]
  omega

/-- The trapezoid sum lies between 0 and 1. -/
theorem computeOOBAUC_range (d : dataset_t) (T : Int) (hP : posCount d ≠ 0) (hN : negCount d ≠ 0)
    (hv : votesWithin d T) : 0 ≤ computeOOBAUC d T ∧ computeOOBAUC d T ≤ 1 := by
  have hPq : (0 : ℚ) < (posCount d : ℚ) := by
    have : 0 < posCount d := by omega
    exact_mod_cast this
  have hNq : (0 : ℚ) < (negCount d : ℚ) := by
    have : 0 < negCount d := by omega
    exact_mod_cast this
  rw [computeOOBAUC_sum d T hv hN]
  constructor
  · apply sum_nonneg
    intro k _
    positivity
  · have htot : ∑ k in range (T + 1 - -T).toNat,
        (countVotes d 0 (fun x => x = -T + (k : Int)) : ℚ) = (negCount d : ℚ) := by
      have h := countVotes_total d T hv 0
      unfold negCount
      have h2 : ((∑ k in range (T + 1 - -T).toNat,
          (countVotes d 0 (fun x => x = -T + (k : Int)) : Int) : Int) : ℚ)
          = ((countVotes d 0 (fun _ => True) : Int) : ℚ) := by rw [h]
      push_cast at h2
      exact h2
    have hterm : ∀ k ∈ range (T + 1 - -T).toNat,
        (countVotes d 0 (fun x => x = -T + (k : Int)) : ℚ) *
          (((countVotes d 1 (fun x => -T + (k : Int) ≤ x) : ℚ)
            + (countVotes d 1 (fun x => -T + (k : Int) < x) : ℚ))
            / (2 * (posCount d : ℚ) * (negCount d : ℚ)))
        ≤ (countVotes d 0 (fun x => x = -T + (k : Int)) : ℚ) / (negCount d : ℚ) := by
      intro k _
      have h1 : (countVotes d 1 (fun x => -T + (k : Int) ≤ x) : ℚ) ≤ (posCount d : ℚ) := by
        have := countVotes_mono d 1 (fun x => -T + (k : Int) ≤ x) (fun _ => True)
          (fun _ _ _ => trivial)
        unfold posCount
        exact_mod_cast this
      have h2 : (countVotes d 1 (fun x => -T + (k : Int) < x) : ℚ) ≤ (posCount d : ℚ) := by
        have := countVotes_mono d 1 (fun x => -T + (k : Int) < x) (fun _ => True)
          (fun _ _ _ => trivial)
        unfold posCount
        exact_mod_cast this
      have h0 : (0 : ℚ) ≤ (countVotes d 0 (fun x => x = -T + (k : Int)) : ℚ) := by positivity
      have hin : ((countVotes d 1 (fun x => -T + (k : Int) ≤ x) : ℚ)
            + (countVotes d 1 (fun x => -T + (k : Int) < x) : ℚ))
            / (2 * (posCount d : ℚ) * (negCount d : ℚ)) ≤ 1 / (negCount d : ℚ) := by
        rw [div_le_div_iff₀ (by positivity) hNq]
        have h3 : (countVotes d 1 (fun x => -T + (k : Int) ≤ x) : ℚ)
            + (countVotes d 1 (fun x => -T + (k : Int) < x) : ℚ) ≤ 2 * (posCount d : ℚ) := by
          linarith
        calc _ ≤ 2 * (posCount d : ℚ) * (negCount d : ℚ) :=
              mul_le_mul_of_nonneg_right h3 (le_of_lt hNq)
          _ = 1 * (2 * (posCount d : ℚ) * (negCount d : ℚ)) := by ring
      calc _ ≤ (countVotes d 0 (fun x => x = -T + (k : Int)) : ℚ) * (1 / (negCount d : ℚ)) :=
            mul_le_mul_of_nonneg_left hin h0
        _ = _ := by ring
    calc _ ≤ ∑ k in range (T + 1 - -T).toNat,
          (countVotes d 0 (fun x => x = -T + (k : Int)) : ℚ) / (negCount d : ℚ) :=
          sum_le_sum hterm
      _ = 1 := by
          rw [← sum_div, htot, div_self (ne_of_gt hNq)]

/-- C20: for a dataset with at least one positive and one negative example
and votes within `[-treesSoFar, treesSoFar]`, the values that `computeOOBAUC`
stores per threshold are monotone: from one threshold to the next the
sensitivity does not rise and the specificity does not fall; they start at
sensitivity 1 and specificity 0 and end at the sentinel (sensitivity 0,
specificity 1); and the returned AUC lies in `[0, 1]`. -/
theorem sensSpec_monotone_auc_range (d : dataset_t) (treesSoFar : Int)
    (hP : 1 ≤ posCount d) (hN : 1 ≤ negCount d) (hv : votesWithin d treesSoFar) :
    (∀ vt : Int, -treesSoFar ≤ vt → vt ≤ treesSoFar →
      (sensSpec (labelCounts d treesSoFar) treesSoFar).1 (treesSoFar + vt + 1)
        ≤ (sensSpec (labelCounts d treesSoFar) treesSoFar).1 (treesSoFar + vt) ∧
      (sensSpec (labelCounts d treesSoFar) treesSoFar).2 (treesSoFar + vt)
        ≤ (sensSpec (labelCounts d treesSoFar) treesSoFar).2 (treesSoFar + vt + 1)) ∧
    (sensSpec (labelCounts d treesSoFar) treesSoFar).1 (treesSoFar + -treesSoFar) = 1 ∧
    (sensSpec (labelCounts d treesSoFar) treesSoFar).2 (treesSoFar + -treesSoFar) = 0 ∧
    (sensSpec (labelCounts d treesSoFar) treesSoFar).1 (treesSoFar + treesSoFar + 1) = 0 ∧
    (sensSpec (labelCounts d treesSoFar) treesSoFar).2 (treesSoFar + treesSoFar + 1) = 1 ∧
    0 ≤ computeOOBAUC d treesSoFar ∧ computeOOBAUC d treesSoFar ≤ 1 := by
  have hN0 : negCount d ≠ 0 := by omega
  have hP0 : posCount d ≠ 0 := by omega
  have hPq : (0 : ℚ) < (posCount d : ℚ) := by
    have : 0 < posCount d := by omega
    exact_mod_cast this
  have hNq : (0 : ℚ) < (negCount d : ℚ) := by
    have : 0 < negCount d := by omega
    exact_mod_cast this
  have hT : 0 ≤ treesSoFar := by
    have hpos : 0 < posCount d := by omega
    unfold posCount countVotes at hpos
    obtain ⟨i, hi⟩ := card_pos.mp hpos
    have := hv i (mem_range.mp (mem_filter.mp hi).1)
    omega
  have hr := computeOOBAUC_range d treesSoFar hP0 hN0 hv
  refine ⟨fun vt h1 h2 => ?_, ?_, ?_, ?_, ?_, hr.1, hr.2⟩
  · have a := sensSpec_eq d treesSoFar hv hN0 vt h1 (by omega)
    have b := sensSpec_eq d treesSoFar hv hN0 (vt + 1) (by omega) (by omega)
    have e : treesSoFar + vt + 1 = treesSoFar + (vt + 1) := by ring
    rw [e, a.1, a.2, b.1, b.2]
    constructor
    · apply div_le_div_of_nonneg_right _ (le_of_lt hPq)
      have := countVotes_mono d 1 (fun x => vt + 1 ≤ x) (fun x => vt ≤ x)
        (fun _ _ h => by omega)
      exact_mod_cast this
    · apply div_le_div_of_nonneg_right _ (le_of_lt hNq)
      have := countVotes_mono d 0 (fun x => x < vt) (fun x => x < vt + 1)
        (fun _ _ h => by omega)
      exact_mod_cast this
  · have a := sensSpec_eq d treesSoFar hv hN0 (-treesSoFar) (le_refl _) (by omega)
    rw [a.1]
    have : countVotes d 1 (fun x => -treesSoFar ≤ x) = posCount d := by
      unfold posCount
      apply countVotes_congr
      intro i hi
      have := hv i hi
      simp only [iff_true]
      omega
    rw [this, div_self (ne_of_gt hPq)]
  · have a := sensSpec_eq d treesSoFar hv hN0 (-treesSoFar) (le_refl _) (by omega)
    rw [a.2]
    have : countVotes d 0 (fun x => x < -treesSoFar) = 0 := by
      rw [countVotes_sum]
      apply sum_eq_zero
      intro i hi
      have := hv i (mem_range.mp hi)
      rw [if_neg]
      rintro ⟨_, h⟩
      omega
    rw [this]
    simp
  · have a := sensSpec_eq d treesSoFar hv hN0 (treesSoFar + 1) (by omega) (le_refl _)
    have e : treesSoFar + treesSoFar + 1 = treesSoFar + (treesSoFar + 1) := by ring
    rw [e, a.1]
    have : countVotes d 1 (fun x => treesSoFar + 1 ≤ x) = 0 := by
      rw [countVotes_sum]
      apply sum_eq_zero
      intro i hi
      have := hv i (mem_range.mp hi)
      rw [if_neg]
      rintro ⟨_, h⟩
      omega
    rw [this]
    simp
  · have a := sensSpec_eq d treesSoFar hv hN0 (treesSoFar + 1) (by omega) (le_refl _)
    have e : treesSoFar + treesSoFar + 1 = treesSoFar + (treesSoFar + 1) := by ring
    rw [e, a.2]
    have : countVotes d 0 (fun x => x < treesSoFar + 1) = negCount d := by
      unfold negCount
      apply countVotes_congr
      intro i hi
      have := hv i hi
      simp only [iff_true]
      omega
    rw [this, div_self (ne_of_gt hNq)]

/-- C20 at the dataset with labels 1,0,0,1 and votes 0,1,-1,1 after three
trees. -/
theorem sensSpec_monotone_auc_range_witness :
    0 ≤ computeOOBAUC (mkDataset [1, 0, 0, 1] [] [0, 1, -1, 1]) 3 ∧
    computeOOBAUC (mkDataset [1, 0, 0, 1] [] [0, 1, -1, 1]) 3 ≤ 1 :=
  (sensSpec_monotone_auc_range (mkDataset [1, 0, 0, 1] [] [0, 1, -1, 1]) 3
    (by decide) (by decide) (by decide)).2.2.2.2.2

/-! ## Array bounds of `computeOOBAUC` -/

theorem readAt_some {α : Type} (size : Int) (a : Int → α) (i : Int) (h0 : 0 ≤ i)
    (h1 : i < size) : readAt size a i = some (a i) := by
  unfold readAt
  rw [if_pos ⟨h0, h1⟩]

theorem writeAt_some {α : Type} (size : Int) (a : Int → α) (i : Int) (v : α) (h0 : 0 ≤ i)
    (h1 : i < size) : writeAt size a i v = some (Function.update a i v) := by
  unfold writeAt
  rw [if_pos ⟨h0, h1⟩]

/-- A checked loop whose every iteration succeeds is the unchecked loop. -/
theorem forLoopM_some {σ : Type} (n : Nat) (body : Nat → σ → Option σ) (f : Nat → σ → σ)
    (s : σ) (h : ∀ i, i < n → ∀ x, body i x = some (f i x)) :
    forLoopM n body s = some (forLoop n f s) := by
  induction n with
  | zero => rfl
  | succ k ih =>
    show (forLoopM k body s).bind (body k) = some (f k (forLoop k f s))
    rw [ih (fun i hi x => h i (by omega) x)]
    exact h k (by omega) _

theorem forIntM_some {σ : Type} (lo hi : Int) (body : Int → σ → Option σ)
    (f : Int → σ → σ) (s : σ) (h : ∀ v, lo ≤ v → v < hi → ∀ x, body v x = some (f v x)) :
    forIntM lo hi body s = some (forInt lo hi f s) := by
  unfold forIntM forInt
  apply forLoopM_some
  intro i hi' x
  apply h <;> omega

/-- The histogram index of an example with a label in {0, 1} and a vote in
`[-T, T]` is inside the block of `2 * (1 + 2 * T)` cells. -/
theorem offset_in_bounds (d : dataset_t) (T : Int) (hl : binaryLabels d)
    (hv : votesWithin d T) (i : Nat) (hi : i < d.nex) :
    0 ≤ d.target i * (1 + 2 * T) + (T + d.oobvotes i) ∧
    d.target i * (1 + 2 * T) + (T + d.oobvotes i) < 2 * (1 + 2 * T) := by
  have h := hv i hi
  rcases hl i hi with h0 | h1
  · rw [h0]
    constructor <;> omega
  · rw [h1]
    constructor <;> omega

theorem labelCountsChecked_eq (d : dataset_t) (T : Int) (hl : binaryLabels d)
    (hv : votesWithin d T) : labelCountsChecked d T = some (labelCounts d T) := by
  unfold labelCountsChecked labelCounts
  dsimp only
  apply forLoopM_some
  intro i hi lc
  have hb := offset_in_bounds d T hl hv i hi
  rw [readAt_some _ _ _ hb.1 hb.2]
  show writeAt _ _ _ _ = _
  rw [writeAt_some _ _ _ _ hb.1 hb.2]

theorem threshCountsChecked_eq (lc : Int → Int) (T vt : Int) (h1 : -T ≤ vt) (h2 : vt ≤ T + 1) :
    threshCountsChecked lc T vt = some (threshCounts lc T vt) := by
  unfold threshCountsChecked threshCounts
  dsimp only
  rw [forIntM_some (-T) vt _
    (fun v p => (p.1 + lc (0 * (1 + 2 * T) + T + v), p.2 + lc (1 * (1 + 2 * T) + T + v)))]
  · rw [Option.some_bind]
    rw [forIntM_some vt (T + 1) _
      (fun v p => (p.1 + lc (1 * (1 + 2 * T) + T + v), p.2 + lc (0 * (1 + 2 * T) + T + v)))]
    · rfl
    · intro v hv1 hv2 p
      rw [readAt_some _ _ _ (by omega) (by omega)]
      show (readAt _ _ _).bind _ = _
      rw [readAt_some _ _ _ (by omega) (by omega)]
      rfl
  · intro v hv1 hv2 p
    rw [readAt_some _ _ _ (by omega) (by omega)]
    show (readAt _ _ _).bind _ = _
    rw [readAt_some _ _ _ (by omega) (by omega)]
    rfl

theorem sensSpecChecked_eq (lc : Int → Int) (T : Int) (hT : 0 ≤ T) :
    sensSpecChecked lc T = some (sensSpec lc T) := by
  unfold sensSpecChecked sensSpec
  dsimp only
  rw [writeAt_some _ _ _ _ (by omega) (by omega)]
  rw [Option.some_bind]
  rw [writeAt_some _ _ _ _ (by omega) (by omega)]
  rw [Option.some_bind]
  apply forIntM_some
  intro v hv1 hv2 ss
  rw [threshCountsChecked_eq lc T v hv1 (by omega)]
  rw [Option.some_bind]
  rw [writeAt_some _ _ _ _ (by omega) (by omega)]
  rw [Option.some_bind]
  rw [writeAt_some _ _ _ _ (by omega) (by omega)]
  rfl

/-- With a non-negative tree count, labels in {0, 1} and votes in `[-T, T]`
no access of `computeOOBAUC` leaves its block. -/
theorem computeOOBAUCChecked_eq (d : dataset_t) (T : Int) (hT : 0 ≤ T) (hl : binaryLabels d)
    (hv : votesWithin d T) : computeOOBAUCChecked d T = some (computeOOBAUC d T) := by
  unfold computeOOBAUCChecked computeOOBAUC
  dsimp only
  rw [labelCountsChecked_eq d T hl hv, Option.some_bind]
  rw [sensSpecChecked_eq _ T hT, Option.some_bind]
  apply forIntM_some
  intro v hv1 hv2 auc
  rw [readAt_some _ _ _ (by omega) (by omega), Option.some_bind]
  rw [readAt_some _ _ _ (by omega) (by omega), Option.some_bind]
  rw [readAt_some _ _ _ (by omega) (by omega), Option.some_bind]
  rw [readAt_some _ _ _ (by omega) (by omega), Option.some_bind]

/-- The out-of-bag step prints one row, computed from the dataset it
leaves, when out-of-bag reporting is on, and nothing otherwise. -/
theorem oobStep_out (tm : tree_module) (t : Nat) (s : grow_state) :
    (oobStep tm t s).out
      = if s.f.oob ≠ 0 then
          s.out ++ [stdout_item.row (reportOOBError (oobStep tm t s).d (t : Int))]
        else s.out := by
  rw [oobStep_d]
  unfold oobStep
  by_cases h : s.f.oob ≠ 0
  · rw [if_pos h, if_pos h, if_pos h]
    dsimp only
    rw [validOne_forLoop]
    unfold tabulateOOBVotes
    dsimp only
    cases s.f.oobfile <;> rfl
  · rw [if_neg h, if_neg h]

theorem bagRound_out (tm : tree_module) (w : Int → ℚ) (t : Nat) (s : grow_state) :
    (bagRound tm w t s).out
      = if s.f.oob ≠ 0 then
          s.out ++ [stdout_item.row (reportOOBError (bagRound tm w t s).d (t : Int))]
        else s.out := by
  unfold bagRound
  dsimp only
  rw [oobStep_out]
  dsimp only
  have hf : (bootstrap w s).f = s.f := by rw [bootstrap_eq]
  have ho : (bootstrap w s).out = s.out := by rw [bootstrap_eq]
  rw [hf, ho]

/-- What a round prints: in a bagging or random-forest round with
out-of-bag reporting, the row of `reportOOBError(d, t)` on the dataset the
round leaves; otherwise nothing. -/
theorem growRound_out (tm : tree_module) (m : libm) (w : Int → ℚ) (t : Nat) (s : grow_state) :
    (growRound tm m w t s).out
      = if s.f.committee ≠ BOOSTING ∧ s.f.oob ≠ 0 then
          s.out ++ [stdout_item.row (reportOOBError (growRound tm m w t s).d (t : Int))]
        else s.out := by
  have e : (growRound tm m w t s).out
      = if s.f.committee = BOOSTING then (boostRound tm m s).out else (bagRound tm w t s).out := by
    unfold growRound
    by_cases h : s.f.committee = BOOSTING
    · rw [if_pos h, if_pos h]
    · rw [if_neg h, if_neg h]
  have e2 : (growRound tm m w t s).d
      = if s.f.committee = BOOSTING then (boostRound tm m s).d else (bagRound tm w t s).d := by
    unfold growRound
    by_cases h : s.f.committee = BOOSTING
    · rw [if_pos h, if_pos h]
    · rw [if_neg h, if_neg h]
  rw [e, e2]
  by_cases h : s.f.committee = BOOSTING
  · rw [if_pos h, if_neg (fun hh => hh.1 h)]
    rfl
  · rw [if_neg h, if_neg h, bagRound_out]
    by_cases ho : s.f.oob ≠ 0
    · rw [if_pos ho, if_pos ⟨h, ho⟩]
    · rw [if_neg ho, if_neg (fun hh => ho hh.2)]

/-- In a run from all-zero votes on labels in {0, 1}, the dataset after
`k` rounds has labels in {0, 1} and votes in `[-k, k]`. -/
theorem roundState_precondition (tm : tree_module) (m : libm) (f : forest_t) (d : dataset_t)
    (rng : rand_state) (out : List stdout_item) (hl : binaryLabels d)
    (hz : ∀ i, i < d.nex → d.oobvotes i = 0) (k : Nat) :
    binaryLabels (roundState tm m f d rng out k).d ∧
    votesWithin (roundState tm m f d rng out k).d (k : Int) := by
  have hi := growInit_eq m f d rng out
  have hr := growRounds_inv tm m (growInit m f d rng out).1 k (growInit m f d rng out).2
  constructor
  · intro i hlt
    unfold roundState at hlt ⊢
    rw [hr.2.2.2.2.1, hi.2.2.1] at hlt
    rw [hr.2.2.2.2.2, hi.2.2.2.1]
    exact hl i hlt
  · intro i hlt
    unfold roundState at hlt ⊢
    rw [hr.2.2.2.2.1, hi.2.2.1] at hlt
    have hb := growRounds_votes_bound tm m (growInit m f d rng out).1 k
      (growInit m f d rng out).2 i
    rw [hi.2.2.2.2.1, hz i hlt] at hb
    constructor <;> omega

/-- The calls of `reportOOBError` in a run: round `t` of a bagging or
random-forest run with out-of-bag reporting prints the row of
`reportOOBError(d, t)` on the dataset it leaves. -/
theorem roundState_out (tm : tree_module) (m : libm) (f : forest_t) (d : dataset_t)
    (rng : rand_state) (out : List stdout_item) (hc : f.committee ≠ BOOSTING)
    (ho : f.oob ≠ 0) (t : Nat) :
    (roundState tm m f d rng out (t + 1)).out
      = (roundState tm m f d rng out t).out
          ++ [stdout_item.row (reportOOBError (roundState tm m f d rng out (t + 1)).d (t : Int))] := by
  have hi := growInit_eq m f d rng out
  have hr := growRounds_inv tm m (growInit m f d rng out).1 t (growInit m f d rng out).2
  have hc2 : (roundState tm m f d rng out t).f.committee ≠ BOOSTING := by
    unfold roundState
    rw [hr.2.2.1, hi.2.1]
    exact hc
  have ho2 : (roundState tm m f d rng out t).f.oob ≠ 0 := by
    unfold roundState
    rw [hr.2.2.2.1, hi.2.1]
    exact ho
  have e : roundState tm m f d rng out (t + 1)
      = growRound tm m (growInit m f d rng out).1 t (roundState tm m f d rng out t) := rfl
  rw [e, growRound_out, if_pos ⟨hc2, ho2⟩]

/-- The tree count is taken non-negative, as in every call
(`reportOOBError` passes `iter + 1`): on the empty dataset with
`treesSoFar = -1` the entry written at `sens[ctr + treesSoFar + 1]` would
have index -1 in a block of `1 + rowsize = 0` cells. -/
theorem computeOOBAUC_negative_tree_count :
    binaryLabels (mkDataset [] [] []) ∧
    votesWithin (mkDataset [] [] []) (-1) ∧
    (-1 : Int) + (-1) + 1 = -1 ∧
    writeAt (1 + (1 + 2 * (-1))) (fun _ => (0 : ℚ)) ((-1) + (-1) + 1) 0 = none ∧
    sensSpecChecked (labelCounts (mkDataset [] [] []) (-1)) (-1) = none ∧
    computeOOBAUCChecked (mkDataset [] [] []) (-1) = none := by
  refine ⟨by decide, by decide, by decide, rfl, rfl, rfl⟩

/-- C19: for a tree count `treesSoFar >= 0` (every call passes
`iter + 1`, and the vote range gives it for a non-empty dataset), with
labels in {0, 1} and every cumulative vote in
`[-treesSoFar, treesSoFar]`, the histogram index of every example
lies in `[0, 2 * (2 * treesSoFar + 1))`, the indices of the histogram reads
and of the `sens`/`spec` accesses at every level `v` in
`[-treesSoFar, treesSoFar]`, the `i + 1` read and the sentinel at
`2 * treesSoFar + 1` included, lie in their blocks, and the bounds-checked
`computeOOBAUC` completes with the value of `computeOOBAUC`.  In a bagging
or random-forest run of `growForest` with out-of-bag reporting from
all-zero votes, round `t` calls `reportOOBError(d, t)` on a dataset that
meets the precondition for `treesSoFar = t + 1`, so the call of
`computeOOBAUC` in it stays in bounds. -/
theorem computeOOBAUC_accesses_in_bounds (d : dataset_t) (treesSoFar : Int)
    (hT : 0 ≤ treesSoFar ∨ 1 ≤ d.nex) (hl : binaryLabels d) (hv : votesWithin d treesSoFar) :
    (∀ i, i < d.nex →
      0 ≤ d.target i * (1 + 2 * treesSoFar) + (treesSoFar + d.oobvotes i) ∧
      d.target i * (1 + 2 * treesSoFar) + (treesSoFar + d.oobvotes i)
        < 2 * (2 * treesSoFar + 1)) ∧
    (∀ v : Int, -treesSoFar ≤ v → v ≤ treesSoFar →
      (0 ≤ 0 * (1 + 2 * treesSoFar) + treesSoFar + v ∧
        0 * (1 + 2 * treesSoFar) + treesSoFar + v < 2 * (2 * treesSoFar + 1)) ∧
      (0 ≤ 1 * (1 + 2 * treesSoFar) + treesSoFar + v ∧
        1 * (1 + 2 * treesSoFar) + treesSoFar + v < 2 * (2 * treesSoFar + 1)) ∧
      (0 ≤ treesSoFar + v ∧ treesSoFar + v < 2 * treesSoFar + 2) ∧
      (0 ≤ treesSoFar + v + 1 ∧ treesSoFar + v + 1 < 2 * treesSoFar + 2)) ∧
    (0 ≤ treesSoFar + treesSoFar + 1 ∧ treesSoFar + treesSoFar + 1 < 2 * treesSoFar + 2) ∧
    computeOOBAUCChecked d treesSoFar = some (computeOOBAUC d treesSoFar) ∧
    (∀ (tm : tree_module) (m : libm) (f : forest_t) (d0 : dataset_t) (rng : rand_state)
        (out : List stdout_item),
      f.committee ≠ BOOSTING → f.oob ≠ 0 → binaryLabels d0 →
      (∀ i, i < d0.nex → d0.oobvotes i = 0) →
      ∀ t : Nat, (t : Int) < f.ntrees →
        (roundState tm m f d0 rng out (t + 1)).out
          = (roundState tm m f d0 rng out t).out
              ++ [stdout_item.row
                    (reportOOBError (roundState tm m f d0 rng out (t + 1)).d (t : Int))] ∧
        binaryLabels (roundState tm m f d0 rng out (t + 1)).d ∧
        votesWithin (roundState tm m f d0 rng out (t + 1)).d ((t : Int) + 1) ∧
        computeOOBAUCChecked (roundState tm m f d0 rng out (t + 1)).d ((t : Int) + 1)
          = some (computeOOBAUC (roundState tm m f d0 rng out (t + 1)).d ((t : Int) + 1))) := by
  have hT0 : 0 ≤ treesSoFar := by
    rcases hT with h | h
    · exact h
    · have := hv 0 (by omega)
      omega
  refine ⟨?_, ?_, by omega, computeOOBAUCChecked_eq d treesSoFar hT0 hl hv, ?_⟩
  · intro i hi
    have h := offset_in_bounds d treesSoFar hl hv i hi
    constructor
    · exact h.1
    · have := h.2
      omega
  · intro v h1 h2
    refine ⟨⟨by omega, by omega⟩, ⟨by omega, by omega⟩, ⟨by omega, by omega⟩, by omega, by omega⟩
  · intro tm m f d0 rng out hc ho hl0 hz t _
    have hp := roundState_precondition tm m f d0 rng out hl0 hz (t + 1)
    have hp2 : votesWithin (roundState tm m f d0 rng out (t + 1)).d ((t : Int) + 1) := by
      have := hp.2
      push_cast at this
      exact this
    exact ⟨roundState_out tm m f d0 rng out hc ho t, hp.1, hp2,
      computeOOBAUCChecked_eq _ _ (by omega) hp.1 hp2⟩

/-- C19 at the four examples with labels 1, 0, 0, 1 and votes 0, 1, -1, 1
after three trees: the checked `computeOOBAUC` completes. -/
theorem computeOOBAUC_accesses_in_bounds_witness :
    (0 ≤ (3 : Int) ∨ 1 ≤ (mkDataset [1, 0, 0, 1] [] [0, 1, -1, 1]).nex) ∧
    binaryLabels (mkDataset [1, 0, 0, 1] [] [0, 1, -1, 1]) ∧
    votesWithin (mkDataset [1, 0, 0, 1] [] [0, 1, -1, 1]) 3 ∧
    computeOOBAUCChecked (mkDataset [1, 0, 0, 1] [] [0, 1, -1, 1]) 3
      = some (computeOOBAUC (mkDataset [1, 0, 0, 1] [] [0, 1, -1, 1]) 3) :=
  ⟨by decide, by decide, by decide,
    (computeOOBAUC_accesses_in_bounds (mkDataset [1, 0, 0, 1] [] [0, 1, -1, 1]) 3
      (by decide) (by decide) (by decide)).2.2.2.1⟩

/-! ## The draws of a run -/

/-- The bootstrap sampling is the clearing loop followed by one drawing
slot per example. -/
theorem bootstrap_slots (w : Int → ℚ) (s : grow_state) :
    bootstrap w s = sampleSlots w (clearSlots s).d.nex (clearSlots s) := rfl

theorem clearSlots_frame (s : grow_state) :
    (clearSlots s).rng = s.rng ∧ (clearSlots s).d.nex = s.d.nex := by
  unfold clearSlots
  rw [reset_forLoop]
  exact ⟨rfl, rfl⟩

/-- Slot `j` of the drawing loop makes call number `j` of the round: it
reads the next value of the source, reduces it modulo the example count and
flags that example. -/
theorem sampleSlots_succ (w : Int → ℚ) (j : Nat) (s : grow_state) :
    (sampleSlots w j s).rng = { s.rng with pos := s.rng.pos + j } ∧
    (sampleSlots w (j + 1) s).rng = { s.rng with pos := s.rng.pos + j + 1 } ∧
    (sampleSlots w (j + 1) s).tree.valid
      = Function.update (sampleSlots w j s).tree.valid
          (s.rng.stream (s.rng.pos + j) % s.d.nex) 1 := by
  have e : sampleSlots w (j + 1) s
      = { sampleSlots w j s with
          rng := (rand (sampleSlots w j s).rng).2
          tree := { (sampleSlots w j s).tree with
                    valid := Function.update (sampleSlots w j s).tree.valid
                      ((rand (sampleSlots w j s).rng).1 % (sampleSlots w j s).d.nex) 1 }
          d := { (sampleSlots w j s).d with
                 weight := Function.update (sampleSlots w j s).d.weight
                  ((rand (sampleSlots w j s).rng).1 % (sampleSlots w j s).d.nex)
                  ((sampleSlots w j s).d.weight
                      ((rand (sampleSlots w j s).rng).1 % (sampleSlots w j s).d.nex)
                    + w ((sampleSlots w j s).d.target
                      ((rand (sampleSlots w j s).rng).1 % (sampleSlots w j s).d.nex))) } } := rfl
  have hj : (sampleSlots w j s).rng = { s.rng with pos := s.rng.pos + j } ∧
      (sampleSlots w j s).d.nex = s.d.nex := by
    unfold sampleSlots
    rw [draw_forLoop]
    exact ⟨rfl, rfl⟩
  refine ⟨hj.1, ?_, ?_⟩
  · rw [e]
    dsimp only
    rw [hj.1]
    rfl
  · rw [e]
    dsimp only
    rw [hj.1, hj.2]
    rfl

/-- The random source after a round: the sampling loop advances it by one
call per example in a bagging or random-forest round, `growForest` makes no
call of its own in a boosting round, and the tree module receives the
source in between. -/
theorem growRound_rng (tm : tree_module) (m : libm) (w : Int → ℚ) (t : Nat) (s : grow_state) :
    (growRound tm m w t s).rng
      = if s.f.committee = BOOSTING then (tm.grow s.tree s.d s.rng).2
        else (tm.grow (bootstrap w s).tree (bootstrap w s).d
                { s.rng with pos := s.rng.pos + s.d.nex }).2 := by
  have e : (growRound tm m w t s).rng
      = if s.f.committee = BOOSTING then (boostRound tm m s).rng else (bagRound tm w t s).rng := by
    unfold growRound
    by_cases h : s.f.committee = BOOSTING
    · rw [if_pos h, if_pos h]
    · rw [if_neg h, if_neg h]
  rw [e]
  by_cases h : s.f.committee = BOOSTING
  · rw [if_pos h, if_pos h]
    rfl
  · rw [if_neg h, if_neg h]
    unfold bagRound
    dsimp only
    rw [(oobStep_frame tm t _).2.2]
    dsimp only
    have hr : (bootstrap w s).rng = { s.rng with pos := s.rng.pos + s.d.nex } := by
      rw [bootstrap_eq]
    rw [hr]

/-- With a tree module that makes no call of the random source, `k` rounds
of a bagging or random-forest run advance the source by `k` times the
example count, and `k` rounds of a boosting run leave it alone. -/
theorem growRounds_rng (tm : tree_module) (m : libm) (w : Int → ℚ) (k : Nat) (s : grow_state)
    (hgrow : ∀ tree dd g, (tm.grow tree dd g).2 = g) :
    (growRounds tm m w k s).rng
      = if s.f.committee = BOOSTING then s.rng
        else { s.rng with pos := s.rng.pos + s.d.nex * k } := by
  induction k with
  | zero =>
    split_ifs <;> rfl
  | succ k ih =>
    have hi := growRounds_inv tm m w k s
    rw [growRounds_succ, growRound_rng, hgrow, hgrow, hi.2.2.1, hi.2.2.2.2.1]
    by_cases h : s.f.committee = BOOSTING
    · rw [if_pos h] at ih
      rw [if_pos h, if_pos h, ih]
    · rw [if_neg h] at ih
      rw [if_neg h, if_neg h, ih]
      dsimp only
      congr 1
      ring

/-- The out-of-bag step reads the forest, the dataset and the tree only. -/
theorem oobStep_core (tm : tree_module) (t : Nat) (s1 s2 : grow_state)
    (hf : s1.f = s2.f) (hd : s1.d = s2.d) (ht : s1.tree = s2.tree) :
    (oobStep tm t s1).f = (oobStep tm t s2).f ∧
    (oobStep tm t s1).d = (oobStep tm t s2).d ∧
    (oobStep tm t s1).tree = (oobStep tm t s2).tree := by
  obtain ⟨f1, d1, t1, r1, o1⟩ := s1
  obtain ⟨f2, d2, t2, r2, o2⟩ := s2
  dsimp only at hf hd ht
  subst hf hd ht
  unfold oobStep
  dsimp only
  by_cases h : f1.oob ≠ 0
  · rw [if_pos h, if_pos h, validOne_forLoop, validOne_forLoop]
    dsimp only
    cases f1.oobfile <;> exact ⟨rfl, rfl, rfl⟩
  · rw [if_neg h, if_neg h]
    exact ⟨rfl, rfl, rfl⟩

/-- The bootstrap sampling depends on the random source through the
indices drawn only. -/
theorem bootstrap_core (w : Int → ℚ) (s1 s2 : grow_state)
    (hf : s1.f = s2.f) (hd : s1.d = s2.d) (ht : s1.tree = s2.tree)
    (hdraw : draws s1.rng s1.d.nex = draws s2.rng s2.d.nex) :
    (bootstrap w s1).f = (bootstrap w s2).f ∧
    (bootstrap w s1).d = (bootstrap w s2).d ∧
    (bootstrap w s1).tree = (bootstrap w s2).tree := by
  rw [bootstrap_eq, bootstrap_eq]
  dsimp only
  rw [hdraw, hd, ht]
  exact ⟨hf, rfl, rfl⟩

theorem bagRound_core (tm : tree_module) (w : Int → ℚ) (t : Nat) (s1 s2 : grow_state)
    (hroot : ∀ tree dd,
      (tm.grow tree dd { s1.rng with pos := s1.rng.pos + s1.d.nex }).1
        = (tm.grow tree dd { s2.rng with pos := s2.rng.pos + s2.d.nex }).1)
    (hf : s1.f = s2.f) (hd : s1.d = s2.d) (ht : s1.tree = s2.tree)
    (hdraw : draws s1.rng s1.d.nex = draws s2.rng s2.d.nex) :
    (bagRound tm w t s1).f = (bagRound tm w t s2).f ∧
    (bagRound tm w t s1).d = (bagRound tm w t s2).d ∧
    (bagRound tm w t s1).tree = (bagRound tm w t s2).tree := by
  have hb := bootstrap_core w s1 s2 hf hd ht hdraw
  have r1 : (bootstrap w s1).rng = { s1.rng with pos := s1.rng.pos + s1.d.nex } := by
    rw [bootstrap_eq]
  have r2 : (bootstrap w s2).rng = { s2.rng with pos := s2.rng.pos + s2.d.nex } := by
    rw [bootstrap_eq]
  unfold bagRound
  dsimp only
  apply oobStep_core
  · exact hb.1
  · exact hb.2.1
  · dsimp only
    rw [hb.2.1, hb.2.2, r1, r2, hroot]

theorem boostRound_core (tm : tree_module) (m : libm) (s1 s2 : grow_state)
    (hroot : ∀ tree dd, (tm.grow tree dd s1.rng).1 = (tm.grow tree dd s2.rng).1)
    (hf : s1.f = s2.f) (hd : s1.d = s2.d) (ht : s1.tree = s2.tree) :
    (boostRound tm m s1).f = (boostRound tm m s2).f ∧
    (boostRound tm m s1).d = (boostRound tm m s2).d ∧
    (boostRound tm m s1).tree = (boostRound tm m s2).tree := by
  obtain ⟨f1, d1, t1, r1, o1⟩ := s1
  obtain ⟨f2, d2, t2, r2, o2⟩ := s2
  dsimp only at hf hd ht hroot
  subst hf hd ht
  unfold boostRound
  dsimp only
  rw [hroot t1 d1]
  exact ⟨rfl, rfl, rfl⟩

/-- A round entered with two sources on which the tree module grows the
same tree: the forest, the dataset and the tree request it leaves depend
on the source through the indices drawn only. -/
theorem growRound_core (tm : tree_module) (m : libm) (w : Int → ℚ) (t : Nat)
    (s1 s2 : grow_state)
    (hrootB : s1.f.committee = BOOSTING →
      ∀ tree dd, (tm.grow tree dd s1.rng).1 = (tm.grow tree dd s2.rng).1)
    (hrootG : s1.f.committee ≠ BOOSTING →
      ∀ tree dd,
        (tm.grow tree dd { s1.rng with pos := s1.rng.pos + s1.d.nex }).1
          = (tm.grow tree dd { s2.rng with pos := s2.rng.pos + s2.d.nex }).1)
    (hf : s1.f = s2.f) (hd : s1.d = s2.d) (ht : s1.tree = s2.tree)
    (hdraw : s1.f.committee ≠ BOOSTING → draws s1.rng s1.d.nex = draws s2.rng s2.d.nex) :
    (growRound tm m w t s1).f = (growRound tm m w t s2).f ∧
    (growRound tm m w t s1).d = (growRound tm m w t s2).d ∧
    (growRound tm m w t s1).tree = (growRound tm m w t s2).tree := by
  unfold growRound
  by_cases h : s1.f.committee = BOOSTING
  · have h2 : s2.f.committee = BOOSTING := by rw [← hf]; exact h
    rw [if_pos h, if_pos h2]
    have hb := boostRound_core tm m s1 s2 (hrootB h) hf hd ht
    dsimp only
    rw [hb.1, hb.2.1, hb.2.2]
    exact ⟨rfl, rfl, rfl⟩
  · have h2 : ¬ s2.f.committee = BOOSTING := by rw [← hf]; exact h
    rw [if_neg h, if_neg h2]
    have hb := bagRound_core tm w t s1 s2 (hrootG h) hf hd ht (hdraw h)
    dsimp only
    rw [hb.1, hb.2.1, hb.2.2]
    exact ⟨rfl, rfl, rfl⟩

/-- The set-up of `growForest` does not read the random source. -/
theorem growInit_core (m : libm) (f : forest_t) (d : dataset_t) (rng1 rng2 : rand_state)
    (out1 out2 : List stdout_item) :
    (growInit m f d rng1 out1).1 = (growInit m f d rng2 out2).1 ∧
    (growInit m f d rng1 out1).2.f = (growInit m f d rng2 out2).2.f ∧
    (growInit m f d rng1 out1).2.d = (growInit m f d rng2 out2).2.d ∧
    (growInit m f d rng1 out1).2.tree = (growInit m f d rng2 out2).2.tree := by
  refine ⟨rfl, ?_⟩
  unfold growInit
  dsimp only
  rw [boostInit_eq, boostInit_eq]
  split_ifs <;> exact ⟨rfl, rfl, rfl⟩

/-- Two sources that return the same values over the next `n * K` calls
give the same indices in round `k < K`. -/
theorem draws_agree (g1 g2 : rand_state) (n K k : Nat) (hk : k < K)
    (h : ∀ j, j < n * K → g1.stream (g1.pos + j) = g2.stream (g2.pos + j)) :
    draws { g1 with pos := g1.pos + n * k } n = draws { g2 with pos := g2.pos + n * k } n := by
  unfold draws drawsUpTo
  apply List.map_congr_left
  intro j hj
  rw [List.mem_range] at hj
  dsimp only
  have hlt : n * k + j < n * K := by
    calc n * k + j < n * k + n := by omega
      _ = n * (k + 1) := by ring
      _ ≤ n * K := Nat.mul_le_mul_left n hk
  have := h (n * k + j) hlt
  rw [Nat.add_assoc, Nat.add_assoc, this]

/-- Two runs on the same forest and dataset, with a tree module that makes
no call of the random source and whose tree does not depend on it, from two
sources that, unless the run is a boosting run, return the same values over
the `nex * K` calls of the first `K` rounds: after each of these rounds the
forests, the datasets and the tree requests agree. -/
theorem roundState_core (tm : tree_module) (m : libm) (f : forest_t) (d : dataset_t)
    (rng1 rng2 : rand_state) (out1 out2 : List stdout_item) (K : Nat)
    (hgrow : ∀ tree dd g, (tm.grow tree dd g).2 = g)
    (hroot : ∀ tree dd g g2, (tm.grow tree dd g).1 = (tm.grow tree dd g2).1)
    (h : f.committee ≠ BOOSTING →
      ∀ j, j < d.nex * K → rng1.stream (rng1.pos + j) = rng2.stream (rng2.pos + j))
    (k : Nat) (hk : k ≤ K) :
    (roundState tm m f d rng1 out1 k).f = (roundState tm m f d rng2 out2 k).f ∧
    (roundState tm m f d rng1 out1 k).d = (roundState tm m f d rng2 out2 k).d ∧
    (roundState tm m f d rng1 out1 k).tree = (roundState tm m f d rng2 out2 k).tree := by
  induction k with
  | zero =>
    have hi := growInit_core m f d rng1 rng2 out1 out2
    exact ⟨hi.2.1, hi.2.2.1, hi.2.2.2⟩
  | succ k ih =>
    have ih := ih (by omega)
    have hw := (growInit_core m f d rng1 rng2 out1 out2).1
    have e1 : roundState tm m f d rng1 out1 (k + 1)
        = growRound tm m (growInit m f d rng1 out1).1 k (roundState tm m f d rng1 out1 k) := rfl
    have e2 : roundState tm m f d rng2 out2 (k + 1)
        = growRound tm m (growInit m f d rng1 out1).1 k (roundState tm m f d rng2 out2 k) := by
      rw [hw]
      rfl
    rw [e1, e2]
    apply growRound_core tm m _ k _ _ (fun _ tree dd => hroot tree dd _ _)
      (fun _ tree dd => hroot tree dd _ _) ih.1 ih.2.1 ih.2.2
    intro hc
    have r1 := growRounds_rng tm m (growInit m f d rng1 out1).1 k (growInit m f d rng1 out1).2 hgrow
    have r2 := growRounds_rng tm m (growInit m f d rng2 out2).1 k (growInit m f d rng2 out2).2 hgrow
    have i1 := growInit_eq m f d rng1 out1
    have i2 := growInit_eq m f d rng2 out2
    have v1 := growRounds_inv tm m (growInit m f d rng1 out1).1 k (growInit m f d rng1 out1).2
    have v2 := growRounds_inv tm m (growInit m f d rng2 out2).1 k (growInit m f d rng2 out2).2
    have c1 : ¬ (growInit m f d rng1 out1).2.f.committee = BOOSTING := by
      rw [← v1.2.2.1]
      exact hc
    have c2 : ¬ (growInit m f d rng2 out2).2.f.committee = BOOSTING := by
      rw [i2.2.1]
      rw [i1.2.1] at c1
      exact c1
    have cf : f.committee ≠ BOOSTING := by
      have c := c1
      rw [i1.2.1] at c
      exact c
    rw [if_neg c1, i1.2.2.2.2.2, i1.2.2.1] at r1
    rw [if_neg c2, i2.2.2.2.2.2, i2.2.2.1] at r2
    have n1 : (roundState tm m f d rng1 out1 k).d.nex = d.nex := by
      unfold roundState
      rw [v1.2.2.2.2.1, i1.2.2.1]
    have n2 : (roundState tm m f d rng2 out2 k).d.nex = d.nex := by
      unfold roundState
      rw [v2.2.2.2.2.1, i2.2.2.1]
    have q1 : (roundState tm m f d rng1 out1 k).rng = { rng1 with pos := rng1.pos + d.nex * k } := r1
    have q2 : (roundState tm m f d rng2 out2 k).rng = { rng2 with pos := rng2.pos + d.nex * k } := r2
    rw [q1, q2, n1, n2]
    exact draws_agree rng1 rng2 d.nex K k (by omega) (h cf)

theorem sameDraws_shift (g g2 : rand_state) (c : Nat) (h : sameDraws g g2) :
    sameDraws { g with pos := g.pos + c } { g2 with pos := g2.pos + c } := by
  intro j
  have := h (c + j)
  dsimp only
  rw [Nat.add_assoc, Nat.add_assoc]
  exact this

theorem sameDraws_draws (g g2 : rand_state) (n : Nat) (h : sameDraws g g2) :
    draws g n = draws g2 n := by
  unfold draws drawsUpTo
  apply List.map_congr_left
  intro j _
  dsimp only
  rw [h j]

/-- A round entered with the same forest, dataset and tree request and
with two sources that return the same values, with a tree module that uses
the source by calling it only, leaves the same forest, dataset and tree
request and two sources that return the same values. -/
theorem growRound_same (tm : tree_module) (m : libm) (w : Int → ℚ) (t : Nat)
    (s1 s2 : grow_state) (htm : drawsByCalls tm)
    (hf : s1.f = s2.f) (hd : s1.d = s2.d) (ht : s1.tree = s2.tree)
    (hr : sameDraws s1.rng s2.rng) :
    (growRound tm m w t s1).f = (growRound tm m w t s2).f ∧
    (growRound tm m w t s1).d = (growRound tm m w t s2).d ∧
    (growRound tm m w t s1).tree = (growRound tm m w t s2).tree ∧
    sameDraws (growRound tm m w t s1).rng (growRound tm m w t s2).rng := by
  have hn : s1.d.nex = s2.d.nex := by rw [hd]
  have hsh : sameDraws { s1.rng with pos := s1.rng.pos + s1.d.nex }
      { s2.rng with pos := s2.rng.pos + s2.d.nex } := by
    rw [hn]
    exact sameDraws_shift _ _ _ hr
  have hcore := growRound_core tm m w t s1 s2
    (fun _ tree dd => (htm tree dd _ _ hr).1)
    (fun _ tree dd => (htm tree dd _ _ hsh).1) hf hd ht
    (fun _ => by rw [hn]; exact sameDraws_draws _ _ _ hr)
  refine ⟨hcore.1, hcore.2.1, hcore.2.2, ?_⟩
  rw [growRound_rng, growRound_rng]
  have hb : (bootstrap w s1).tree = (bootstrap w s2).tree ∧
      (bootstrap w s1).d = (bootstrap w s2).d := by
    have := bootstrap_core w s1 s2 hf hd ht (by rw [hn]; exact sameDraws_draws _ _ _ hr)
    exact ⟨this.2.2, this.2.1⟩
  by_cases h : s1.f.committee = BOOSTING
  · have h2 : s2.f.committee = BOOSTING := by rw [← hf]; exact h
    rw [if_pos h, if_pos h2, ht, hd]
    obtain ⟨c, e1, e2⟩ := (htm s2.tree s2.d _ _ hr).2
    rw [e1, e2]
    exact sameDraws_shift _ _ _ hr
  · have h2 : ¬ s2.f.committee = BOOSTING := by rw [← hf]; exact h
    rw [if_neg h, if_neg h2, hb.1, hb.2]
    obtain ⟨c, e1, e2⟩ := (htm (bootstrap w s2).tree (bootstrap w s2).d _ _ hsh).2
    rw [e1, e2]
    exact sameDraws_shift _ _ _ hsh

/-- Two runs on the same forest and dataset from two sources that return
the same values, with a tree module that uses the source by calling it
only: after every round the forests, the datasets and the tree requests
agree. -/
theorem roundState_same (tm : tree_module) (m : libm) (f : forest_t) (d : dataset_t)
    (rng1 rng2 : rand_state) (out1 out2 : List stdout_item) (htm : drawsByCalls tm)
    (hr : sameDraws rng1 rng2) (k : Nat) :
    (roundState tm m f d rng1 out1 k).f = (roundState tm m f d rng2 out2 k).f ∧
    (roundState tm m f d rng1 out1 k).d = (roundState tm m f d rng2 out2 k).d ∧
    (roundState tm m f d rng1 out1 k).tree = (roundState tm m f d rng2 out2 k).tree ∧
    sameDraws (roundState tm m f d rng1 out1 k).rng (roundState tm m f d rng2 out2 k).rng := by
  induction k with
  | zero =>
    have hi := growInit_core m f d rng1 rng2 out1 out2
    have i1 := growInit_eq m f d rng1 out1
    have i2 := growInit_eq m f d rng2 out2
    refine ⟨hi.2.1, hi.2.2.1, hi.2.2.2, ?_⟩
    show sameDraws (growInit m f d rng1 out1).2.rng (growInit m f d rng2 out2).2.rng
    rw [i1.2.2.2.2.2, i2.2.2.2.2.2]
    exact hr
  | succ k ih =>
    have hw := (growInit_core m f d rng1 rng2 out1 out2).1
    have e1 : roundState tm m f d rng1 out1 (k + 1)
        = growRound tm m (growInit m f d rng1 out1).1 k (roundState tm m f d rng1 out1 k) := rfl
    have e2 : roundState tm m f d rng2 out2 (k + 1)
        = growRound tm m (growInit m f d rng1 out1).1 k (roundState tm m f d rng2 out2 k) := by
      rw [hw]
      rfl
    rw [e1, e2]
    exact growRound_same tm m _ k _ _ htm ih.1 ih.2.1 ih.2.2.1 ih.2.2.2

theorem growForest_eq_roundState (tm : tree_module) (m : libm) (f : forest_t) (d : dataset_t)
    (rng : rand_state) (out : List stdout_item) :
    growForest tm m f d rng out = roundState tm m f d rng out f.ntrees.toNat := by
  unfold growForest roundState
  dsimp only
  rw [(growInit_eq m f d rng out).2.1]

/-- The random source after `k` rounds of a run whose tree module makes no
call of it. -/
theorem roundState_rng (tm : tree_module) (m : libm) (f : forest_t) (d : dataset_t)
    (rng : rand_state) (out : List stdout_item)
    (hgrow : ∀ tree dd g, (tm.grow tree dd g).2 = g) (k : Nat) :
    (roundState tm m f d rng out k).rng
      = if f.committee = BOOSTING then rng else { rng with pos := rng.pos + d.nex * k } := by
  have hi := growInit_eq m f d rng out
  unfold roundState
  rw [growRounds_rng tm m _ k _ hgrow, hi.2.1, hi.2.2.1, hi.2.2.2.2.2]

/-- C13: the sampling loop of a bagging or random-forest round is one
drawing slot per example; slot `j` makes call number `j` of the round, takes
the value modulo the example count and flags that example, so the loop
advances the random source by exactly `nex` calls; `growForest` makes no
other call: in a boosting round the source goes to the tree module as it
is, in the other rounds as the sampling loop leaves it.  With a tree module
that makes no call of the source, `k` rounds of a bagging or random-forest
run have made `nex * k` calls, the whole run `nex * ntrees`, and a boosting
run none.  Two such runs on the same forest and dataset whose sources
return the same values over these calls leave the same weights, inclusion
flags and out-of-bag votes after every round; and so do two runs with a
tree module that itself calls the source, when the two sources return the
same values from the start on. -/
theorem growForest_draw_pattern (tm : tree_module) (m : libm) (f : forest_t) (d : dataset_t)
    (rng : rand_state) (out : List stdout_item) :
    (∀ (w : Int → ℚ) (s : grow_state),
      bootstrap w s = sampleSlots w s.d.nex (clearSlots s) ∧
      (clearSlots s).rng = s.rng ∧
      (∀ j : Nat,
        (sampleSlots w j (clearSlots s)).rng = { s.rng with pos := s.rng.pos + j } ∧
        (sampleSlots w (j + 1) (clearSlots s)).tree.valid
          = Function.update (sampleSlots w j (clearSlots s)).tree.valid
              (s.rng.stream (s.rng.pos + j) % s.d.nex) 1) ∧
      (bootstrap w s).rng = { s.rng with pos := s.rng.pos + s.d.nex }) ∧
    (∀ (w : Int → ℚ) (t : Nat) (s : grow_state),
      (growRound tm m w t s).rng
        = if s.f.committee = BOOSTING then (tm.grow s.tree s.d s.rng).2
          else (tm.grow (bootstrap w s).tree (bootstrap w s).d
                  { s.rng with pos := s.rng.pos + s.d.nex }).2) ∧
    ((∀ tree dd g, (tm.grow tree dd g).2 = g) →
      (f.committee ≠ BOOSTING →
        (∀ k : Nat, (roundState tm m f d rng out k).rng
          = { rng with pos := rng.pos + d.nex * k }) ∧
        (growForest tm m f d rng out).rng
          = { rng with pos := rng.pos + d.nex * f.ntrees.toNat }) ∧
      (f.committee = BOOSTING →
        (∀ k : Nat, (roundState tm m f d rng out k).rng = rng) ∧
        (growForest tm m f d rng out).rng = rng)) ∧
    ((∀ tree dd g, (tm.grow tree dd g).2 = g) →
      (∀ tree dd g g2, (tm.grow tree dd g).1 = (tm.grow tree dd g2).1) →
      ∀ (rng2 : rand_state) (out2 : List stdout_item) (K : Nat),
        (f.committee ≠ BOOSTING →
          ∀ j, j < d.nex * K → rng.stream (rng.pos + j) = rng2.stream (rng2.pos + j)) →
        ∀ k : Nat, k ≤ K →
          (roundState tm m f d rng out k).d.weight
            = (roundState tm m f d rng2 out2 k).d.weight ∧
          (roundState tm m f d rng out k).tree.valid
            = (roundState tm m f d rng2 out2 k).tree.valid ∧
          (roundState tm m f d rng out k).d.oobvotes
            = (roundState tm m f d rng2 out2 k).d.oobvotes ∧
          (roundState tm m f d rng out k).f = (roundState tm m f d rng2 out2 k).f) ∧
    (drawsByCalls tm →
      ∀ (rng2 : rand_state) (out2 : List stdout_item), sameDraws rng rng2 →
        ∀ k : Nat,
          (roundState tm m f d rng out k).d.weight
            = (roundState tm m f d rng2 out2 k).d.weight ∧
          (roundState tm m f d rng out k).tree.valid
            = (roundState tm m f d rng2 out2 k).tree.valid ∧
          (roundState tm m f d rng out k).d.oobvotes
            = (roundState tm m f d rng2 out2 k).d.oobvotes ∧
          (roundState tm m f d rng out k).f = (roundState tm m f d rng2 out2 k).f) := by
  refine ⟨?_, fun w t s => growRound_rng tm m w t s, ?_, ?_, ?_⟩
  · intro w s
    have hc := clearSlots_frame s
    refine ⟨?_, hc.1, ?_, ?_⟩
    · rw [bootstrap_slots, hc.2]
    · intro j
      have h := sampleSlots_succ w j (clearSlots s)
      rw [hc.1, hc.2] at h
      exact ⟨h.1, h.2.2⟩
    · rw [bootstrap_eq]
  · intro hgrow
    constructor
    · intro hc
      constructor
      · intro k
        rw [roundState_rng tm m f d rng out hgrow k, if_neg hc]
      · rw [growForest_eq_roundState, roundState_rng tm m f d rng out hgrow, if_neg hc]
    · intro hc
      constructor
      · intro k
        rw [roundState_rng tm m f d rng out hgrow k, if_pos hc]
      · rw [growForest_eq_roundState, roundState_rng tm m f d rng out hgrow, if_pos hc]
  · intro hgrow hroot rng2 out2 K h k hk
    have hcore := roundState_core tm m f d rng rng2 out out2 K hgrow hroot h k hk
    exact ⟨by rw [hcore.2.1], by rw [hcore.2.2], by rw [hcore.2.1], hcore.1⟩
  · intro htm rng2 out2 hr k
    have hcore := roundState_same tm m f d rng rng2 out out2 htm hr k
    exact ⟨by rw [hcore.2.1], by rw [hcore.2.2.1], by rw [hcore.2.1], hcore.1⟩

theorem drawTrees_drawsByCalls (p : Nat → ℚ) : drawsByCalls (drawTrees p) := by
  intro tree dd g g2 h
  have h0 := h 0
  rw [Nat.add_zero, Nat.add_zero] at h0
  refine ⟨?_, 1, rfl, rfl⟩
  show g.stream g.pos % 2 = g2.stream g2.pos % 2
  rw [h0]

/-- C13 on a bagging run of two rounds on two examples.  With a tree
module that makes no call of the source the run makes 2 * 2 calls, and a
second source that agrees with the first on these four values and differs
after them leaves the same out-of-bag votes.  With a tree module that makes
one call a round, a second source that returns the same values from its
second value on leaves the same out-of-bag votes. -/
theorem growForest_draw_pattern_witness :
    (growForest (constTrees 7 (fun _ => 1) 1) ratLibm
        (initForest zeroForest BAGGING 1000 1 2 1 1 none)
        (mkDataset [0, 1] [] []) (listRand [0, 0, 1, 1]) []).rng.pos = 4 ∧
    (roundState (constTrees 7 (fun _ => 1) 1) ratLibm
        (initForest zeroForest BAGGING 1000 1 2 1 1 none)
        (mkDataset [0, 1] [] []) (listRand [0, 0, 1, 1]) [] 2).d.oobvotes
      = (roundState (constTrees 7 (fun _ => 1) 1) ratLibm
          (initForest zeroForest BAGGING 1000 1 2 1 1 none)
          (mkDataset [0, 1] [] []) (listRand [0, 0, 1, 1, 5, 6]) [] 2).d.oobvotes ∧
    (roundState (drawTrees (fun _ => 1)) ratLibm
        (initForest zeroForest BAGGING 1000 1 2 1 1 none)
        (mkDataset [0, 1] [] []) (listRand [0, 0, 3, 1, 1, 4]) [] 2).d.oobvotes
      = (roundState (drawTrees (fun _ => 1)) ratLibm
          (initForest zeroForest BAGGING 1000 1 2 1 1 none)
          (mkDataset [0, 1] [] [])
          { stream := fun k => [9, 0, 0, 3, 1, 1, 4].getD k 0, pos := 1 } [] 2).d.oobvotes := by
  have h := growForest_draw_pattern (constTrees 7 (fun _ => 1) 1) ratLibm
    (initForest zeroForest BAGGING 1000 1 2 1 1 none)
    (mkDataset [0, 1] [] []) (listRand [0, 0, 1, 1]) []
  have h2 := growForest_draw_pattern (drawTrees (fun _ => 1)) ratLibm
    (initForest zeroForest BAGGING 1000 1 2 1 1 none)
    (mkDataset [0, 1] [] []) (listRand [0, 0, 3, 1, 1, 4]) []
  refine ⟨?_, ?_, ?_⟩
  · rw [((h.2.2.1 (fun _ _ _ => rfl)).1 (by decide)).2]
    rfl
  · refine ((h.2.2.2.1 (fun _ _ _ => rfl) (fun _ _ _ _ => rfl)
      (listRand [0, 0, 1, 1, 5, 6]) [] 2 ?_ 2 (le_refl 2))).2.2.1
    intro _ j hj
    have hj4 : j < 4 := hj
    interval_cases j <;> rfl
  · refine (h2.2.2.2.2 (drawTrees_drawsByCalls _)
      { stream := fun k => [9, 0, 0, 3, 1, 1, 4].getD k 0, pos := 1 } [] ?_ 2).2.2.1
    intro j
    show [0, 0, 3, 1, 1, 4].getD (0 + j) 0 = [9, 0, 0, 3, 1, 1, 4].getD (1 + j) 0
    rw [Nat.zero_add, Nat.add_comm]
    rfl

/-! ## Binary floating point: values -/

/-- The `float`s nearest to 1/10, 1/3, 2/5 and 1/5 (the last through
`double`, as for `1.0/5`). -/
theorem f32_values :
    f32 (1, 10) = (13421773, 134217728) ∧ f32 (f64 (1, 3)) = (11184811, 33554432) ∧
    f32 (2, 5) = (13421773, 33554432) ∧ f32 (f64 (1, 5)) = (13421773, 67108864) := by
  decide

theorem f32q_three : f32q 3 = 3 := by
  unfold f32q
  have h : f32 ((3 : ℚ).num, (3 : ℚ).den) = (12582912, 4194304) := by decide
  rw [h]
  norm_num [fracVal]

theorem f32q_one : f32q 1 = 1 := by
  unfold f32q
  have h : f32 ((1 : ℚ).num, (1 : ℚ).den) = (8388608, 8388608) := by decide
  rw [h]
  norm_num [fracVal]

/-- The whole number 1234570 is a `float`. -/
theorem f32q_example : f32q 1234570 = 1234570 := by
  unfold f32q
  have h : f32 ((1234570 : ℚ).num, (1234570 : ℚ).den) = (9876560, 8) := by decide
  rw [h]
  norm_num [fracVal]

/-! ## The model file: `readForest` on a malformed header -/

/-- The loop of `readTree` calls of `readForest` writes the roots only. -/
theorem readTrees_frame (tio : tree_file) (n : Nat) (f : forest_t) (inp : List Char) :
    (forLoop n (fun i (s : forest_t × List Char) =>
        ({ s.1 with tree := Function.update s.1.tree i (tio.readTree s.2).1 },
          (tio.readTree s.2).2)) (f, inp)).1
      = { f with
          tree := (forLoop n (fun i (s : forest_t × List Char) =>
            ({ s.1 with tree := Function.update s.1.tree i (tio.readTree s.2).1 },
              (tio.readTree s.2).2)) (f, inp)).1.tree } := by
  induction n with
  | zero => rfl
  | succ n ih =>
    rw [forLoop_succ]
    dsimp only
    rw [ih]

/-- A call of `readForest` that gets past the header returns a forest with
the fields of the header as `readHeader` left them. -/
theorem readForest_of_header (tio : tree_file) (f : forest_t) (fname : String)
    (inp : List Char) (h : (readHeader f inp).2.1 ≠ EOF) :
    ∃ (g : forest_t) (w : List String),
      readForest tio f fname (some inp) = Except.ok (g, w) ∧
      g.committee = (readHeader f inp).1.committee ∧
      g.ngrown = (readHeader f inp).1.ngrown ∧
      g.nfeat = (readHeader f inp).1.nfeat ∧
      g.maxdepth = (readHeader f inp).1.maxdepth ∧
      g.factor = (readHeader f inp).1.factor := by
  unfold readForest
  dsimp only
  rw [if_neg h]
  have hf := readTrees_frame tio (readHeader f inp).1.ngrown.toNat
    { (readHeader f inp).1 with tree := fun _ => 0 } (readHeader f inp).2.2
  split_ifs
  · refine ⟨_, _, rfl, ?_⟩
    rw [hf]
    exact ⟨rfl, rfl, rfl, rfl, rfl⟩
  · refine ⟨_, _, rfl, ?_⟩
    rw [hf]
    exact ⟨rfl, rfl, rfl, rfl, rfl⟩

/-- C12 fails on the code: in the text below the field `trees` is `abc`.
The second call of `fscanf` stops at `abc` and assigns nothing, the third
discards `abc` and stops at `features:`, the fourth discards `features:`
and stores 2 in `maxdepth`, the fifth discards `maxdepth:`, stores 3 in
`factor` and returns 1.  The only test of `readForest` is whether the fifth
call returns `EOF`, so it does not exit: it returns a forest whose grown
count and feature count are what the caller left there, with the value of
`features` as depth and the value of `maxdepth` as factor. -/
theorem readForest_malformed_header_returns (tio : tree_file) (f0 : forest_t)
    (fname : String) :
    conv_d " abc\nfeatures: 2\nmaxdepth: 3\nfpnfactor: 1\n".toList
      = conv_result.matching_failure "abc\nfeatures: 2\nmaxdepth: 3\nfpnfactor: 1\n".toList ∧
    readHeader f0
        "committee: 1 (Bagging)\ntrees: abc\nfeatures: 2\nmaxdepth: 3\nfpnfactor: 1\n".toList
      = ({ f0 with committee := 1, maxdepth := 2, factor := 3 }, 1,
          "\nfpnfactor: 1\n".toList) ∧
    ∃ (g : forest_t) (w : List String),
      readForest tio f0 fname
          (some
            "committee: 1 (Bagging)\ntrees: abc\nfeatures: 2\nmaxdepth: 3\nfpnfactor: 1\n".toList)
        = Except.ok (g, w) ∧
      g.committee = 1 ∧ g.ngrown = f0.ngrown ∧ g.nfeat = f0.nfeat ∧
      g.maxdepth = 2 ∧ g.factor = 3 := by
  have h1 : fscanf_s_d_s
      "committee: 1 (Bagging)\ntrees: abc\nfeatures: 2\nmaxdepth: 3\nfpnfactor: 1\n".toList
      = { ret := 1, val := some 1,
          rest := "\ntrees: abc\nfeatures: 2\nmaxdepth: 3\nfpnfactor: 1\n".toList } := by
    decide
  have h2 : fscanf_s_conv conv_d "\ntrees: abc\nfeatures: 2\nmaxdepth: 3\nfpnfactor: 1\n".toList
      = { ret := 0, val := none,
          rest := "abc\nfeatures: 2\nmaxdepth: 3\nfpnfactor: 1\n".toList } := by
    decide
  have h3 : fscanf_s_conv conv_d "abc\nfeatures: 2\nmaxdepth: 3\nfpnfactor: 1\n".toList
      = { ret := 0, val := none, rest := "features: 2\nmaxdepth: 3\nfpnfactor: 1\n".toList } := by
    decide
  have h4 : fscanf_s_conv conv_d "features: 2\nmaxdepth: 3\nfpnfactor: 1\n".toList
      = { ret := 1, val := some 2, rest := "\nmaxdepth: 3\nfpnfactor: 1\n".toList } := by
    decide
  have h5 : fscanf_s_conv conv_g "\nmaxdepth: 3\nfpnfactor: 1\n".toList
      = { ret := 1, val := some { neg := false, num := 3, scale := 0, exp := 0 },
          rest := "\nfpnfactor: 1\n".toList } := by
    decide
  have hv : dec_lit.value { neg := false, num := 3, scale := 0, exp := 0 } = 3 := by
    norm_num [dec_lit.value]
  have hh : readHeader f0
      "committee: 1 (Bagging)\ntrees: abc\nfeatures: 2\nmaxdepth: 3\nfpnfactor: 1\n".toList
      = ({ f0 with committee := 1, maxdepth := 2, factor := 3 }, 1,
          "\nfpnfactor: 1\n".toList) := by
    unfold readHeader
    dsimp only
    rw [h1]
    dsimp only
    rw [h2]
    dsimp only
    rw [h3]
    dsimp only
    rw [h4]
    dsimp only
    rw [h5]
    dsimp only
    rw [hv, f32q_three]
  refine ⟨by decide, hh, ?_⟩
  obtain ⟨g, w, hg, c1, c2, c3, c4, c5⟩ := readForest_of_header tio f0 fname
    "committee: 1 (Bagging)\ntrees: abc\nfeatures: 2\nmaxdepth: 3\nfpnfactor: 1\n".toList
    (by rw [hh]; exact (by decide : (1 : Int) ≠ EOF))
  rw [hh] at c1 c2 c3 c4 c5
  exact ⟨g, w, hg, c1, c2, c3, c4, c5⟩

/-! ## The model file: text of numbers -/

theorem digitChar_spec (d : Nat) (h : d < 10) :
    isdigit (digitChar d) = true ∧ digitVal (digitChar d) = d := by
  interval_cases d <;> exact ⟨rfl, rfl⟩

theorem isdigit_not_space (c : Char) (h : isdigit c = true) : isspace c = false := by
  unfold isdigit at h
  unfold isspace
  simp only [Bool.and_eq_true, decide_eq_true_eq] at h
  simp only [Bool.or_eq_false_iff, beq_eq_false_iff_ne, ne_eq, Bool.and_eq_false_iff,
    decide_eq_false_iff_not, not_le]
  omega

theorem isdigit_ne (c t : Char) (h : isdigit c = true) (ht : isdigit t = false) : c ≠ t := by
  intro hc
  rw [hc, ht] at h
  exact Bool.noConfusion h

theorem decDigits_isdigit (fuel n : Nat) : ∀ c ∈ decDigits fuel n, isdigit c = true := by
  induction fuel generalizing n with
  | zero =>
    intro c hc
    simp only [decDigits, List.mem_singleton] at hc
    rw [hc]
    exact (digitChar_spec _ (Nat.mod_lt _ (by norm_num))).1
  | succ fuel ih =>
    intro c hc
    unfold decDigits at hc
    by_cases h : n < 10
    · rw [if_pos h, List.mem_singleton] at hc
      rw [hc]
      exact (digitChar_spec _ h).1
    · rw [if_neg h, List.mem_append, List.mem_singleton] at hc
      rcases hc with hc | hc
      · exact ih _ c hc
      · rw [hc]
        exact (digitChar_spec _ (Nat.mod_lt _ (by norm_num))).1

theorem decDigits_ne_nil (fuel n : Nat) : decDigits fuel n ≠ [] := by
  cases fuel with
  | zero => simp [decDigits]
  | succ fuel =>
    unfold decDigits
    by_cases h : n < 10
    · rw [if_pos h]
      simp
    · rw [if_neg h]
      simp

/-- The digits of `n` spell `n`. -/
theorem decDigits_value (fuel n : Nat) (h : n < 10 ^ (fuel + 1)) :
    (decDigits fuel n).foldl (fun a c => a * 10 + digitVal c) 0 = n := by
  induction fuel generalizing n with
  | zero =>
    have hn : n < 10 := by simpa using h
    simp only [decDigits, List.foldl_cons, List.foldl_nil]
    rw [(digitChar_spec _ (Nat.mod_lt _ (by norm_num))).2]
    omega
  | succ fuel ih =>
    unfold decDigits
    by_cases hn : n < 10
    · rw [if_pos hn]
      simp only [List.foldl_cons, List.foldl_nil]
      rw [(digitChar_spec _ hn).2]
      omega
    · rw [if_neg hn, List.foldl_append]
      simp only [List.foldl_cons, List.foldl_nil]
      rw [ih (n / 10) (by
        rw [Nat.div_lt_iff_lt_mul (by norm_num)]
        calc n < 10 ^ (fuel + 1 + 1) := h
          _ = 10 ^ (fuel + 1) * 10 := by ring)]
      rw [(digitChar_spec _ (Nat.mod_lt _ (by norm_num))).2]
      omega

theorem natText_isdigit (n : Nat) : ∀ c ∈ natText n, isdigit c = true :=
  decDigits_isdigit n n

theorem natText_ne_nil (n : Nat) : natText n ≠ [] := decDigits_ne_nil n n

theorem natText_value (n : Nat) :
    (natText n).foldl (fun a c => a * 10 + digitVal c) 0 = n := by
  apply decDigits_value
  calc n < 10 ^ n := Nat.lt_pow_self (by norm_num) n
    _ ≤ 10 ^ (n + 1) := Nat.pow_le_pow_right (by norm_num) (by omega)

theorem fixedDigits_isdigit (k n : Nat) : ∀ c ∈ fixedDigits k n, isdigit c = true := by
  induction k generalizing n with
  | zero =>
    intro c hc
    simp [fixedDigits] at hc
  | succ k ih =>
    intro c hc
    unfold fixedDigits at hc
    rw [List.mem_append, List.mem_singleton] at hc
    rcases hc with hc | hc
    · exact ih _ c hc
    · rw [hc]
      exact (digitChar_spec _ (Nat.mod_lt _ (by norm_num))).1

theorem fixedDigits_length (k n : Nat) : (fixedDigits k n).length = k := by
  induction k generalizing n with
  | zero => rfl
  | succ k ih =>
    unfold fixedDigits
    rw [List.length_append, ih]
    rfl

/-- The `k` digits of `n` continue a number `acc` to
`acc * 10 ^ k + n % 10 ^ k`. -/
theorem fixedDigits_value (k n acc : Nat) :
    (fixedDigits k n).foldl (fun a c => a * 10 + digitVal c) acc = acc * 10 ^ k + n % 10 ^ k := by
  induction k generalizing n with
  | zero => simp [fixedDigits, Nat.mod_one]
  | succ k ih =>
    unfold fixedDigits
    rw [List.foldl_append]
    simp only [List.foldl_cons, List.foldl_nil]
    rw [ih, (digitChar_spec _ (Nat.mod_lt _ (by norm_num))).2]
    have h1 : n % 10 ^ (k + 1) = (n / 10 % 10 ^ k) * 10 + n % 10 := by
      rw [pow_succ, mul_comm (10 ^ k) 10, Nat.mod_mul]
      ring
    rw [h1]
    ring

/-- A run of digits is read to its end. -/
theorem scanDigits_append (ds rest : List Char) (acc cnt : Nat)
    (h : ∀ c ∈ ds, isdigit c = true) :
    scanDigits (ds ++ rest) acc cnt
      = scanDigits rest (ds.foldl (fun a c => a * 10 + digitVal c) acc) (cnt + ds.length) := by
  induction ds generalizing acc cnt with
  | nil => rfl
  | cons d ds ih =>
    have hd : isdigit d = true := h d (List.mem_cons_self _ _)
    have e : scanDigits (d :: (ds ++ rest)) acc cnt
        = scanDigits (ds ++ rest) (acc * 10 + digitVal d) (cnt + 1) := by
      show (if isdigit d = true then _ else _) = _
      rw [if_pos hd]
    show scanDigits (d :: (ds ++ rest)) acc cnt = _
    rw [e, ih _ _ (fun c hc => h c (List.mem_cons_of_mem _ hc))]
    simp only [List.foldl_cons, List.length_cons]
    rw [Nat.add_assoc cnt, Nat.add_comm 1]

theorem scanDigits_stop (t : Char) (rest : List Char) (acc cnt : Nat)
    (h : isdigit t = false) : scanDigits (t :: rest) acc cnt = (acc, cnt, t :: rest) := by
  show (if isdigit t = true then _ else _) = _
  rw [if_neg (by rw [h]; exact Bool.noConfusion)]

/-- The text of a natural number, followed by a character that is not a
digit, is read back as the number. -/
theorem scanDigits_natText (n : Nat) (t : Char) (rest : List Char) (h : isdigit t = false) :
    scanDigits (natText n ++ t :: rest) 0 0 = (n, (natText n).length, t :: rest) := by
  rw [scanDigits_append _ _ _ _ (natText_isdigit n), natText_value, scanDigits_stop _ _ _ _ h,
    Nat.zero_add]

theorem skipSpace_space (c : Char) (l : List Char) (h : isspace c = true) :
    skipSpace (c :: l) = skipSpace l := by
  unfold skipSpace
  rw [List.dropWhile_cons, if_pos h]

theorem skipSpace_nonspace (c : Char) (l : List Char) (h : isspace c = false) :
    skipSpace (c :: l) = c :: l := by
  unfold skipSpace
  rw [List.dropWhile_cons, if_neg (by rw [h]; exact Bool.noConfusion)]

theorem dropWord (w : List Char) (s : Char) (rest : List Char)
    (hw : ∀ c ∈ w, isspace c = false) (hs : isspace s = true) :
    (w ++ s :: rest).dropWhile (fun c => !isspace c) = s :: rest := by
  induction w with
  | nil =>
    show (s :: rest).dropWhile (fun c => !isspace c) = s :: rest
    rw [List.dropWhile_cons, if_neg (by simp [hs])]
  | cons c w ih =>
    show (c :: (w ++ s :: rest)).dropWhile (fun c => !isspace c) = s :: rest
    rw [List.dropWhile_cons, if_pos (by simp [hw c (List.mem_cons_self _ _)])]
    exact ih (fun c hc => hw c (List.mem_cons_of_mem _ hc))

/-- The conversion `%*s` discards a word up to the white space after it. -/
theorem conv_s_word (c : Char) (w : List Char) (s : Char) (rest : List Char)
    (hc : isspace c = false) (hw : ∀ c ∈ w, isspace c = false) (hs : isspace s = true) :
    conv_s (c :: (w ++ s :: rest)) = conv_result.ok () (s :: rest) := by
  unfold conv_s
  rw [skipSpace_nonspace _ _ hc]
  dsimp only
  have h := dropWord (c :: w) s rest (by
    intro x hx
    rcases List.mem_cons.1 hx with hx | hx
    · rw [hx]
      exact hc
    · exact hw x hx) hs
  show conv_result.ok () (((c :: w) ++ s :: rest).dropWhile (fun c => !isspace c)) = _
  rw [h]

theorem conv_s_space (s : Char) (l : List Char) (hs : isspace s = true) :
    conv_s (s :: l) = conv_s l := by
  unfold conv_s
  rw [skipSpace_space _ _ hs]

/-- The text of `%d`, after white space and before a character that is
not a digit, is read back by `%d` as the number. -/
theorem conv_d_fmt_d (n : Int) (s t : Char) (rest : List Char) (hs : isspace s = true)
    (ht : isdigit t = false) :
    conv_d (s :: (fmt_d n ++ t :: rest)) = conv_result.ok n (t :: rest) := by
  obtain ⟨d, ds, hd⟩ := List.exists_cons_of_ne_nil (natText_ne_nil n.natAbs)
  have hdig : isdigit d = true := natText_isdigit n.natAbs d (by rw [hd]; exact List.mem_cons_self _ _)
  have hscan := scanDigits_natText n.natAbs t rest ht
  have hlen : (natText n.natAbs).length ≠ 0 := by
    rw [hd]
    simp
  unfold conv_d
  rw [skipSpace_space _ _ hs]
  unfold fmt_d
  by_cases hn : n < 0
  · rw [if_pos hn]
    have hm : isspace '-' = false := by decide
    show (match skipSpace ('-' :: (natText n.natAbs ++ t :: rest)) with
      | [] => conv_result.input_failure
      | c :: cs =>
        let sg := scanSign (c :: cs)
        let r := scanDigits sg.2 0 0
        if r.2.1 = 0 then conv_result.matching_failure r.2.2
        else conv_result.ok (if sg.1 then -(r.1 : Int) else (r.1 : Int)) r.2.2) = _
    rw [skipSpace_nonspace _ _ hm]
    dsimp only
    have hsg : scanSign ('-' :: (natText n.natAbs ++ t :: rest))
        = (true, natText n.natAbs ++ t :: rest) := rfl
    rw [hsg]
    dsimp only
    rw [hscan]
    dsimp only
    rw [if_neg hlen]
    simp only [if_true]
    congr 1
    omega
  · rw [if_neg hn, hd]
    show (match skipSpace (d :: (ds ++ t :: rest)) with
      | [] => conv_result.input_failure
      | c :: cs =>
        let sg := scanSign (c :: cs)
        let r := scanDigits sg.2 0 0
        if r.2.1 = 0 then conv_result.matching_failure r.2.2
        else conv_result.ok (if sg.1 then -(r.1 : Int) else (r.1 : Int)) r.2.2) = _
    rw [skipSpace_nonspace _ _ (isdigit_not_space d hdig)]
    dsimp only
    have hsg : scanSign (d :: (ds ++ t :: rest)) = (false, d :: (ds ++ t :: rest)) := by
      unfold scanSign
      dsimp only
      rw [if_neg (isdigit_ne d '-' hdig (by decide)), if_neg (isdigit_ne d '+' hdig (by decide))]
    rw [hsg]
    dsimp only
    have e : d :: (ds ++ t :: rest) = natText n.natAbs ++ t :: rest := by
      rw [hd]
      rfl
    rw [e, hscan]
    dsimp only
    rw [if_neg hlen]
    simp only [Bool.false_eq_true, if_false]
    congr 1
    omega

/-- Dropping trailing zeros keeps the value: `m = n * 10 ^ (p - k)` for
the `k` digits and the number `n` that are left. -/
theorem stripZeros_spec (p m : Nat) :
    (stripZeros p m).1 ≤ p ∧ m = (stripZeros p m).2 * 10 ^ (p - (stripZeros p m).1) := by
  induction p generalizing m with
  | zero => simp [stripZeros]
  | succ p ih =>
    unfold stripZeros
    by_cases h : m % 10 = 0
    · rw [if_pos h]
      have hi := ih (m / 10)
      refine ⟨by omega, ?_⟩
      have e : p + 1 - (stripZeros p (m / 10)).1 = (p - (stripZeros p (m / 10)).1) + 1 := by omega
      rw [e, pow_succ, ← mul_assoc, ← hi.2]
      omega
    · rw [if_neg h]
      simp

/-- The digits of `%g`, before a character that is neither a digit nor a
point, are read back as the number without its trailing zeros. -/
theorem scanMantissa_gText (p m : Nat) (t : Char) (rest : List Char) (ht : isdigit t = false)
    (hp : t ≠ '.') :
    ∃ cnt : Nat, cnt ≠ 0 ∧
      scanMantissa (gText p m ++ t :: rest)
        = ((stripZeros p m).2, cnt, (stripZeros p m).1, t :: rest) := by
  unfold gText
  dsimp only
  generalize stripZeros p m = kn
  obtain ⟨k, n⟩ := kn
  dsimp only
  have hlen : (natText (n / 10 ^ k)).length ≠ 0 := by
    have := natText_ne_nil (n / 10 ^ k)
    intro h
    exact this (List.length_eq_zero.1 h)
  by_cases hk : k = 0
  · subst hk
    rw [if_pos rfl, List.append_nil]
    refine ⟨(natText (n / 10 ^ 0)).length, hlen, ?_⟩
    unfold scanMantissa
    rw [scanDigits_natText _ t rest ht]
    dsimp only
    rw [if_neg hp]
    simp
  · rw [if_neg hk]
    refine ⟨(natText (n / 10 ^ k)).length + k, by omega, ?_⟩
    unfold scanMantissa
    have e : natText (n / 10 ^ k) ++ '.' :: fixedDigits k (n % 10 ^ k) ++ t :: rest
        = natText (n / 10 ^ k) ++ '.' :: (fixedDigits k (n % 10 ^ k) ++ t :: rest) := by
      simp
    rw [e, scanDigits_natText _ '.' _ (by decide)]
    dsimp only
    rw [if_pos rfl, scanDigits_append _ _ _ _ (fixedDigits_isdigit _ _), fixedDigits_value,
      scanDigits_stop _ _ _ _ ht, fixedDigits_length, Nat.zero_add]
    dsimp only
    rw [Nat.mod_mod, Nat.div_add_mod']

theorem scanExp_none (t : Char) (rest : List Char) (h1 : t ≠ 'e') (h2 : t ≠ 'E') :
    scanExp (t :: rest) = some (0, t :: rest) := by
  unfold scanExp
  dsimp only
  rw [if_neg (by
    intro h
    rcases h with h | h
    · exact h1 h
    · exact h2 h)]

/-- The exponent part of the style `e` is read back as the exponent. -/
theorem scanExp_expText (X : Int) (t : Char) (rest : List Char) (ht : isdigit t = false) :
    scanExp ('e' :: (expText X ++ t :: rest)) = some (X, t :: rest) := by
  have hsc : ∀ neg : Bool,
      scanDigits ((if X.natAbs < 10 then '0' :: natText X.natAbs else natText X.natAbs)
          ++ t :: rest) 0 0
        = (X.natAbs, (if X.natAbs < 10 then '0' :: natText X.natAbs
            else natText X.natAbs).length, t :: rest) := by
    intro _
    by_cases h : X.natAbs < 10
    · rw [if_pos h]
      have hz : ∀ c ∈ '0' :: natText X.natAbs, isdigit c = true := by
        intro c hc
        rcases List.mem_cons.1 hc with hc | hc
        · rw [hc]
          decide
        · exact natText_isdigit _ c hc
      rw [scanDigits_append _ _ _ _ hz, scanDigits_stop _ _ _ _ ht, Nat.zero_add]
      have hv : List.foldl (fun a c => a * 10 + digitVal c) 0 ('0' :: natText X.natAbs)
          = X.natAbs := by
        rw [List.foldl_cons]
        exact natText_value X.natAbs
      rw [hv]
    · rw [if_neg h]
      exact scanDigits_natText _ t rest ht
  have hlen : (if X.natAbs < 10 then '0' :: natText X.natAbs else natText X.natAbs).length ≠ 0 := by
    split_ifs
    · simp
    · intro h
      exact natText_ne_nil _ (List.length_eq_zero.1 h)
  unfold scanExp expText
  dsimp only
  rw [if_pos (Or.inl rfl)]
  by_cases hX : X < 0
  · rw [if_pos hX]
    have hsg : scanSign ('-' :: (if X.natAbs < 10 then '0' :: natText X.natAbs
        else natText X.natAbs) ++ t :: rest)
        = (true, (if X.natAbs < 10 then '0' :: natText X.natAbs else natText X.natAbs)
            ++ t :: rest) := rfl
    rw [hsg]
    dsimp only
    rw [hsc true]
    dsimp only
    rw [if_neg hlen]
    simp only [if_true]
    congr 2
    omega
  · rw [if_neg hX]
    have hsg : scanSign ('+' :: (if X.natAbs < 10 then '0' :: natText X.natAbs
        else natText X.natAbs) ++ t :: rest)
        = (false, (if X.natAbs < 10 then '0' :: natText X.natAbs else natText X.natAbs)
            ++ t :: rest) := rfl
    rw [hsg]
    dsimp only
    rw [hsc true]
    dsimp only
    rw [if_neg hlen]
    simp only [Bool.false_eq_true, if_false]
    congr 2
    omega

theorem gText_cons (p m : Nat) :
    ∃ (d : Char) (ds : List Char), gText p m = d :: ds ∧ isdigit d = true := by
  unfold gText
  dsimp only
  obtain ⟨d, ds, hd⟩ := List.exists_cons_of_ne_nil
    (natText_ne_nil ((stripZeros p m).2 / 10 ^ (stripZeros p m).1))
  refine ⟨d, ds ++ (if (stripZeros p m).1 = 0 then []
    else '.' :: fixedDigits (stripZeros p m).1 ((stripZeros p m).2 % 10 ^ (stripZeros p m).1)),
    ?_, ?_⟩
  · rw [hd]
    rfl
  · exact natText_isdigit _ d (by rw [hd]; exact List.mem_cons_self _ _)

/-- The conversion `%g` on white space, an optional minus sign and a text
that starts with a digit: the sign is read, and the digits and the exponent
part follow. -/
theorem conv_g_signed (s : Char) (neg : Bool) (d : Char) (ds : List Char)
    (hs : isspace s = true) (hd : isdigit d = true) :
    conv_g (s :: ((if neg = true then ['-'] else []) ++ d :: ds))
      = if (scanMantissa (d :: ds)).2.1 = 0 then
          conv_result.matching_failure (scanMantissa (d :: ds)).2.2.2
        else
          match scanExp (scanMantissa (d :: ds)).2.2.2 with
          | none => conv_result.matching_failure []
          | some er =>
            conv_result.ok
              { neg := neg, num := (scanMantissa (d :: ds)).1,
                scale := (scanMantissa (d :: ds)).2.2.1, exp := er.1 } er.2 := by
  unfold conv_g
  rw [skipSpace_space _ _ hs]
  cases neg with
  | true =>
    rw [if_pos rfl]
    show (match skipSpace ('-' :: d :: ds) with
      | [] => conv_result.input_failure
      | c :: cs =>
        let sg := scanSign (c :: cs)
        let fr := scanMantissa sg.2
        if fr.2.1 = 0 then conv_result.matching_failure fr.2.2.2
        else
          match scanExp fr.2.2.2 with
          | none => conv_result.matching_failure []
          | some er =>
            conv_result.ok
              ({ neg := sg.1, num := fr.1, scale := fr.2.2.1, exp := er.1 } : dec_lit) er.2) = _
    rw [skipSpace_nonspace _ _ (by decide)]
    rfl
  | false =>
    rw [if_neg (by decide)]
    show (match skipSpace (d :: ds) with
      | [] => conv_result.input_failure
      | c :: cs =>
        let sg := scanSign (c :: cs)
        let fr := scanMantissa sg.2
        if fr.2.1 = 0 then conv_result.matching_failure fr.2.2.2
        else
          match scanExp fr.2.2.2 with
          | none => conv_result.matching_failure []
          | some er =>
            conv_result.ok
              ({ neg := sg.1, num := fr.1, scale := fr.2.2.1, exp := er.1 } : dec_lit) er.2) = _
    rw [skipSpace_nonspace _ _ (isdigit_not_space d hd)]
    dsimp only
    have hsg : scanSign (d :: ds) = (false, d :: ds) := by
      unfold scanSign
      dsimp only
      rw [if_neg (isdigit_ne d '-' hd (by decide)), if_neg (isdigit_ne d '+' hd (by decide))]
    rw [hsg]

/-- The value of the digits that are left when trailing zeros are
dropped. -/
theorem stripZeros_value (p m : Nat) :
    ((stripZeros p m).2 : ℚ) / (10 : ℚ) ^ (stripZeros p m).1 = (m : ℚ) / (10 : ℚ) ^ p := by
  have h := stripZeros_spec p m
  have hp : (10 : ℚ) ^ p = 10 ^ (p - (stripZeros p m).1) * 10 ^ (stripZeros p m).1 := by
    rw [← pow_add]
    congr 1
    omega
  have hm : (m : ℚ) = ((stripZeros p m).2 : ℚ) * 10 ^ (p - (stripZeros p m).1) := by
    have := congrArg (fun n : Nat => (n : ℚ)) h.2
    simpa using this
  rw [hm, hp]
  have h1 : (10 : ℚ) ^ (p - (stripZeros p m).1) ≠ 0 := by positivity
  have h2 : (10 : ℚ) ^ (stripZeros p m).1 ≠ 0 := by positivity
  field_simp
  ring

/-- The text of `%g`, after white space and before a character that ends
a decimal constant, is read back by `%g` as a constant whose value is the
number rounded to six significant digits. -/
theorem conv_g_fmt_g (x : ℚ) (s t : Char) (rest : List Char) (hs : isspace s = true)
    (ht : isdigit t = false) (hp : t ≠ '.') (he : t ≠ 'e') (hE : t ≠ 'E') :
    ∃ l : dec_lit,
      conv_g (s :: (fmt_g x ++ t :: rest)) = conv_result.ok l (t :: rest) ∧ l.value = g6 x := by
  unfold fmt_g g6
  dsimp only
  generalize sig6 x.num.natAbs x.den = mX
  obtain ⟨m, X⟩ := mX
  dsimp only
  have hsign : (if x < 0 then ['-'] else ([] : List Char))
      = (if decide (x < 0) = true then ['-'] else []) := by
    by_cases h : x < 0
    · simp [h]
    · simp [h]
  rw [hsign]
  by_cases hst : X < -4 ∨ 6 ≤ X
  · rw [if_pos hst]
    obtain ⟨d, ds, hd, hdig⟩ := gText_cons 5 m
    obtain ⟨cnt, hcnt, hsm⟩ := scanMantissa_gText 5 m 'e' (expText X ++ t :: rest)
      (by decide) (by decide)
    have e : (if decide (x < 0) = true then ['-'] else []) ++ (gText 5 m ++ 'e' :: expText X)
          ++ t :: rest
        = (if decide (x < 0) = true then ['-'] else [])
          ++ d :: (ds ++ 'e' :: (expText X ++ t :: rest)) := by
      rw [hd]
      simp
    have e2 : d :: (ds ++ 'e' :: (expText X ++ t :: rest))
        = gText 5 m ++ 'e' :: (expText X ++ t :: rest) := by
      rw [hd]
      rfl
    rw [e, conv_g_signed s _ d _ hs hdig, e2, hsm]
    dsimp only
    rw [if_neg hcnt, scanExp_expText X t rest ht]
    refine ⟨_, rfl, ?_⟩
    unfold dec_lit.value
    dsimp only
    have hv := stripZeros_value 5 m
    have h10 : (10 : ℚ) ^ (X - 5) = (10 : ℚ) ^ X / (10 : ℚ) ^ (5 : Nat) := by
      rw [zpow_sub₀ (by norm_num)]
      norm_cast
    rw [h10, mul_div_assoc, hv]
    by_cases hx : x < 0
    · simp only [hx, decide_True, if_true]
      ring
    · simp only [hx, decide_False, if_false, Bool.false_eq_true]
      ring
  · rw [if_neg hst]
    obtain ⟨d, ds, hd, hdig⟩ := gText_cons (5 - X).toNat m
    obtain ⟨cnt, hcnt, hsm⟩ := scanMantissa_gText (5 - X).toNat m t rest ht hp
    have e : (if decide (x < 0) = true then ['-'] else []) ++ gText (5 - X).toNat m ++ t :: rest
        = (if decide (x < 0) = true then ['-'] else []) ++ d :: (ds ++ t :: rest) := by
      rw [hd]
      simp
    have e2 : d :: (ds ++ t :: rest) = gText (5 - X).toNat m ++ t :: rest := by
      rw [hd]
      rfl
    rw [e, conv_g_signed s _ d _ hs hdig, e2, hsm]
    dsimp only
    rw [if_neg hcnt, scanExp_none t rest he hE]
    refine ⟨_, rfl, ?_⟩
    unfold dec_lit.value
    dsimp only
    have hv := stripZeros_value (5 - X).toNat m
    have hX : X - 5 = -(((5 - X).toNat : Nat) : Int) := by
      have : X ≤ 5 := by omega
      omega
    have h10 : (10 : ℚ) ^ (X - 5) = 1 / (10 : ℚ) ^ (5 - X).toNat := by
      rw [hX, zpow_neg, zpow_natCast, one_div]
    rw [h10, mul_div_assoc, hv]
    by_cases hx : x < 0
    · simp only [hx, decide_True, if_true]
      simp
      ring
    · simp only [hx, decide_False, if_false, Bool.false_eq_true]
      simp
      ring

/-! ## The model file: the header written by `writeForest` -/

theorem conv_s_label (w : List Char) (s : Char) (rest : List Char) (h0 : w ≠ [])
    (hw : ∀ c ∈ w, isspace c = false) (hs : isspace s = true) :
    conv_s (w ++ s :: rest) = conv_result.ok () (s :: rest) := by
  obtain ⟨c, cs, hc⟩ := List.exists_cons_of_ne_nil h0
  subst hc
  exact conv_s_word c cs s rest (hw c (List.mem_cons_self _ _))
    (fun x hx => hw x (List.mem_cons_of_mem _ hx)) hs

/-- A call `fscanf(fp, "%*s<conv>", &x)` at a line `label: item`: the
label is discarded and the item is assigned. -/
theorem fscanf_s_conv_line {α : Type} (conv : List Char → conv_result α) (lbl X : List Char)
    (v : α) (R : List Char) (h0 : lbl ≠ []) (hl : ∀ c ∈ lbl, isspace c = false)
    (hconv : conv (' ' :: X) = conv_result.ok v R) :
    fscanf_s_conv conv (lbl ++ ' ' :: X) = { ret := 1, val := some v, rest := R } := by
  unfold fscanf_s_conv
  rw [conv_s_label lbl ' ' X h0 hl (by decide)]
  dsimp only
  rw [hconv]

theorem fscanf_s_conv_space {α : Type} (conv : List Char → conv_result α) (s : Char)
    (l : List Char) (hs : isspace s = true) :
    fscanf_s_conv conv (s :: l) = fscanf_s_conv conv l := by
  unfold fscanf_s_conv
  rw [conv_s_space s l hs]

/-- The trees follow the header in the text of `writeForest`. -/
theorem writeTrees_append (tio : tree_file) (f : forest_t) (n : Nat) (fp : List Char) :
    forLoop n (fun i fp => fp ++ tio.writeTree (f.tree i)) fp
      = fp ++ forLoop n (fun i fp => fp ++ tio.writeTree (f.tree i)) [] := by
  induction n with
  | zero => simp [forLoop]
  | succ n ih =>
    rw [forLoop_succ, forLoop_succ, ih, List.append_assoc]

theorem committeename_spec (c : Int) (name : List Char) (h : committeename c = some name) :
    name ≠ [] ∧ (∀ x ∈ name, isspace x = false) ∧
    (name = "Bagging".toList ∨ name = "Boosting".toList ∨ name = "RandomForest".toList) := by
  unfold committeename at h
  split_ifs at h
  · have e : name = "Bagging".toList := (Option.some.inj h).symm
    subst e
    exact ⟨by decide, by decide, Or.inl rfl⟩
  · have e : name = "Boosting".toList := (Option.some.inj h).symm
    subst e
    exact ⟨by decide, by decide, Or.inr (Or.inl rfl)⟩
  · have e : name = "RandomForest".toList := (Option.some.inj h).symm
    subst e
    exact ⟨by decide, by decide, Or.inr (Or.inr rfl)⟩

/-- The text that `writeForest` writes for a committee code that has a
name: the five lines of the header, then the trees. -/
theorem writeForest_text (tio : tree_file) (f : forest_t) (fname : String) (name : List Char)
    (h : committeename f.committee = some name) :
    writeForest tio f fname true
      = write_outcome.written
          ("committee:".toList ++ ' ' :: (fmt_d f.committee ++ ' ' :: ('(' :: (name ++ [')']
            ++ Char.ofNat 10 :: ("trees:".toList ++ ' ' :: (fmt_d f.ngrown
            ++ Char.ofNat 10 :: ("features:".toList ++ ' ' :: (fmt_d f.nfeat
            ++ Char.ofNat 10 :: ("maxdepth:".toList ++ ' ' :: (fmt_d f.maxdepth
            ++ Char.ofNat 10 :: ("fpnfactor:".toList ++ ' ' :: (fmt_g f.factor
            ++ Char.ofNat 10
              :: forLoop f.ngrown.toNat
                  (fun i fp => fp ++ tio.writeTree (f.tree i)) [])))))))))))) := by
  unfold writeForest
  rw [if_neg (by decide), h]
  dsimp only
  rw [writeTrees_append]
  simp only [List.append_assoc]
  rfl

/-- The five calls of `fscanf` of `readForest` on the text of
`writeForest`: every field is assigned, the four integers as they were
written and the factor as the `float` nearest to its six significant
digits, and the fifth call returns 1. -/
theorem readHeader_writeForest (tio : tree_file) (f f0 : forest_t) (fname : String)
    (name : List Char) (h : committeename f.committee = some name) :
    ∃ text : List Char,
      writeForest tio f fname true = write_outcome.written text ∧
      (readHeader f0 text).1
        = { f0 with
            committee := f.committee
            ngrown := f.ngrown
            nfeat := f.nfeat
            maxdepth := f.maxdepth
            factor := f32q (g6 f.factor) } ∧
      (readHeader f0 text).2.1 = 1 := by
  refine ⟨_, writeForest_text tio f fname name h, ?_⟩
  obtain ⟨hn0, hns, _⟩ := committeename_spec _ _ h
  generalize forLoop f.ngrown.toNat (fun i fp => fp ++ tio.writeTree (f.tree i)) [] = trees
  obtain ⟨l, hl, hval⟩ := conv_g_fmt_g f.factor ' ' (Char.ofNat 10) trees (by decide) (by decide)
    (by decide) (by decide) (by decide)
  have h5 := fscanf_s_conv_line conv_g "fpnfactor:".toList
    (fmt_g f.factor ++ Char.ofNat 10 :: trees) l (Char.ofNat 10 :: trees) (by decide) (by decide) hl
  generalize hR4 : "fpnfactor:".toList ++ ' ' :: (fmt_g f.factor ++ Char.ofNat 10 :: trees)
    = R4 at h5 ⊢
  have h4 := fscanf_s_conv_line conv_d "maxdepth:".toList
    (fmt_d f.maxdepth ++ Char.ofNat 10 :: R4) f.maxdepth (Char.ofNat 10 :: R4) (by decide)
    (by decide) (conv_d_fmt_d _ _ _ _ (by decide) (by decide))
  generalize hR3 : "maxdepth:".toList ++ ' ' :: (fmt_d f.maxdepth ++ Char.ofNat 10 :: R4)
    = R3 at h4 ⊢
  have h3 := fscanf_s_conv_line conv_d "features:".toList
    (fmt_d f.nfeat ++ Char.ofNat 10 :: R3) f.nfeat (Char.ofNat 10 :: R3) (by decide)
    (by decide) (conv_d_fmt_d _ _ _ _ (by decide) (by decide))
  generalize hR2 : "features:".toList ++ ' ' :: (fmt_d f.nfeat ++ Char.ofNat 10 :: R3)
    = R2 at h3 ⊢
  have h2 := fscanf_s_conv_line conv_d "trees:".toList
    (fmt_d f.ngrown ++ Char.ofNat 10 :: R2) f.ngrown (Char.ofNat 10 :: R2) (by decide)
    (by decide) (conv_d_fmt_d _ _ _ _ (by decide) (by decide))
  generalize hR1 : "trees:".toList ++ ' ' :: (fmt_d f.ngrown ++ Char.ofNat 10 :: R2)
    = R1 at h2 ⊢
  have h1a := fscanf_s_conv_line conv_d "committee:".toList
    (fmt_d f.committee ++ ' ' :: ('(' :: (name ++ [')'] ++ Char.ofNat 10 :: R1))) f.committee
    (' ' :: ('(' :: (name ++ [')'] ++ Char.ofNat 10 :: R1))) (by decide)
    (by decide) (conv_d_fmt_d _ _ _ _ (by decide) (by decide))
  have hname : conv_s (' ' :: ('(' :: (name ++ [')'] ++ Char.ofNat 10 :: R1)))
      = conv_result.ok () (Char.ofNat 10 :: R1) := by
    rw [conv_s_space _ _ (by decide)]
    apply conv_s_word
    · decide
    · intro c hc
      rcases List.mem_append.1 hc with hc | hc
      · exact hns c hc
      · rw [List.mem_singleton.1 hc]
        decide
    · decide
  have h1 : fscanf_s_d_s ("committee:".toList
      ++ ' ' :: (fmt_d f.committee ++ ' ' :: ('(' :: (name ++ [')'] ++ Char.ofNat 10 :: R1))))
      = { ret := 1, val := some f.committee, rest := Char.ofNat 10 :: R1 } := by
    unfold fscanf_s_d_s
    rw [h1a]
    dsimp only
    rw [hname]
  have s2 := fscanf_s_conv_space conv_d (Char.ofNat 10) R1 (by decide)
  have s3 := fscanf_s_conv_space conv_d (Char.ofNat 10) R2 (by decide)
  have s4 := fscanf_s_conv_space conv_d (Char.ofNat 10) R3 (by decide)
  have s5 := fscanf_s_conv_space conv_g (Char.ofNat 10) R4 (by decide)
  rw [h2] at s2
  rw [h3] at s3
  rw [h4] at s4
  rw [h5] at s5
  unfold readHeader
  dsimp only
  rw [h1]
  dsimp only
  rw [s2]
  dsimp only
  rw [s3]
  dsimp only
  rw [s4]
  dsimp only
  rw [s5]
  dsimp only
  rw [hval]
  exact ⟨rfl, rfl⟩

/-! ## The model file: the six significant digits of `%g` -/

theorem log10Up_spec (fuel p q X : Nat) (h1 : 10 ^ X * q ≤ p) (h2 : p < 10 ^ (X + fuel) * q) :
    10 ^ (log10Up fuel p q X) * q ≤ p ∧ p < 10 ^ (log10Up fuel p q X + 1) * q := by
  induction fuel generalizing X with
  | zero =>
    rw [Nat.add_zero] at h2
    omega
  | succ fuel ih =>
    unfold log10Up
    by_cases h : 10 ^ (X + 1) * q ≤ p
    · rw [if_pos h]
      exact ih (X + 1) h (by
        have e : X + 1 + fuel = X + (fuel + 1) := by omega
        rw [e]
        exact h2)
    · rw [if_neg h]
      exact ⟨h1, by omega⟩

theorem log10Down_spec (fuel p q Y : Nat) (h1 : p * 10 ^ Y < q * 10)
    (h2 : q ≤ p * 10 ^ (Y + fuel)) :
    p * 10 ^ (log10Down fuel p q Y) < q * 10 ∧ q ≤ p * 10 ^ (log10Down fuel p q Y) := by
  induction fuel generalizing Y with
  | zero =>
    unfold log10Down
    rw [Nat.add_zero] at h2
    exact ⟨h1, h2⟩
  | succ fuel ih =>
    unfold log10Down
    by_cases h : q ≤ p * 10 ^ Y
    · rw [if_pos h]
      exact ⟨h1, h⟩
    · rw [if_neg h]
      refine ih (Y + 1) ?_ (by
        have e : Y + 1 + fuel = Y + (fuel + 1) := by omega
        rw [e]
        exact h2)
      rw [pow_succ, ← mul_assoc]
      have : p * 10 ^ Y < q := by omega
      omega

/-- The decimal exponent: `10 ^ X <= p / q < 10 ^ (X + 1)`. -/
theorem decExponent_spec (p q : Nat) (hp : 0 < p) (hq : 0 < q) :
    (10 : ℚ) ^ (decExponent p q) ≤ (p : ℚ) / (q : ℚ) ∧
    (p : ℚ) / (q : ℚ) < (10 : ℚ) ^ (decExponent p q + 1) := by
  have hqq : (0 : ℚ) < (q : ℚ) := by exact_mod_cast hq
  unfold decExponent
  by_cases h : q ≤ p
  · rw [if_pos h]
    have hs := log10Up_spec p p q 0 (by simpa using h) (by
      rw [Nat.zero_add]
      calc p < 10 ^ p := Nat.lt_pow_self (by norm_num) p
        _ ≤ 10 ^ p * q := Nat.le_mul_of_pos_right _ hq)
    generalize log10Up p p q 0 = r at hs
    constructor
    · rw [zpow_natCast, le_div_iff₀ hqq]
      exact_mod_cast hs.1
    · have e : ((r : Int) + 1) = ((r + 1 : Nat) : Int) := by push_cast; rfl
      rw [e, zpow_natCast, div_lt_iff₀ hqq]
      exact_mod_cast hs.2
  · rw [if_neg h]
    have hs := log10Down_spec q p q 1 (by omega) (by
      calc q ≤ 10 ^ q := Nat.le_of_lt (Nat.lt_pow_self (by norm_num) q)
        _ ≤ 10 ^ (1 + q) := Nat.pow_le_pow_right (by norm_num) (by omega)
        _ ≤ p * 10 ^ (1 + q) := Nat.le_mul_of_pos_left _ hp)
    generalize log10Down q p q 1 = r at hs
    have h10 : (0 : ℚ) < (10 : ℚ) ^ r := by positivity
    constructor
    · rw [zpow_neg, zpow_natCast, le_div_iff₀ hqq, inv_mul_le_iff₀ h10]
      have : (q : ℚ) ≤ (p : ℚ) * 10 ^ r := by exact_mod_cast hs.2
      linarith
    · have e : (10 : ℚ) ^ (-(r : Int) + 1) = 10 / (10 : ℚ) ^ r := by
        rw [zpow_add₀ (by norm_num), zpow_neg, zpow_natCast, zpow_one]
        field_simp
      rw [e, div_lt_div_iff₀ hqq h10]
      have : (p : ℚ) * 10 ^ r < (q : ℚ) * 10 := by exact_mod_cast hs.1
      linarith

/-- Rounding to an integer moves a quotient by at most one half. -/
theorem roundHalfEven_spec (N D : Nat) (hD : 0 < D) :
    |(roundHalfEven N D : ℚ) - (N : ℚ) / (D : ℚ)| ≤ 1 / 2 := by
  have hDq : (0 : ℚ) < (D : ℚ) := by exact_mod_cast hD
  have hN : (N : ℚ) = ((N / D : Nat) : ℚ) * (D : ℚ) + ((N % D : Nat) : ℚ) := by
    have := Nat.div_add_mod' N D
    exact_mod_cast this.symm
  have hr : ((N % D : Nat) : ℚ) < (D : ℚ) := by exact_mod_cast Nat.mod_lt N hD
  have hr0 : (0 : ℚ) ≤ ((N % D : Nat) : ℚ) := by positivity
  have hdiv : (N : ℚ) / (D : ℚ) = ((N / D : Nat) : ℚ) + ((N % D : Nat) : ℚ) / (D : ℚ) := by
    rw [hN]
    field_simp
  have hfr : ((N % D : Nat) : ℚ) / (D : ℚ) < 1 := by
    rw [div_lt_one hDq]
    exact hr
  have hfr0 : (0 : ℚ) ≤ ((N % D : Nat) : ℚ) / (D : ℚ) := by positivity
  unfold roundHalfEven
  dsimp only
  rw [hdiv]
  by_cases h1 : 2 * (N % D) < D
  · rw [if_pos h1]
    have : ((N % D : Nat) : ℚ) / (D : ℚ) ≤ 1 / 2 := by
      rw [div_le_iff₀ hDq]
      have : (2 : ℚ) * ((N % D : Nat) : ℚ) < (D : ℚ) := by exact_mod_cast h1
      linarith
    rw [abs_le]
    constructor <;> linarith
  · rw [if_neg h1]
    by_cases h2 : D < 2 * (N % D)
    · rw [if_pos h2]
      have : 1 / 2 ≤ ((N % D : Nat) : ℚ) / (D : ℚ) := by
        rw [le_div_iff₀ hDq]
        have : (D : ℚ) < (2 : ℚ) * ((N % D : Nat) : ℚ) := by exact_mod_cast h2
        linarith
      rw [abs_le]
      push_cast
      constructor <;> linarith
    · rw [if_neg h2]
      have he : 2 * (N % D) = D := by omega
      have : ((N % D : Nat) : ℚ) / (D : ℚ) = 1 / 2 := by
        rw [div_eq_iff (ne_of_gt hDq)]
        have : (2 : ℚ) * ((N % D : Nat) : ℚ) = (D : ℚ) := by exact_mod_cast he
        linarith
      split_ifs
      · rw [abs_le]
        constructor <;> linarith
      · rw [abs_le]
        push_cast
        constructor <;> linarith

/-- The six digits of `p / q > 0`: a mantissa in `[10 ^ 5, 10 ^ 6)` whose
number `m * 10 ^ (X - 5)` is within half a unit of the sixth digit, hence
within 5 millionths, of `p / q`. -/
theorem sig6_spec (p q : Nat) (hp : 0 < p) (hq : 0 < q) :
    10 ^ 5 ≤ (sig6 p q).1 ∧ (sig6 p q).1 < 10 ^ 6 ∧
    |((sig6 p q).1 : ℚ) * (10 : ℚ) ^ ((sig6 p q).2 - 5) - (p : ℚ) / (q : ℚ)| * 200000
      ≤ (p : ℚ) / (q : ℚ) := by
  have hqq : (0 : ℚ) < (q : ℚ) := by exact_mod_cast hq
  have hX := decExponent_spec p q hp hq
  unfold sig6
  rw [if_neg (by omega)]
  dsimp only
  generalize decExponent p q = X at hX
  have h10 : (0 : ℚ) < (10 : ℚ) ^ (X - 5) := by positivity
  have h10' : (0 : ℚ) < (10 : ℚ) ^ (5 - X) := by positivity
  have hinv : (10 : ℚ) ^ (X - 5) * (10 : ℚ) ^ (5 - X) = 1 := by
    rw [← zpow_add₀ (by norm_num)]
    have : X - 5 + (5 - X) = 0 := by ring
    rw [this, zpow_zero]
  have hX5 : (10 : ℚ) ^ X = 100000 * (10 : ℚ) ^ (X - 5) := by
    have h5 : (10 : ℚ) ^ (5 : Int) = 100000 := by norm_num
    rw [zpow_sub₀ (by norm_num), h5]
    ring
  have hX6 : (10 : ℚ) ^ (X + 1) = 1000000 * (10 : ℚ) ^ (X - 5) := by
    rw [zpow_add₀ (by norm_num), hX5]
    norm_num
    ring
  -- the rounded mantissa, whichever way the quotient is scaled
  obtain ⟨m0, hm0, hround⟩ : ∃ m0 : Nat,
      (if X ≤ 5 then roundHalfEven (p * 10 ^ (5 - X).toNat) q
        else roundHalfEven p (q * 10 ^ (X - 5).toNat)) = m0 ∧
      |(m0 : ℚ) - (p : ℚ) / (q : ℚ) * (10 : ℚ) ^ (5 - X)| ≤ 1 / 2 := by
    refine ⟨_, rfl, ?_⟩
    by_cases h : X ≤ 5
    · rw [if_pos h]
      have hr := roundHalfEven_spec (p * 10 ^ (5 - X).toNat) q hq
      have e : (10 : ℚ) ^ (5 - X) = (10 : ℚ) ^ (5 - X).toNat := by
        rw [← zpow_natCast]
        congr 1
        omega
      rw [e]
      have e2 : ((p * 10 ^ (5 - X).toNat : Nat) : ℚ) / (q : ℚ)
          = (p : ℚ) / (q : ℚ) * (10 : ℚ) ^ (5 - X).toNat := by
        push_cast
        ring
      rw [e2] at hr
      exact hr
    · rw [if_neg h]
      have hr := roundHalfEven_spec p (q * 10 ^ (X - 5).toNat) (by positivity)
      have e : (10 : ℚ) ^ (5 - X) = ((10 : ℚ) ^ (X - 5).toNat)⁻¹ := by
        rw [← zpow_natCast, ← zpow_neg]
        congr 1
        omega
      rw [e]
      have e2 : (p : ℚ) / ((q * 10 ^ (X - 5).toNat : Nat) : ℚ)
          = (p : ℚ) / (q : ℚ) * ((10 : ℚ) ^ (X - 5).toNat)⁻¹ := by
        push_cast
        rw [div_mul_eq_div_div, div_eq_mul_inv ((p : ℚ) / (q : ℚ))]
      rw [e2] at hr
      exact hr
  rw [hm0]
  have hsc1 : (100000 : ℚ) ≤ (p : ℚ) / (q : ℚ) * (10 : ℚ) ^ (5 - X) := by
    have := mul_le_mul_of_nonneg_right hX.1 (le_of_lt h10')
    rw [hX5, mul_assoc, hinv, mul_one] at this
    exact this
  have hsc2 : (p : ℚ) / (q : ℚ) * (10 : ℚ) ^ (5 - X) < 1000000 := by
    have := mul_lt_mul_of_pos_right hX.2 h10'
    rw [hX6, mul_assoc, hinv, mul_one] at this
    exact this
  rw [abs_le] at hround
  have hlo : 100000 ≤ m0 := by
    have : (99999 : ℚ) < (m0 : ℚ) := by linarith
    have : 99999 < m0 := by exact_mod_cast this
    omega
  have hhi : m0 ≤ 1000000 := by
    have : (m0 : ℚ) < 1000001 := by linarith
    have : m0 < 1000001 := by exact_mod_cast this
    omega
  -- the number that the digits spell
  have hval : |(m0 : ℚ) * (10 : ℚ) ^ (X - 5) - (p : ℚ) / (q : ℚ)| * 200000
      ≤ (p : ℚ) / (q : ℚ) := by
    have e : (m0 : ℚ) * (10 : ℚ) ^ (X - 5) - (p : ℚ) / (q : ℚ)
        = ((m0 : ℚ) - (p : ℚ) / (q : ℚ) * (10 : ℚ) ^ (5 - X)) * (10 : ℚ) ^ (X - 5) := by
      rw [sub_mul, mul_assoc, mul_comm ((10 : ℚ) ^ (5 - X)), hinv, mul_one]
    rw [e, abs_mul, abs_of_pos h10]
    have ha : |(m0 : ℚ) - (p : ℚ) / (q : ℚ) * (10 : ℚ) ^ (5 - X)| ≤ 1 / 2 := by
      rw [abs_le]
      exact hround
    have hbig : 100000 * (10 : ℚ) ^ (X - 5) ≤ (p : ℚ) / (q : ℚ) := by
      rw [← hX5]
      exact hX.1
    have := mul_le_mul_of_nonneg_right ha (le_of_lt h10)
    nlinarith
  by_cases h6 : m0 = 10 ^ 6
  · rw [if_pos h6]
    dsimp only
    refine ⟨le_refl _, by norm_num, ?_⟩
    have e : ((10 ^ 5 : Nat) : ℚ) * (10 : ℚ) ^ (X + 1 - 5)
        = (m0 : ℚ) * (10 : ℚ) ^ (X - 5) := by
      rw [h6]
      have : X + 1 - 5 = (X - 5) + 1 := by ring
      rw [this, zpow_add₀ (by norm_num)]
      push_cast
      ring
    rw [e]
    exact hval
  · rw [if_neg h6]
    dsimp only
    refine ⟨by omega, ?_, hval⟩
    have : m0 ≠ 1000000 := by
      intro hh
      apply h6
      rw [hh]
      norm_num
    have : m0 < 1000000 := by omega
    calc m0 < 1000000 := this
      _ = 10 ^ 6 := by norm_num

/-- The number that `%g` writes is the argument to within 5 millionths of
its size: six significant digits. -/
theorem g6_close (x : ℚ) : |g6 x - x| * 200000 ≤ |x| := by
  unfold g6
  by_cases h0 : x = 0
  · subst h0
    have : sig6 (0 : ℚ).num.natAbs (0 : ℚ).den = (0, 0) := by decide
    rw [this]
    simp
  · have hnum : x.num ≠ 0 := by
      intro h
      exact h0 (Rat.num_eq_zero.1 h)
    have hp : 0 < x.num.natAbs := Int.natAbs_pos.2 hnum
    have hs := (sig6_spec x.num.natAbs x.den hp x.den_pos).2.2
    generalize sig6 x.num.natAbs x.den = mX at hs
    have hx : x = (x.num : ℚ) / (x.den : ℚ) := (Rat.num_div_den x).symm
    have hden : (0 : ℚ) < (x.den : ℚ) := by exact_mod_cast x.den_pos
    by_cases hneg : x < 0
    · rw [if_pos hneg]
      have hn : x.num < 0 := Rat.num_neg.2 hneg
      have ha : ((x.num.natAbs : Nat) : ℚ) / (x.den : ℚ) = -x := by
        have : ((x.num.natAbs : Nat) : ℚ) = -(x.num : ℚ) := by
          rw [Nat.cast_natAbs, abs_of_neg hn, Int.cast_neg]
        rw [this, neg_div, ← hx]
      rw [ha] at hs
      have e : -1 * (mX.1 : ℚ) * (10 : ℚ) ^ (mX.2 - 5) - x
          = -((mX.1 : ℚ) * (10 : ℚ) ^ (mX.2 - 5) - -x) := by ring
      rw [e, abs_neg, abs_of_neg hneg]
      exact hs
    · rw [if_neg hneg]
      have hn : 0 ≤ x.num := Rat.num_nonneg.2 (not_lt.1 hneg)
      have ha : ((x.num.natAbs : Nat) : ℚ) / (x.den : ℚ) = x := by
        have : ((x.num.natAbs : Nat) : ℚ) = (x.num : ℚ) := by
          rw [Nat.cast_natAbs, abs_of_nonneg hn]
        rw [this, ← hx]
      rw [ha] at hs
      rw [one_mul, abs_of_nonneg (not_lt.1 hneg)]
      exact hs

theorem committeename_some (c : Int) (h : c = 1 ∨ c = 2 ∨ c = 3) :
    ∃ name : List Char, committeename c = some name := by
  rcases h with h | h | h <;> subst h
  · exact ⟨_, rfl⟩
  · exact ⟨_, rfl⟩
  · exact ⟨_, rfl⟩

/-- The six significant digits of 1234567 spell 1234570. -/
theorem g6_example : g6 1234567 = 1234570 := by
  unfold g6
  have h : sig6 (1234567 : ℚ).num.natAbs (1234567 : ℚ).den = (123457, 6) := by decide
  rw [h]
  norm_num

/-- The `float` nearest to 1/10 as a fraction in lowest terms. -/
theorem tenth_num :
    ((13421773 : ℚ) / 134217728).num = 13421773 ∧
    ((13421773 : ℚ) / 134217728).den = 134217728 := by
  have e : ((13421773 : ℚ) / 134217728) = ((13421773 : ℤ) : ℚ) / ((134217728 : ℤ) : ℚ) := by
    norm_num
  have h1 := Rat.num_div_eq_of_coprime (a := 13421773) (b := 134217728) (by norm_num)
    (by norm_num)
  have h2 := Rat.den_div_eq_of_coprime (a := 13421773) (b := 134217728) (by norm_num)
    (by norm_num)
  rw [e]
  exact ⟨h1, by omega⟩

/-- The six significant digits of the `float` nearest to 1/10 spell 0.1. -/
theorem g6_tenth : g6 ((13421773 : ℚ) / 134217728) = 1 / 10 := by
  unfold g6
  rw [tenth_num.1, tenth_num.2]
  have h : sig6 (13421773 : Int).natAbs 134217728 = (100000, -1) := by decide
  rw [h]
  norm_num

/-- The decimal 0.1 is read as the `float` nearest to 1/10. -/
theorem f32q_tenth : f32q (1 / 10) = (13421773 : ℚ) / 134217728 := by
  unfold f32q
  have hn : ((1 : ℚ) / 10).num = 1 ∧ ((1 : ℚ) / 10).den = 10 := by
    have e : ((1 : ℚ) / 10) = ((1 : ℤ) : ℚ) / ((10 : ℤ) : ℚ) := by norm_num
    have h1 := Rat.num_div_eq_of_coprime (a := 1) (b := 10) (by norm_num) (by norm_num)
    have h2 := Rat.den_div_eq_of_coprime (a := 1) (b := 10) (by norm_num) (by norm_num)
    rw [e]
    exact ⟨h1, by omega⟩
  rw [hn.1, hn.2]
  have h : f32 (1, 10) = (13421773, 134217728) := by decide
  rw [h]
  norm_num [fracVal]

/-- C11 as stated fails for the factor: `%g` writes six significant
digits.  The forest with committee 3, no tree grown, depth 1000 and factor
1234567 (a `float`) is written with the line `fpnfactor: 1.23457e+06`, and
`readForest` reads the factor 1234570 from that text. -/
theorem header_round_trip_counterexample :
    (initForest zeroForest RANDOMFOREST 1000 1234567 5 1 0 none).factor = 1234567 ∧
    f32q 1234567 = 1234567 ∧
    writeForest noTrees (initForest zeroForest RANDOMFOREST 1000 1234567 5 1 0 none)
        "model" true
      = write_outcome.written
          "committee: 3 (RandomForest)\ntrees: 0\nfeatures: 0\nmaxdepth: 1000\nfpnfactor: 1.23457e+06\n".toList ∧
    ∃ (g : forest_t) (w : List String),
      readForest noTrees zeroForest "model"
          (some
            "committee: 3 (RandomForest)\ntrees: 0\nfeatures: 0\nmaxdepth: 1000\nfpnfactor: 1.23457e+06\n".toList)
        = Except.ok (g, w) ∧
      g.factor = 1234570 := by
  have ht : writeForest noTrees (initForest zeroForest RANDOMFOREST 1000 1234567 5 1 0 none)
        "model" true
      = write_outcome.written
          "committee: 3 (RandomForest)\ntrees: 0\nfeatures: 0\nmaxdepth: 1000\nfpnfactor: 1.23457e+06\n".toList := by
    rw [writeForest_text noTrees (initForest zeroForest RANDOMFOREST 1000 1234567 5 1 0 none)
      "model" "RandomForest".toList rfl]
    have hg : fmt_g (initForest zeroForest RANDOMFOREST 1000 1234567 5 1 0 none).factor
        = "1.23457e+06".toList := by
      show fmt_g 1234567 = _
      decide
    rw [hg]
    rfl
  have hfl : f32q 1234567 = 1234567 := by
    unfold f32q
    have h : f32 ((1234567 : ℚ).num, (1234567 : ℚ).den) = (9876536, 8) := by decide
    rw [h]
    norm_num [fracVal]
  refine ⟨rfl, hfl, ht, ?_⟩
  obtain ⟨text, h1, h2, h3⟩ := readHeader_writeForest noTrees
    (initForest zeroForest RANDOMFOREST 1000 1234567 5 1 0 none) zeroForest "model"
    "RandomForest".toList rfl
  rw [ht] at h1
  have e := write_outcome.written.inj h1
  rw [← e] at h2 h3
  obtain ⟨g, w, hg, _, _, _, _, c5⟩ := readForest_of_header noTrees zeroForest "model" _
    (by rw [h3]; exact (by decide : (1 : Int) ≠ EOF))
  refine ⟨g, w, hg, ?_⟩
  rw [c5, h2]
  show f32q (g6 1234567) = 1234570
  rw [g6_example, f32q_example]

/-- C11 (amended: the factor comes back as the `float` nearest to the six
significant digits that `%g` writes, not as the written factor in every
case): for every forest whose committee code is 1, 2 or 3, with any grown
count, feature count, depth and factor, any trees and any tree module,
`writeForest` writes a text, and `readForest` on that text, called on any
forest record, returns a forest whose committee code, grown count, feature
count and depth equal those of the written forest and whose factor is the
`float` nearest to the written factor rounded to six significant digits;
that rounding is within 5 millionths of the size of the written factor. -/
theorem header_round_trip (tio : tree_file) (f f0 : forest_t) (fname : String)
    (hc : f.committee = 1 ∨ f.committee = 2 ∨ f.committee = 3) :
    ∃ (text : List Char) (g : forest_t) (w : List String),
      writeForest tio f fname true = write_outcome.written text ∧
      readForest tio f0 fname (some text) = Except.ok (g, w) ∧
      g.committee = f.committee ∧
      g.ngrown = f.ngrown ∧
      g.nfeat = f.nfeat ∧
      g.maxdepth = f.maxdepth ∧
      g.factor = f32q (g6 f.factor) ∧
      |g6 f.factor - f.factor| * 200000 ≤ |f.factor| := by
  obtain ⟨name, hn⟩ := committeename_some f.committee hc
  obtain ⟨text, h1, h2, h3⟩ := readHeader_writeForest tio f f0 fname name hn
  obtain ⟨g, w, hg, c1, c2, c3, c4, c5⟩ := readForest_of_header tio f0 fname text
    (by rw [h3]; exact (by decide : (1 : Int) ≠ EOF))
  rw [h2] at c1 c2 c3 c4 c5
  exact ⟨text, g, w, h1, hg, c1, c2, c3, c4, c5, g6_close f.factor⟩

/-- C11 on the forest with committee 3, depth 2 and the `float` nearest to
1/10 as factor: the factor is written as `0.1` and read back as the same
`float`. -/
theorem header_round_trip_witness :
    ∃ (text : List Char) (g : forest_t) (w : List String),
      writeForest noTrees
          (initForest zeroForest RANDOMFOREST 2 (13421773 / 134217728) 5 1 1 none) "model" true
        = write_outcome.written text ∧
      readForest noTrees zeroForest "model" (some text) = Except.ok (g, w) ∧
      g.committee = 3 ∧ g.maxdepth = 2 ∧ g.factor = 13421773 / 134217728 := by
  obtain ⟨text, g, w, h1, h2, h3, _, _, h6, h7, _⟩ :=
    header_round_trip noTrees
      (initForest zeroForest RANDOMFOREST 2 (13421773 / 134217728) 5 1 1 none) zeroForest
      "model" (Or.inr (Or.inr rfl))
  refine ⟨text, g, w, h1, h2, h3, h6, ?_⟩
  rw [h7]
  show f32q (g6 (13421773 / 134217728)) = 13421773 / 134217728
  rw [g6_tenth, f32q_tenth]

end Fest
